import Mathlib

/-! Verification development for `dpdk_udp_nc/l2fwd.c`.

A shallow embedding of the UDP network-coding forwarder: the static port
pairing computed in `main`, the frame filter, the coding dispatcher, the
transmit path, the polling loops, the kernel bridge and the startup checks.  Machine integers are natural numbers or integers; arrays that
the C code indexes by port id are total maps from `Nat`.
-/

namespace L2fwd

/-! ## Port pairing (`main`, the `l2fwd_dst_ports` loop) -/

/-- Array write `a[k] = v` on a table indexed by port id. -/
def setPort (a : Nat → Nat) (k v : Nat) : Nat → Nat :=
  fun x => if x = k then v else a x

/-- Locals of `main` that the pairing loop reads and writes. -/
structure PairState where
  l2fwd_dst_ports : Nat → Nat
  last_port : Nat
  nb_ports_in_mask : Nat

/-- State before the pairing loop: the table is zeroed by the preceding
`for (portid = 0; portid < RTE_MAX_ETHPORTS; portid++)` loop, `last_port = 0`
and `nb_ports_in_mask = 0`. -/
def pairInit : PairState :=
  { l2fwd_dst_ports := fun _ => 0, last_port := 0, nb_ports_in_mask := 0 }

/-- Test `(l2fwd_enabled_port_mask & (1 << portid)) == 0`, negated: the port
is enabled. -/
def port_enabled (mask portid : Nat) : Bool :=
  (mask &&& (1 <<< portid)) != 0

/-- Body of the pairing loop for a port that passed the mask test. -/
def pair_body (st : PairState) (portid : Nat) : PairState :=
  if st.nb_ports_in_mask % 2 ≠ 0 then
    { l2fwd_dst_ports :=
        setPort (setPort st.l2fwd_dst_ports portid st.last_port) st.last_port portid
      last_port := st.last_port
      nb_ports_in_mask := st.nb_ports_in_mask + 1 }
  else
    { l2fwd_dst_ports := st.l2fwd_dst_ports
      last_port := portid
      nb_ports_in_mask := st.nb_ports_in_mask + 1 }

/-- One iteration of `RTE_ETH_FOREACH_DEV(portid) { ... }` in `main`:
disabled ports are skipped with `continue`. -/
def pair_step (mask : Nat) (st : PairState) (portid : Nat) : PairState :=
  if (mask &&& (1 <<< portid)) = 0 then st else pair_body st portid

/-- Statement after the loop: `if (nb_ports_in_mask % 2)
l2fwd_dst_ports[last_port] = last_port;`. -/
def pair_finish (st : PairState) : Nat → Nat :=
  if st.nb_ports_in_mask % 2 ≠ 0 then
    setPort st.l2fwd_dst_ports st.last_port st.last_port
  else st.l2fwd_dst_ports

/-- The table `l2fwd_dst_ports` as `main` leaves it, for the enabled-port
mask `mask` and the device enumeration `devs` (the port ids that
`RTE_ETH_FOREACH_DEV` yields, in order). -/
def main_dst_ports (mask : Nat) (devs : List Nat) : Nat → Nat :=
  pair_finish (devs.foldl (pair_step mask) pairInit)

/-- The enabled ports in the order the pairing loop visits them. -/
def enabled_ports (mask : Nat) (devs : List Nat) : List Nat :=
  devs.filter (port_enabled mask)

/-! ## Frames and process configuration -/

/-- Six bytes of `struct ether_addr` (`addr_bytes[0..5]`). -/
structure ether_addr where
  b0 : Nat
  b1 : Nat
  b2 : Nat
  b3 : Nat
  b4 : Nat
  b5 : Nat
  deriving DecidableEq, Repr

/-- Packet descriptor `struct rte_mbuf`, as far as the forwarder touches it:
the descriptor's address and the frame bytes found at its data pointer. -/
structure rte_mbuf where
  addr : Nat
  data : List Nat
  deriving DecidableEq, Repr

/-- Byte of the frame at offset `off` (what `rte_pktmbuf_mtod_offset` gives
access to), an 8-bit value; offsets past the stored bytes read as 0. -/
def rd (m : rte_mbuf) (off : Nat) : Nat := m.data.getD off 0 % 256

def ETHER_TYPE_IPv4 : Nat := 0x0800

def IPPROTO_UDP : Nat := 17

def ETHER_HDR_LEN : Nat := 14

/-- Field `ether_type` of `struct ether_hdr` (offset 12), as the number it
carries on the wire.  The C code compares the raw field with
`rte_cpu_to_be_16(ETHER_TYPE_IPv4)`, which is the same test as comparing the
wire value with `ETHER_TYPE_IPv4`. -/
def ether_type (m : rte_mbuf) : Nat := rd m 12 * 256 + rd m 13

/-- Field `d_addr` of `struct ether_hdr` (offset 0). -/
def d_addr (m : rte_mbuf) : ether_addr :=
  ⟨rd m 0, rd m 1, rd m 2, rd m 3, rd m 4, rd m 5⟩

/-- Field `s_addr` of `struct ether_hdr` (offset 6). -/
def s_addr (m : rte_mbuf) : ether_addr :=
  ⟨rd m 6, rd m 7, rd m 8, rd m 9, rd m 10, rd m 11⟩

/-- Field `next_proto_id` of `struct ipv4_hdr` (offset 9), the header being
at `ETHER_HDR_LEN`. -/
def next_proto_id (m : rte_mbuf) : Nat := rd m (ETHER_HDR_LEN + 9)

/-- Library function `is_same_ether_addr`: the six bytes agree. -/
def is_same_ether_addr (a b : ether_addr) : Bool := decide (a = b)

/-- Library function `ether_addr_copy` into the frame at byte offset `off`.
A write past the stored bytes does not change the frame. -/
def ether_addr_copy (a : ether_addr) (data : List Nat) (off : Nat) : List Nat :=
  (((((data.set off a.b0).set (off + 1) a.b1).set (off + 2) a.b2).set (off + 3) a.b3).set
    (off + 4) a.b4).set (off + 5) a.b5

/-- Globals of `l2fwd.c` that are fixed once startup is over. -/
structure Config where
  nb_ports : Nat
  l2fwd_ports_eth_addr : Nat → ether_addr
  l2fwd_dst_ports : Nat → Nat
  src_mac_addr : ether_addr
  dst_mac_addr : ether_addr
  mac_updating : Int
  filtering : Int
  kni_mode : Int
  debugging : Int
  coder_type : Int
  max_pkt_burst : Int
  max_poll_short_try : Int
  poll_short_interval_us : Int
  poll_long_interval_us : Int

/-! ## Frame filter -/

/-- Function `filter_ether_frame`: 1 accepts, -1 is not IPv4, -2 is not UDP,
-3 is a source MAC equal to one of the first `nb_ports` entries of
`l2fwd_ports_eth_addr`. -/
def filter_ether_frame (cfg : Config) (m : rte_mbuf) : Int :=
  if ether_type m ≠ ETHER_TYPE_IPv4 then -1
  else if next_proto_id m ≠ IPPROTO_UDP then -2
  else if (List.range cfg.nb_ports).any
      (fun i => is_same_ether_addr (s_addr m) (cfg.l2fwd_ports_eth_addr i)) then -3
  else 1

/-- Startup check of `main`:
`if (l2fwd_enabled_port_mask & ~((1 << nb_ports) - 1)) rte_exit(...)`,
on 32-bit words; `true` when the check lets startup go on. -/
def port_mask_ok (mask nb_ports : Nat) : Bool :=
  (mask &&& (2 ^ 32 - 1 - ((1 <<< nb_ports) - 1))) == 0

/-! ## Call log

Side effects are recorded as the sequence of calls a function makes: calls
into the packet I/O layer and the coding library, and entries into `nc_udp`,
`l2fwd_put_rxq` and `push_kni`.  Logging (`RTE_LOG`), prefetching and the
processing-delay measurement under `debugging` are left out. -/

/-- Global objects whose address is passed as an argument: the three coders
`enc`, `dec`, `rec`, the shared pool and the function `l2fwd_put_rxq`. -/
inductive Sym
  | enc
  | dec
  | rec_
  | l2fwd_pktmbuf_pool
  | l2fwd_put_rxq
  deriving DecidableEq, Repr

/-- One recorded call with its arguments.  In `rte_eth_tx_buffer` and
`rte_eth_tx_buffer_flush` the third argument is the index of the entry of
`tx_buffer` that is passed; in the two `rte_kni_` calls `portid` is the index
into `kni_port_params_array` whose `kni[0]` is passed; the two atomic
operations are on `kni_egress_sleep`. -/
inductive Call
  | rte_pktmbuf_free (m : rte_mbuf)
  | rte_eth_rx_burst (port_id queue_id : Nat) (nb_pkts : Int)
  | rte_eth_tx_buffer (port_id queue_id buffer : Nat) (m : rte_mbuf)
  | encode_udp_data (coder : Sym) (m : rte_mbuf) (pool : Sym) (portid : Nat) (put_rxq : Sym)
  | decode_udp_data (coder : Sym) (m : rte_mbuf) (pool : Sym) (portid : Nat) (put_rxq : Sym)
  | recode_udp_data (coder : Sym) (m : rte_mbuf) (pool : Sym) (portid : Nat) (put_rxq : Sym)
  | nc_udp (coder_type : Int) (m : rte_mbuf) (portid : Nat)
  | l2fwd_put_rxq (m : rte_mbuf) (portid : Nat)
  | push_kni (portid nb_rx : Nat) (pkts_burst : List (Option rte_mbuf)) (mod_ip : Nat)
  | rte_delay_us (us : Int)
  | usleep (us : Int)
  | rte_eth_tx_buffer_flush (port_id queue_id buffer : Nat)
  | poll_kni (portid : Nat)
  | rte_kni_tx_burst (portid : Nat) (pkts_burst : List (Option rte_mbuf)) (num : Nat)
  | rte_kni_handle_request (portid : Nat)
  | rte_atomic16_inc
  | rte_atomic16_clear
  | rte_kni_rx_burst (portid : Nat) (num : Int)
  deriving DecidableEq, Repr

/-- A burst array `struct rte_mbuf* pkts_burst[]`: a slot is `none` when it
holds `NULL`. -/
abbrev MbufArray := List (Option rte_mbuf)

/-- Loop body of `filter_mbuf_array` at index `i`.  The state is `none` once
the code has dereferenced a `NULL` slot or read outside the array. -/
def filter_mbuf_array_body (cfg : Config) (st : Option (MbufArray × List Call)) (i : Nat) :
    Option (MbufArray × List Call) :=
  match st with
  | none => none
  | some (mbuf_array, log) =>
    match mbuf_array[i]? with
    | some (some m) =>
      if filter_ether_frame cfg m ≠ 1 then
        some (mbuf_array.set i none, log ++ [Call.rte_pktmbuf_free m])
      else some (mbuf_array, log)
    | _ => none

/-- Function `filter_mbuf_array`: the array as it is left, and the calls
made. -/
def filter_mbuf_array (cfg : Config) (mbuf_array : MbufArray) (num : Nat) :
    Option (MbufArray × List Call) :=
  (List.range num).foldl (filter_mbuf_array_body cfg) (some (mbuf_array, []))

/-! ## Transmit path and coding dispatcher -/

/-- Function `l2fwd_mac_updating`: the source MAC field receives
`src_mac_addr`, then the destination MAC field receives `dst_mac_addr`. -/
def l2fwd_mac_updating (cfg : Config) (m : rte_mbuf) : rte_mbuf :=
  { m with data := ether_addr_copy cfg.dst_mac_addr (ether_addr_copy cfg.src_mac_addr m.data 6) 0 }

/-- Function `l2fwd_put_rxq`: the calls it makes. -/
def l2fwd_put_rxq (cfg : Config) (m : rte_mbuf) (portid : Nat) : List Call :=
  let dst_port := cfg.l2fwd_dst_ports portid
  let m1 := if cfg.mac_updating ≠ 0 then l2fwd_mac_updating cfg m else m
  [Call.rte_eth_tx_buffer dst_port 0 dst_port m1]

/-- Function `nc_udp`: the calls it makes; a call of `l2fwd_put_rxq` is
followed by the calls made inside it. -/
def nc_udp (cfg : Config) (coder_type : Int) (m : rte_mbuf) (portid : Nat) : List Call :=
  if coder_type = 0 then
    [Call.encode_udp_data Sym.enc m Sym.l2fwd_pktmbuf_pool portid Sym.l2fwd_put_rxq]
  else if coder_type = 1 then
    [Call.decode_udp_data Sym.dec m Sym.l2fwd_pktmbuf_pool portid Sym.l2fwd_put_rxq]
  else if coder_type = 2 then
    [Call.recode_udp_data Sym.rec_ m Sym.l2fwd_pktmbuf_pool portid Sym.l2fwd_put_rxq]
  else
    Call.l2fwd_put_rxq m portid :: l2fwd_put_rxq cfg m portid

/-! ## Receive step of `l2fwd_main_loop` -/

/-- Fields of `struct lcore_queue_conf`. -/
structure lcore_queue_conf where
  n_rx_port : Nat
  rx_port_list : Nat → Nat
  start_rx_flag : Nat → Bool
  rx_burst_try : Nat → Nat

/-- Mutable state of the polling loop: the queue configuration of the lcore,
the counter `nb_udp_dgrams`, and the calls made so far. -/
structure LoopState where
  qconf : lcore_queue_conf
  nb_udp_dgrams : Nat
  log : List Call

/-- How an iteration over one port leaves: on to the next port, or `return`
from the loop function. -/
inductive Flow
  | next
  | ret
  deriving DecidableEq, Repr

/-- Body of `for (j = 0; j < nb_rx; j++)` in `l2fwd_main_loop`, on the pair
(`nb_udp_dgrams`, calls made); `none` once a slot outside the array is
read. -/
def dispatch_body (cfg : Config) (portid : Nat) (pkts_burst : MbufArray)
    (st : Option (Nat × List Call)) (j : Nat) : Option (Nat × List Call) :=
  match st with
  | none => none
  | some (nb_udp_dgrams, log) =>
    match pkts_burst[j]? with
    | none => none
    | some none => some (nb_udp_dgrams, log)
    | some (some m) =>
      some ((nb_udp_dgrams + 1) % 2 ^ 64,
        log ++ Call.nc_udp cfg.coder_type m portid :: nc_udp cfg cfg.coder_type m portid)

/-- One iteration of `for (i = 0; i < qconf->n_rx_port; i++)` in the receive
part of `l2fwd_main_loop`.  The result of `rte_eth_rx_burst` is given as
`nb_rx` and the content `pkts_burst` of the array after the call. -/
def l2fwd_main_loop_rx (cfg : Config) (st : LoopState) (i : Nat) (nb_rx : Nat)
    (pkts_burst : MbufArray) : Option (Flow × LoopState) :=
  let portid := st.qconf.rx_port_list i
  if st.qconf.start_rx_flag i then
    let log0 := st.log ++ [Call.rte_eth_rx_burst portid 0 cfg.max_pkt_burst]
    if nb_rx > (cfg.max_pkt_burst % 65536).toNat then
      some (Flow.ret, { st with log := log0 })
    else if nb_rx = 0 then
      if cfg.max_poll_short_try = 0 then
        some (Flow.next, { st with log := log0 })
      else if (st.qconf.rx_burst_try i : Int) < cfg.max_poll_short_try then
        some (Flow.next,
          { st with
            qconf := { st.qconf with
              rx_burst_try := setPort st.qconf.rx_burst_try i
                ((st.qconf.rx_burst_try i + 1) % 65536) }
            log := log0 ++ [Call.rte_delay_us cfg.poll_short_interval_us] })
      else
        some (Flow.next, { st with log := log0 ++ [Call.usleep cfg.poll_long_interval_us] })
    else
      match (if cfg.filtering ≠ 0 then filter_mbuf_array cfg pkts_burst nb_rx
             else some (pkts_burst, [])) with
      | none => none
      | some (pkts1, frees) =>
        if cfg.kni_mode ≠ 0 then
          some (Flow.next,
            { st with
              qconf := { st.qconf with rx_burst_try := setPort st.qconf.rx_burst_try i 0 }
              log := log0 ++ frees ++ [Call.push_kni portid nb_rx pkts1 1] })
        else
          match (List.range nb_rx).foldl (dispatch_body cfg portid pkts1)
              (some (st.nb_udp_dgrams, log0 ++ frees)) with
          | none => none
          | some (n, log1) =>
            some (Flow.next,
              { qconf := { st.qconf with rx_burst_try := setPort st.qconf.rx_burst_try i 0 }
                nb_udp_dgrams := n
                log := log1 })
  else some (Flow.next, st)

/-! ## Specification-side helpers -/

/-- Verdict slot by slot: what `filter_mbuf_array` should leave in a slot. -/
def keep_accepted (cfg : Config) (slot : Option rte_mbuf) : Option rte_mbuf :=
  match slot with
  | none => none
  | some m => if filter_ether_frame cfg m = 1 then some m else none

/-- Descriptors of the first `num` slots that the filter does not accept, in
slot order. -/
def rejected (cfg : Config) (mbuf_array : MbufArray) (num : Nat) : List rte_mbuf :=
  ((mbuf_array.take num).filterMap id).filter (fun m => decide (filter_ether_frame cfg m ≠ 1))

/-- Calls that the dispatch loop of `l2fwd_main_loop` should make on the
first `nb_rx` slots: for each slot that holds a descriptor, in slot order, the
call of `nc_udp` and the calls made inside it. -/
def dispatched (cfg : Config) (portid : Nat) (pkts_burst : MbufArray) (nb_rx : Nat) :
    List Call :=
  ((pkts_burst.take nb_rx).filterMap id).flatMap
    (fun m => Call.nc_udp cfg.coder_type m portid :: nc_udp cfg cfg.coder_type m portid)

/-! ## Sample configuration and frames -/

/-- Two forwarding ports 0 and 1, paired by the startup loop, pass-through
coder, MAC rewriting and filtering on. -/
def sampleConfig : Config :=
  { nb_ports := 2
    l2fwd_ports_eth_addr := fun i =>
      if i = 0 then ⟨2, 0, 0, 0, 0, 1⟩ else if i = 1 then ⟨2, 0, 0, 0, 0, 2⟩
      else ⟨0, 0, 0, 0, 0, 0⟩
    l2fwd_dst_ports := main_dst_ports 3 [0, 1]
    src_mac_addr := ⟨2, 0, 0, 0, 0, 10⟩
    dst_mac_addr := ⟨2, 0, 0, 0, 0, 11⟩
    mac_updating := 1
    filtering := 1
    kni_mode := 0
    debugging := 0
    coder_type := -1
    max_pkt_burst := 32
    max_poll_short_try := 3
    poll_short_interval_us := 10
    poll_long_interval_us := 1000 }

/-- Frame bytes: Ethernet header, 20-byte IPv4 header, 8 further bytes. -/
def sampleBytes (src : List Nat) (etype : List Nat) (proto : Nat) : List Nat :=
  [2, 0, 0, 0, 0, 9] ++ src ++ etype
    ++ [0x45, 0, 0, 28, 0, 0, 0, 0, 64, proto, 0, 0, 10, 0, 0, 1, 10, 0, 0, 2]
    ++ [0x13, 0x88, 0x13, 0x89, 0, 8, 0, 0]

/-- An IPv4/UDP frame from a foreign station. -/
def frameUdp : rte_mbuf := ⟨4096, sampleBytes [2, 0, 0, 0, 0, 7] [8, 0] 17⟩

/-- An IPv4/TCP frame from a foreign station. -/
def frameTcp : rte_mbuf := ⟨8192, sampleBytes [2, 0, 0, 0, 0, 7] [8, 0] 6⟩

/-- An ARP frame whose source MAC is the MAC of forwarding port 0. -/
def frameArpLoop : rte_mbuf := ⟨12288, sampleBytes [2, 0, 0, 0, 0, 1] [8, 6] 17⟩

/-- An IPv4/UDP frame whose source MAC is the MAC of forwarding port 1. -/
def frameUdpLoop : rte_mbuf := ⟨16384, sampleBytes [2, 0, 0, 0, 0, 2] [8, 0] 17⟩

/-- A loop state at the start of polling: one receive port, port 0. -/
def sampleState : LoopState :=
  { qconf :=
      { n_rx_port := 1
        rx_port_list := fun _ => 0
        start_rx_flag := fun _ => true
        rx_burst_try := fun _ => 0 }
    nb_udp_dgrams := 0
    log := [] }

/-! ## Transmit buffers -/

/-- Buffer `struct rte_eth_dev_tx_buffer` of the packet I/O layer: its
capacity `size` and the packets it holds (the field `length` is the length of
`pkts`). -/
structure rte_eth_dev_tx_buffer where
  size : Nat
  pkts : List rte_mbuf

/-- Transmit side of the process: the table `tx_buffer`, indexed by port, and
for each port the packets handed to its device queue so far. -/
structure TxState where
  tx_buffer : Nat → rte_eth_dev_tx_buffer
  tx_burst : Nat → List rte_mbuf

/-- Library function `rte_eth_tx_buffer_flush(port_id, queue_id, buffer)`: the
buffered packets are handed to the queue of `port_id` and the buffer is left
empty. -/
def rte_eth_tx_buffer_flush (tx : TxState) (port_id buffer : Nat) : TxState :=
  { tx_buffer := fun b =>
      if b = buffer then { size := (tx.tx_buffer b).size, pkts := [] } else tx.tx_buffer b
    tx_burst := fun q =>
      if q = port_id then tx.tx_burst q ++ (tx.tx_buffer buffer).pkts else tx.tx_burst q }

/-- Library function `rte_eth_tx_buffer(port_id, queue_id, buffer, tx_pkt)`:
the packet is stored at the end of the buffer; a buffer that has reached its
capacity is flushed at once. -/
def rte_eth_tx_buffer (tx : TxState) (port_id buffer : Nat) (m : rte_mbuf) : TxState :=
  let stored : TxState :=
    { tx_buffer := fun b =>
        if b = buffer then
          { size := (tx.tx_buffer b).size, pkts := (tx.tx_buffer b).pkts ++ [m] }
        else tx.tx_buffer b
      tx_burst := tx.tx_burst }
  if (tx.tx_buffer buffer).pkts.length + 1 < (tx.tx_buffer buffer).size then stored
  else rte_eth_tx_buffer_flush stored port_id buffer

/-- Effect of one recorded call on the transmit side. -/
def tx_apply (tx : TxState) : Call → TxState
  | Call.rte_eth_tx_buffer port_id _ buffer m => rte_eth_tx_buffer tx port_id buffer m
  | Call.rte_eth_tx_buffer_flush port_id _ buffer => rte_eth_tx_buffer_flush tx port_id buffer
  | _ => tx

/-- Effect of a sequence of recorded calls on the transmit side. -/
def tx_run (tx : TxState) (log : List Call) : TxState :=
  log.foldl tx_apply tx

/-! ## Scheduler tick of `l2fwd_main_loop` -/

/-- A loop whose body may `return`: the body is run on the inputs in order
until one leaves with `Flow.ret` or is undefined. -/
def seq_loop {σ α : Type} (body : σ → α → Option (Flow × σ)) :
    List α → σ → Option (Flow × σ)
  | [], s => some (Flow.next, s)
  | a :: rest, s =>
    match body s a with
    | none => none
    | some (Flow.ret, s1) => some (Flow.ret, s1)
    | some (Flow.next, s1) => seq_loop body rest s1

/-- What one call of `rte_eth_rx_burst` gives back: the count it reports and
the content of `pkts_burst` after the call. -/
structure RxResult where
  nb_rx : Nat
  pkts_burst : MbufArray

/-- A received burst is well formed when each of its first `nb_rx` slots
holds a descriptor. -/
def RxResult.wf (r : RxResult) : Prop :=
  ∀ j, j < r.nb_rx → ∃ m, r.pkts_burst[j]? = some (some m)

/-- What the environment gives one iteration of `while (!force_quit)`: the
value of `rte_rdtsc()` and the result of the poll of each receive queue. -/
structure Tick where
  cur_tsc : Nat
  rx : Nat → RxResult

/-- State of `l2fwd_main_loop`: its local `prev_tsc` and the loop state. -/
structure MainLoop where
  prev_tsc : Nat
  st : LoopState

/-- Calls of the drain block of `l2fwd_main_loop`: for each receive queue, on
the destination port of its port, `poll_kni` in kni mode and then
`rte_eth_tx_buffer_flush`. -/
def drain_calls (cfg : Config) (qconf : lcore_queue_conf) : List Call :=
  (List.range qconf.n_rx_port).flatMap (fun i =>
    (if cfg.kni_mode ≠ 0 then [Call.poll_kni (cfg.l2fwd_dst_ports (qconf.rx_port_list i))]
     else [])
    ++ [Call.rte_eth_tx_buffer_flush (cfg.l2fwd_dst_ports (qconf.rx_port_list i)) 0
          (cfg.l2fwd_dst_ports (qconf.rx_port_list i))])

/-- Value of `diff_tsc = cur_tsc - prev_tsc` on 64-bit unsigned words. -/
def diff_tsc (cur_tsc prev_tsc : Nat) : Nat :=
  (cur_tsc + 2 ^ 64 - prev_tsc) % 2 ^ 64

/-- First part of an iteration of `while (!force_quit)` in `l2fwd_main_loop`:
`if (diff_tsc > drain_tsc) { drain every queue; prev_tsc = cur_tsc; }`. -/
def l2fwd_main_loop_drain (cfg : Config) (drain_tsc : Nat) (s : MainLoop) (cur_tsc : Nat) :
    MainLoop :=
  if diff_tsc cur_tsc s.prev_tsc > drain_tsc then
    { prev_tsc := cur_tsc
      st := { s.st with log := s.st.log ++ drain_calls cfg s.st.qconf } }
  else s

/-- One iteration of `while (!force_quit)` in `l2fwd_main_loop`: the drain
block, then the receive step for each queue in turn. -/
def l2fwd_main_loop_tick (cfg : Config) (drain_tsc : Nat) (s : MainLoop) (t : Tick) :
    Option (Flow × MainLoop) :=
  match seq_loop (fun st i => l2fwd_main_loop_rx cfg st i (t.rx i).nb_rx (t.rx i).pkts_burst)
      (List.range (l2fwd_main_loop_drain cfg drain_tsc s t.cur_tsc).st.qconf.n_rx_port)
      (l2fwd_main_loop_drain cfg drain_tsc s t.cur_tsc).st with
  | none => none
  | some (flow, st1) =>
    some (flow, { prev_tsc := (l2fwd_main_loop_drain cfg drain_tsc s t.cur_tsc).prev_tsc
                  st := st1 })

/-- Iterations of `while (!force_quit)` in `l2fwd_main_loop`, one per element
of `ticks`, for as long as no iteration returns. -/
def l2fwd_main_loop_run (cfg : Config) (drain_tsc : Nat) (ticks : List Tick) (s : MainLoop) :
    Option (Flow × MainLoop) :=
  seq_loop (l2fwd_main_loop_tick cfg drain_tsc) ticks s

/-- Entry of `l2fwd_main_loop` before the `while`: `prev_tsc = 0`, return when
the lcore has no receive queue, else set `start_rx_flag[i]` and clear
`rx_burst_try[i]` for each queue. -/
def l2fwd_main_loop_init (st : LoopState) : Flow × MainLoop :=
  if st.qconf.n_rx_port = 0 then (Flow.ret, { prev_tsc := 0, st := st })
  else
    (Flow.next,
      { prev_tsc := 0
        st := { st with
          qconf := { st.qconf with
            start_rx_flag := fun i =>
              if i < st.qconf.n_rx_port then true else st.qconf.start_rx_flag i
            rx_burst_try := fun i =>
              if i < st.qconf.n_rx_port then 0 else st.qconf.rx_burst_try i } } })

/-- The loop state of `sampleState` right after `l2fwd_main_loop_init`. -/
def sampleMain : MainLoop := { prev_tsc := 0, st := sampleState }

/-- A tick at time `cur_tsc` in which every poll is empty. -/
def idleTick (cur_tsc : Nat) : Tick := { cur_tsc := cur_tsc, rx := fun _ => ⟨0, []⟩ }

/-- A tick at time `cur_tsc` in which every poll returns the one frame
`frameUdp`. -/
def busyTick (cur_tsc : Nat) : Tick :=
  { cur_tsc := cur_tsc, rx := fun _ => ⟨1, [some frameUdp]⟩ }

/-- Consecutive empty polls of queue `i` in `l2fwd_main_loop`: `n` receive
steps in each of which `rte_eth_rx_burst` reports 0. -/
def empty_polls (cfg : Config) (i : Nat) : Nat → LoopState → Option LoopState
  | 0, st => some st
  | n + 1, st =>
    match l2fwd_main_loop_rx cfg st i 0 [] with
    | none => none
    | some (_, st1) => empty_polls cfg i n st1

/-- The sample configuration with option `-i 65536,10,1000`. -/
def wideCeilingConfig : Config := { sampleConfig with max_poll_short_try := 65536 }

/-! ## Kernel bridge: `mod_ip_addr`, `push_kni`, `kni_ingress_loop` -/

/-- Address written by `main` into `vnf_recv_dst_ip` (`inet_pton` of
"10.0.0.11"), as its four bytes in memory. -/
def vnf_recv_dst_ip : List Nat := [10, 0, 0, 11]

/-- Copy of the bytes `src` into the frame at offset `off` (`rte_memcpy` and
the stores of 16-bit fields).  A write past the stored bytes does not change
the frame. -/
def put_bytes (data : List Nat) (off : Nat) : List Nat → List Nat
  | [] => data
  | b :: bs => put_bytes (data.set off b) (off + 1) bs

/-- Checksum routines of the packet library, taken as parameters: from the
frame bytes and the offsets of the IPv4 and UDP headers, the two bytes of the
16-bit result as the caller stores them. -/
structure CksumLib where
  rte_ipv4_udptcp_cksum : List Nat → Nat → Nat → Nat × Nat
  rte_ipv4_cksum : List Nat → Nat → Nat × Nat

/-- Function `recalc_cksum_inline` on the frame bytes; `iph` and `udph` are
the offsets of the two headers (`dgram_cksum` is at offset 6 of the UDP
header, `hdr_checksum` at offset 10 of the IPv4 header). -/
def recalc_cksum_inline (lib : CksumLib) (data : List Nat) (iph udph : Nat) : List Nat :=
  let d1 := put_bytes data (udph + 6) [0, 0]
  let d2 := put_bytes d1 (iph + 10) [0, 0]
  let d3 := put_bytes d2 (udph + 6)
    [(lib.rte_ipv4_udptcp_cksum d2 iph udph).1, (lib.rte_ipv4_udptcp_cksum d2 iph udph).2]
  put_bytes d3 (iph + 10) [(lib.rte_ipv4_cksum d3 iph).1, (lib.rte_ipv4_cksum d3 iph).2]

/-- Loop body of `mod_ip_addr` on one frame: `src_addr` and `dst_addr` are
`none` for `NULL`, else the four bytes pointed to (`src_addr` is at offset 12
and `dst_addr` at offset 16 of the IPv4 header). -/
def mod_ip_addr_frame (lib : CksumLib) (src_addr dst_addr : Option (List Nat))
    (m : rte_mbuf) : rte_mbuf :=
  let d1 := match src_addr with
    | some a => put_bytes m.data (ETHER_HDR_LEN + 12) a
    | none => m.data
  let d2 := match dst_addr with
    | some a => put_bytes d1 (ETHER_HDR_LEN + 16) a
    | none => d1
  let in_iphdr_len := ((d2.getD ETHER_HDR_LEN 0 % 256) &&& 0x0F) * 32 / 8
  { m with data := recalc_cksum_inline lib d2 ETHER_HDR_LEN (ETHER_HDR_LEN + in_iphdr_len) }

/-- Loop body of `mod_ip_addr` at index `i`; `none` once a slot outside the
array is read. -/
def mod_ip_addr_body (lib : CksumLib) (src_addr dst_addr : Option (List Nat))
    (st : Option MbufArray) (i : Nat) : Option MbufArray :=
  match st with
  | none => none
  | some pkts_burst =>
    match pkts_burst[i]? with
    | none => none
    | some none => some pkts_burst
    | some (some m) =>
      some (pkts_burst.set i (some (mod_ip_addr_frame lib src_addr dst_addr m)))

/-- Function `mod_ip_addr`: the array with the frames as they are left. -/
def mod_ip_addr (lib : CksumLib) (nb_rx : Nat) (pkts_burst : MbufArray)
    (src_addr dst_addr : Option (List Nat)) : Option MbufArray :=
  (List.range nb_rx).foldl (mod_ip_addr_body lib src_addr dst_addr) (some pkts_burst)

/-- Body of the release loop of `push_kni` at index `i`:
`rte_pktmbuf_free(pkts_burst[i]); pkts_burst[i] = NULL;`.  Freeing `NULL`
is a no-operation of the library and is not recorded. -/
def push_kni_free_body (st : Option (MbufArray × List Call)) (i : Nat) :
    Option (MbufArray × List Call) :=
  match st with
  | none => none
  | some (pkts_burst, log) =>
    match pkts_burst[i]? with
    | none => none
    | some none => some (pkts_burst.set i none, log)
    | some (some m) => some (pkts_burst.set i none, log ++ [Call.rte_pktmbuf_free m])

/-- Function `push_kni`; `push_num` is what `rte_kni_tx_burst` returns.  The
release loop is `for (i = push_num; i < nb_rx - push_num; ++i)`. -/
def push_kni (lib : CksumLib) (portid nb_rx : Nat) (pkts_burst : MbufArray) (mod_ip : Nat)
    (push_num : Nat) : Option (MbufArray × List Call) :=
  match (if mod_ip = 1 then mod_ip_addr lib nb_rx pkts_burst none (some vnf_recv_dst_ip)
         else some pkts_burst) with
  | none => none
  | some pkts1 =>
    if push_num < nb_rx then
      (List.range' push_num (nb_rx - push_num - push_num)).foldl push_kni_free_body
        (some (pkts1,
          [Call.rte_kni_tx_burst portid pkts1 nb_rx, Call.rte_kni_handle_request portid]))
    else
      some (pkts1,
        [Call.rte_kni_tx_burst portid pkts1 nb_rx, Call.rte_kni_handle_request portid])

/-- State of `kni_ingress_loop`: the loop state and the 16-bit counter of
the atomic `kni_egress_sleep`. -/
structure KniIngress where
  st : LoopState
  kni_egress_sleep : Nat

/-- What the environment gives one poll of `kni_ingress_loop`: the result of
`rte_eth_rx_burst` and, for a non-empty burst, what `rte_kni_tx_burst` will
return. -/
structure KniRx where
  rx : RxResult
  push_num : Nat

/-- One iteration of `for (i = 0; i < qconf->n_rx_port; i++)` in
`kni_ingress_loop`. -/
def kni_ingress_loop_rx (cfg : Config) (lib : CksumLib) (s : KniIngress) (i : Nat)
    (r : KniRx) : Option (Flow × KniIngress) :=
  let portid := s.st.qconf.rx_port_list i
  if s.st.qconf.start_rx_flag i then
    let log0 := s.st.log ++ [Call.rte_eth_rx_burst portid 0 cfg.max_pkt_burst]
    if r.rx.nb_rx > (cfg.max_pkt_burst % 65536).toNat then
      some (Flow.ret, { s with st := { s.st with log := log0 } })
    else if r.rx.nb_rx = 0 then
      if cfg.max_poll_short_try = 0 then
        some (Flow.next, { s with st := { s.st with log := log0 } })
      else if (s.st.qconf.rx_burst_try i : Int) < cfg.max_poll_short_try then
        some (Flow.next,
          { s with
            st := { s.st with
              qconf := { s.st.qconf with
                rx_burst_try := setPort s.st.qconf.rx_burst_try i
                  ((s.st.qconf.rx_burst_try i + 1) % 65536) }
              log := log0 ++ [Call.rte_delay_us cfg.poll_short_interval_us] } })
      else if s.kni_egress_sleep % 256 = 0 then
        some (Flow.next,
          { kni_egress_sleep := (s.kni_egress_sleep + 1) % 65536
            st := { s.st with
              log := log0 ++ [Call.rte_atomic16_inc, Call.usleep cfg.poll_long_interval_us] } })
      else
        some (Flow.next,
          { s with
            st := { s.st with log := log0 ++ [Call.usleep cfg.poll_long_interval_us] } })
    else
      match (if cfg.filtering ≠ 0 then filter_mbuf_array cfg r.rx.pkts_burst r.rx.nb_rx
             else some (r.rx.pkts_burst, [])) with
      | none => none
      | some (pkts1, frees) =>
        match push_kni lib portid r.rx.nb_rx pkts1 1 r.push_num with
        | none => none
        | some (_, pushed) =>
          some (Flow.next,
            { kni_egress_sleep := 0
              st := { s.st with
                qconf := { s.st.qconf with
                  rx_burst_try := setPort s.st.qconf.rx_burst_try i 0 }
                log := log0 ++ [Call.rte_atomic16_clear] ++ frees
                  ++ Call.push_kni portid r.rx.nb_rx pkts1 1 :: pushed } })
  else some (Flow.next, s)

/-- One iteration of `while (!force_quit)` in `kni_ingress_loop`. -/
def kni_ingress_loop_tick (cfg : Config) (lib : CksumLib) (s : KniIngress)
    (rx : Nat → KniRx) : Option (Flow × KniIngress) :=
  seq_loop (fun s1 i => kni_ingress_loop_rx cfg lib s1 i (rx i))
    (List.range s.st.qconf.n_rx_port) s

/-- Checksum routines that always give zero, for evaluating examples. -/
def zeroCksum : CksumLib :=
  { rte_ipv4_udptcp_cksum := fun _ _ _ => (0, 0), rte_ipv4_cksum := fun _ _ => (0, 0) }

/-- The sample configuration with option `-b 65544`. -/
def wideBurstConfig : Config := { sampleConfig with max_pkt_burst := 65544 }

/-- A burst of `n` descriptors, each with the bytes of `frameUdp`. -/
def sampleBurst (n : Nat) : MbufArray :=
  (List.range n).map (fun k => some { addr := 4096 + 2048 * k, data := frameUdp.data })

/-- A kni ingress state at the start of polling, the idle flag being 1. -/
def sampleKni : KniIngress := { st := sampleState, kni_egress_sleep := 1 }

/-- The sample configuration in kni mode: kni mode on, filtering off. -/
def kniConfig : Config := { sampleConfig with kni_mode := 1, filtering := 0 }

/-- Polls of `kni_ingress_loop` that each return the one frame `frameUdp`,
which the bridge accepts. -/
def busyKniRx : Nat → KniRx := fun _ => { rx := ⟨1, [some frameUdp]⟩, push_num := 1 }

/-- The sample configuration with option `-i 0,10,1000`. -/
def zeroCeilingConfig : Config := { sampleConfig with max_poll_short_try := 0 }

/-! ## Reading the call log -/

/-- Descriptors released by `rte_pktmbuf_free` in a call log, in order. -/
def free_calls (log : List Call) : List rte_mbuf :=
  log.filterMap (fun c => match c with
    | Call.rte_pktmbuf_free m => some m
    | _ => none)

/-- Calls of `nc_udp` in a call log, in order, each with its arguments
(`coder_type`, frame, `portid`). -/
def nc_udp_calls (log : List Call) : List (Int × rte_mbuf × Nat) :=
  log.filterMap (fun c => match c with
    | Call.nc_udp ct m p => some (ct, m, p)
    | _ => none)

/-- Calls of `l2fwd_put_rxq` in a call log, in order, each with its
arguments (frame, `portid`). -/
def put_rxq_calls (log : List Call) : List (rte_mbuf × Nat) :=
  log.filterMap (fun c => match c with
    | Call.l2fwd_put_rxq m p => some (m, p)
    | _ => none)

/-- Descriptors of a received burst, in slot order. -/
def batch_frames (pkts_burst : MbufArray) (nb_rx : Nat) : List rte_mbuf :=
  (pkts_burst.take nb_rx).filterMap id

/-- The frame filter is on and does not accept the frame. -/
def rejects (cfg : Config) (m : rte_mbuf) : Bool :=
  decide (cfg.filtering ≠ 0 ∧ filter_ether_frame cfg m ≠ 1)

/-- A received burst of three frames: one accepted by the filter of
`sampleConfig`, then a TCP frame and a frame from a port's own MAC. -/
def mixedBurst : RxResult :=
  { nb_rx := 3, pkts_burst := [some frameUdp, some frameTcp, some frameUdpLoop] }

/-! ## Startup: option flags and the checks of `main` -/

/-- Long options of the table `lgopts`; each one stores a value into an
`int` flag. -/
inductive LongOpt
  | mac_updating
  | no_mac_updating
  | packet_capturing
  | no_packet_capturing
  | debugging
  | no_debugging
  | kni_mode
  | no_kni_mode
  | filtering
  | no_filtering
  deriving DecidableEq, Repr

/-- The flags that the long options set. -/
structure Flags where
  mac_updating : Int
  packet_capturing : Int
  debugging : Int
  kni_mode : Int
  filtering : Int
  deriving DecidableEq, Repr

/-- Initial values of the flags (`static int filtering = 1;` and so on). -/
def initial_flags : Flags :=
  { mac_updating := 1, packet_capturing := 0, debugging := 0, kni_mode := 0, filtering := 1 }

/-- Effect of one long option, as `getopt_long` applies the entry of
`lgopts`. -/
def apply_lgopt (f : Flags) : LongOpt → Flags
  | LongOpt.mac_updating => { f with mac_updating := 1 }
  | LongOpt.no_mac_updating => { f with mac_updating := 0 }
  | LongOpt.packet_capturing => { f with packet_capturing := 1 }
  | LongOpt.no_packet_capturing => { f with packet_capturing := 0 }
  | LongOpt.debugging => { f with debugging := 1 }
  | LongOpt.no_debugging => { f with debugging := 0 }
  | LongOpt.kni_mode => { f with kni_mode := 1 }
  | LongOpt.no_kni_mode => { f with kni_mode := 0 }
  | LongOpt.filtering => { f with filtering := 1 }
  | LongOpt.no_filtering => { f with filtering := 0 }

/-- Flags after the long options of a command line, in order. -/
def flags_of (opts : List LongOpt) : Flags :=
  opts.foldl apply_lgopt initial_flags

/-- Globals that the checks of `main` read, as `udp_nc_parse_args` leaves
them. -/
structure Parsed where
  nb_ports : Nat
  l2fwd_enabled_port_mask : Nat
  coder_type : Int
  flags : Flags
  deriving DecidableEq, Repr

/-- Results of the library calls made between the checks: `rte_pdump_init`
and the three coder constructors (non-zero is failure). -/
structure StartupEnv where
  rte_pdump_init : Int
  nck_create_encoder : Int
  nck_create_decoder : Int
  nck_create_recoder : Int

/-- Reasons for which `main` calls `rte_exit` in its checks; in order of the
messages "Invalid number of ports. Support exactly 2 ports", "KNI mode does
not support filtering function.", "Can not initialize the pdump framework.",
"Failed to create encoder.", "Failed to create decoder.", "Failed to create
recoder.", "Unknown coder type." and "Invalid port mask; possible (0x3)". -/
inductive Exit
  | invalid_number_of_ports
  | kni_with_filtering
  | pdump_init_failed
  | failed_to_create_encoder
  | failed_to_create_decoder
  | failed_to_create_recoder
  | unknown_coder_type
  | invalid_port_mask
  deriving DecidableEq, Repr

/-- The `switch (coder_type)` of `main`. -/
def coder_switch (env : StartupEnv) (coder_type : Int) : Option Exit :=
  if coder_type = 0 then
    if env.nck_create_encoder ≠ 0 then some Exit.failed_to_create_encoder else none
  else if coder_type = 1 then
    if env.nck_create_decoder ≠ 0 then some Exit.failed_to_create_decoder else none
  else if coder_type = 2 then
    if env.nck_create_recoder ≠ 0 then some Exit.failed_to_create_recoder else none
  else if coder_type = -1 then none
  else some Exit.unknown_coder_type

/-- The checks of `main` between argument parsing and the pairing loop, in
program order: `none` when startup goes on, else the reason of the
`rte_exit`. -/
def main_checks (env : StartupEnv) (a : Parsed) : Option Exit :=
  if a.nb_ports ≠ 2 then some Exit.invalid_number_of_ports
  else if a.flags.filtering ≠ 0 ∧ a.flags.kni_mode ≠ 0 then some Exit.kni_with_filtering
  else if a.flags.packet_capturing ≠ 0 ∧ env.rte_pdump_init < 0 then
    some Exit.pdump_init_failed
  else
    match coder_switch env a.coder_type with
    | some e => some e
    | none =>
      if port_mask_ok a.l2fwd_enabled_port_mask a.nb_ports = false then
        some Exit.invalid_port_mask
      else none

/-- Library calls that all succeed. -/
def goodEnv : StartupEnv :=
  { rte_pdump_init := 0, nck_create_encoder := 0, nck_create_decoder := 0,
    nck_create_recoder := 0 }

/-- Command line `-n 2 -p 1 -o -1` with the default flags but
`--no-filtering`: two ports announced, only port 0 in the mask. -/
def onePortArgs : Parsed :=
  { nb_ports := 2, l2fwd_enabled_port_mask := 1, coder_type := -1,
    flags := flags_of [LongOpt.no_filtering] }

/-! ## Kernel bridge: `poll_kni` and `kni_egress_loop` -/

/-- Address written by `main` into `vnf_send_src_ip` ("10.0.0.13"), as its
four bytes in memory. -/
def vnf_send_src_ip : List Nat := [10, 0, 0, 13]

/-- Address written by `main` into `vnf_send_dst_ip` ("10.0.0.14"), as its
four bytes in memory. -/
def vnf_send_dst_ip : List Nat := [10, 0, 0, 14]

/-- Result of running code that contains a loop which may not end: the value
when it ends, `undefined` when it reads outside an array or through `NULL`,
`out_of_fuel` when the given number of loop iterations did not suffice. -/
inductive Outcome (α : Type)
  | done (a : α)
  | undefined
  | out_of_fuel

/-- The forwarding loop of `poll_kni`,
`for (i = 0; i < num_rx; ++i) if (pkts_burst[i] != NULL) l2fwd_put_rxq(...)`,
whose index `i` is a `uint8_t`: `++i` wraps at 256.  Argument `fuel` bounds
the number of tests of the loop condition. -/
def poll_kni_forward (cfg : Config) (portid num_rx : Nat) (pkts_burst : MbufArray) :
    Nat → Nat → List Call → Outcome (List Call)
  | 0, _, _ => Outcome.out_of_fuel
  | fuel + 1, i, log =>
    if i < num_rx then
      match pkts_burst[i]? with
      | none => Outcome.undefined
      | some none => poll_kni_forward cfg portid num_rx pkts_burst fuel ((i + 1) % 256) log
      | some (some m) =>
        poll_kni_forward cfg portid num_rx pkts_burst fuel ((i + 1) % 256)
          (log ++ Call.l2fwd_put_rxq m portid :: l2fwd_put_rxq cfg m portid)
    else Outcome.done log

/-- Function `poll_kni`: the calls it makes; `r` is what `rte_kni_rx_burst`
gives back. -/
def poll_kni (cfg : Config) (lib : CksumLib) (portid : Nat) (r : RxResult) (fuel : Nat) :
    Outcome (List Call) :=
  if r.nb_rx = 0 then Outcome.done [Call.rte_kni_rx_burst portid cfg.max_pkt_burst]
  else if (r.nb_rx : Int) > cfg.max_pkt_burst then
    Outcome.done [Call.rte_kni_rx_burst portid cfg.max_pkt_burst]
  else
    match filter_mbuf_array cfg r.pkts_burst r.nb_rx with
    | none => Outcome.undefined
    | some (pkts1, frees) =>
      match mod_ip_addr lib r.nb_rx pkts1 (some vnf_send_src_ip) (some vnf_send_dst_ip) with
      | none => Outcome.undefined
      | some pkts2 =>
        poll_kni_forward cfg portid r.nb_rx pkts2 fuel 0
          ([Call.rte_kni_rx_burst portid cfg.max_pkt_burst, Call.rte_kni_handle_request portid]
            ++ frees)

/-- State of `kni_egress_loop`: its local `prev_tsc`, the queue configuration
`lcore_queue_conf[0]` it points to, and the calls made so far. -/
structure KniEgress where
  prev_tsc : Nat
  qconf : lcore_queue_conf
  log : List Call

/-- What the environment gives one iteration of the `while` of
`kni_egress_loop`: the value read from `kni_egress_sleep`, the value of
`rte_rdtsc()` and, for each queue, what `rte_kni_rx_burst` gives back. -/
structure EgressTick where
  sleep_flag : Nat
  cur_tsc : Nat
  kni_rx : Nat → RxResult

/-- Entry of `kni_egress_loop` before the `while`: `prev_tsc = 0`,
`qconf = &lcore_queue_conf[0]`, return when it has no queue, else set
`start_rx_flag[i]` and clear `rx_burst_try[i]` for each queue. -/
def kni_egress_loop_init (qconf0 : lcore_queue_conf) (log : List Call) : Flow × KniEgress :=
  if qconf0.n_rx_port = 0 then (Flow.ret, { prev_tsc := 0, qconf := qconf0, log := log })
  else
    (Flow.next,
      { prev_tsc := 0
        qconf := { qconf0 with
          start_rx_flag := fun i => if i < qconf0.n_rx_port then true else qconf0.start_rx_flag i
          rx_burst_try := fun i => if i < qconf0.n_rx_port then 0 else qconf0.rx_burst_try i }
        log := log })

/-- Drain block of `kni_egress_loop` over the queues `idxs`: for each, on the
destination port of its port, `poll_kni` in kni mode and then the flush. -/
def kni_egress_drain (cfg : Config) (lib : CksumLib) (qconf : lcore_queue_conf)
    (kni_rx : Nat → RxResult) (fuel : Nat) : List Nat → List Call → Outcome (List Call)
  | [], log => Outcome.done log
  | i :: rest, log =>
    if cfg.kni_mode ≠ 0 then
      match poll_kni cfg lib (cfg.l2fwd_dst_ports (qconf.rx_port_list i)) (kni_rx i) fuel with
      | Outcome.done polled =>
        kni_egress_drain cfg lib qconf kni_rx fuel rest
          (log ++ Call.poll_kni (cfg.l2fwd_dst_ports (qconf.rx_port_list i)) :: polled
            ++ [Call.rte_eth_tx_buffer_flush (cfg.l2fwd_dst_ports (qconf.rx_port_list i)) 0
                  (cfg.l2fwd_dst_ports (qconf.rx_port_list i))])
      | Outcome.undefined => Outcome.undefined
      | Outcome.out_of_fuel => Outcome.out_of_fuel
    else
      kni_egress_drain cfg lib qconf kni_rx fuel rest
        (log ++ [Call.rte_eth_tx_buffer_flush (cfg.l2fwd_dst_ports (qconf.rx_port_list i)) 0
                  (cfg.l2fwd_dst_ports (qconf.rx_port_list i))])

/-- One iteration of `while (!force_quit)` in `kni_egress_loop`. -/
def kni_egress_loop_tick (cfg : Config) (lib : CksumLib) (drain_tsc : Nat) (s : KniEgress)
    (t : EgressTick) (fuel : Nat) : Outcome KniEgress :=
  if diff_tsc t.cur_tsc s.prev_tsc > drain_tsc then
    match kni_egress_drain cfg lib s.qconf t.kni_rx fuel (List.range s.qconf.n_rx_port)
        (s.log ++ (if t.sleep_flag = 1 then [Call.usleep cfg.poll_long_interval_us] else []))
        with
    | Outcome.done log1 => Outcome.done { prev_tsc := t.cur_tsc, qconf := s.qconf, log := log1 }
    | Outcome.undefined => Outcome.undefined
    | Outcome.out_of_fuel => Outcome.out_of_fuel
  else
    Outcome.done
      { s with log := s.log
          ++ (if t.sleep_flag = 1 then [Call.usleep cfg.poll_long_interval_us] else []) }

/-- The sample configuration with option `-b 256`. -/
def burst256Config : Config := { sampleConfig with max_pkt_burst := 256 }

/-- A queue configuration in the middle of polling: one queue on port 0,
started, whose counter stands at 5. -/
def busyQconf : lcore_queue_conf :=
  { n_rx_port := 1
    rx_port_list := fun _ => 0
    start_rx_flag := fun _ => true
    rx_burst_try := fun _ => 5 }

/-- Calls that the forwarding loop of `poll_kni` should make on the slots
`i .. num_rx-1`: for each slot that holds a descriptor, in slot order, the
call of `l2fwd_put_rxq` and the calls made inside it. -/
def forwarded (cfg : Config) (portid : Nat) (pkts_burst : MbufArray) (num_rx i : Nat) :
    List Call :=
  (((pkts_burst.take num_rx).drop i).filterMap id).flatMap
    (fun m => Call.l2fwd_put_rxq m portid :: l2fwd_put_rxq cfg m portid)

/-- What `rte_kni_rx_burst` gives back in the examples: an IPv4/UDP frame and
then an IPv4/TCP frame, both sent by the kernel. -/
def kniPulled : RxResult := { nb_rx := 2, pkts_burst := [some frameUdp, some frameTcp] }

/-- The queue configuration `busyQconf` with port 1 in its port list. -/
def otherQconf : lcore_queue_conf := { busyQconf with rx_port_list := fun _ => 1 }

/-- An iteration of the egress loop at time 1000 with the idle flag clear, in
which the bridge hands over the burst `kniPulled`. -/
def pullingTick : EgressTick := { sleep_flag := 0, cur_tsc := 1000, kni_rx := fun _ => kniPulled }

/-! ## Runs of `kni_ingress_loop` -/

/-- Entry of `kni_ingress_loop` before the `while`: return when the lcore has
no receive queue, else set `start_rx_flag[i]` and clear `rx_burst_try[i]` for
each queue.  The atomic `kni_egress_sleep` has its static initial value 0. -/
def kni_ingress_loop_init (st : LoopState) : Flow × KniIngress :=
  if st.qconf.n_rx_port = 0 then (Flow.ret, { st := st, kni_egress_sleep := 0 })
  else
    (Flow.next,
      { kni_egress_sleep := 0
        st := { st with
          qconf := { st.qconf with
            start_rx_flag := fun i =>
              if i < st.qconf.n_rx_port then true else st.qconf.start_rx_flag i
            rx_burst_try := fun i =>
              if i < st.qconf.n_rx_port then 0 else st.qconf.rx_burst_try i } } })

/-- Iterations of `while (!force_quit)` in `kni_ingress_loop`, one per element
of `ticks`, for as long as no iteration returns. -/
def kni_ingress_loop_run (cfg : Config) (lib : CksumLib) (ticks : List (Nat → KniRx))
    (s : KniIngress) : Option (Flow × KniIngress) :=
  seq_loop (kni_ingress_loop_tick cfg lib) ticks s

/-- Invariant of the ingress loop for ceiling `c` and `n` receive queues: the
idle flag is 0 or 1, every queue is started and its counter is at most `c`,
and when the flag is 1 some queue has its counter at `c`. -/
def idle_flag_inv (c n : Nat) (s : KniIngress) : Prop :=
  s.kni_egress_sleep ≤ 1
  ∧ s.st.qconf.n_rx_port = n
  ∧ (∀ k, k < n → s.st.qconf.start_rx_flag k = true)
  ∧ (∀ k, k < n → s.st.qconf.rx_burst_try k ≤ c)
  ∧ (s.kni_egress_sleep = 1 → ∃ k, k < n ∧ s.st.qconf.rx_burst_try k = c)

/-- Polls of `kni_ingress_loop` that are all empty. -/
def idleKniRx : Nat → KniRx := fun _ => { rx := ⟨0, []⟩, push_num := 0 }

/-! ## Startup: the port mask option -/

/-- What `strtoul(nptr, &end, 16)` gives back: the value returned and the
characters from `*end` up to the terminator (`none` stands for `end == NULL`). -/
structure StrtoulResult where
  value : Nat
  endp : Option (List Char)
  deriving DecidableEq, Repr

/-- Conversion of an `unsigned long` to `int` (32 bits, two's complement), as
done by `return pm;` in a function that returns `int`. -/
def to_int32 (x : Nat) : Int :=
  if x % 2 ^ 32 < 2 ^ 31 then ((x % 2 ^ 32 : Nat) : Int) else ((x % 2 ^ 32 : Nat) : Int) - 2 ^ 32

/-- Function `l2fwd_parse_portmask`; the library function `strtoul` with base
16 is a parameter. -/
def l2fwd_parse_portmask (strtoul : List Char → StrtoulResult) (portmask : List Char) : Int :=
  if portmask = [] then -1
  else
    match (strtoul portmask).endp with
    | none => -1
    | some rest =>
      if rest ≠ [] then -1
      else if (strtoul portmask).value = 0 then -1
      else to_int32 (strtoul portmask).value

/-- Effect of `case 'p':` in `udp_nc_parse_args`: the value stored in the
`uint32_t` global `l2fwd_enabled_port_mask`, whether "Invalid portmask" is
printed, and the value returned (`none` when the `switch` is left by `break`
and parsing goes on). -/
structure PortmaskCase where
  l2fwd_enabled_port_mask : Nat
  invalid_portmask_printed : Bool
  ret : Option Int
  deriving DecidableEq, Repr

/-- The `case 'p':` of `udp_nc_parse_args` on the option argument `optarg`. -/
def udp_nc_parse_args_p (strtoul : List Char → StrtoulResult) (optarg : List Char) :
    PortmaskCase :=
  if (l2fwd_parse_portmask strtoul optarg % 2 ^ 32).toNat = 0 then
    { l2fwd_enabled_port_mask := (l2fwd_parse_portmask strtoul optarg % 2 ^ 32).toNat
      invalid_portmask_printed := true
      ret := some (-1) }
  else
    { l2fwd_enabled_port_mask := (l2fwd_parse_portmask strtoul optarg % 2 ^ 32).toNat
      invalid_portmask_printed := false
      ret := none }

/-- Value of a hexadecimal digit. -/
def hex_digit (ch : Char) : Option Nat :=
  if 48 ≤ ch.toNat ∧ ch.toNat ≤ 57 then some (ch.toNat - 48)
  else if 97 ≤ ch.toNat ∧ ch.toNat ≤ 102 then some (ch.toNat - 87)
  else if 65 ≤ ch.toNat ∧ ch.toNat ≤ 70 then some (ch.toNat - 55)
  else none

/-- Digits read by `strtoul`: the value of the longest run of hexadecimal
digits, and the characters after it. -/
def strtoul_digits : List Char → Nat → Nat × List Char
  | [], acc => (acc, [])
  | ch :: rest, acc =>
    match hex_digit ch with
    | some d => strtoul_digits rest (acc * 16 + d)
    | none => (acc, ch :: rest)

/-- The C library function `strtoul` with base 16 and a 64-bit `unsigned long`,
as the C standard describes it: white space is skipped, one sign and one
prefix `0x` are accepted, the digits are read, a value out of range gives
`ULONG_MAX`, and with no digit the value is 0 and `end` is the start of the
string.  It is used to evaluate the examples. -/
def strtoul16 (nptr : List Char) : StrtoulResult :=
  let s1 := nptr.dropWhile (fun ch => ch.toNat = 32 ∨ (9 ≤ ch.toNat ∧ ch.toNat ≤ 13))
  let neg := s1.head? = some '-'
  let s2 := if s1.head? = some '-' ∨ s1.head? = some '+' then s1.tail else s1
  let s3 :=
    if s2.head? = some '0' ∧ (s2[1]? = some 'x' ∨ s2[1]? = some 'X')
        ∧ ((s2[2]?).bind hex_digit).isSome then s2.drop 2
    else s2
  if ((s3.head?).bind hex_digit).isSome then
    let v := (strtoul_digits s3 0).1
    { value := if v ≥ 2 ^ 64 then 2 ^ 64 - 1 else if neg then (2 ^ 64 - v) % 2 ^ 64 else v
      endp := some (strtoul_digits s3 0).2 }
  else { value := 0, endp := some nptr }

/-! ### Lemmas on the pairing loop -/

theorem foldl_pair_step (mask : Nat) (devs : List Nat) (st : PairState) :
    devs.foldl (pair_step mask) st = (enabled_ports mask devs).foldl pair_body st := by
  induction devs generalizing st with
  | nil => rfl
  | cons d ds ih =>
    by_cases h : (mask &&& (1 <<< d)) = 0
    · simp [enabled_ports, port_enabled, pair_step, h, List.filter_cons] at ih ⊢
      simpa [enabled_ports, port_enabled, pair_step] using ih st
    · simp [enabled_ports, port_enabled, pair_step, h, List.filter_cons] at ih ⊢
      simpa [enabled_ports, port_enabled, pair_step] using ih (pair_body st d)

theorem main_dst_ports_eq (mask : Nat) (devs : List Nat) :
    main_dst_ports mask devs
      = pair_finish ((enabled_ports mask devs).foldl pair_body pairInit) := by
  unfold main_dst_ports
  rw [foldl_pair_step]

theorem foldl_pair_two (st : PairState) (h : st.nb_ports_in_mask % 2 = 0)
    (a b : Nat) (rest : List Nat) :
    (a :: b :: rest).foldl pair_body st
      = rest.foldl pair_body
          { l2fwd_dst_ports := setPort (setPort st.l2fwd_dst_ports b a) a b
            last_port := a
            nb_ports_in_mask := st.nb_ports_in_mask + 1 + 1 } := by
  have h1 : (st.nb_ports_in_mask + 1) % 2 = 1 := by omega
  simp [List.foldl, pair_body, h, h1]

/-- Frame: started from an even count, the loop only writes table entries of
the ports it visits. -/
theorem pair_frame : ∀ (es : List Nat) (st : PairState),
    st.nb_ports_in_mask % 2 = 0 → ∀ x, x ∉ es →
    pair_finish (es.foldl pair_body st) x = st.l2fwd_dst_ports x
  | [], st, h, x, _ => by simp [pair_finish, h]
  | [a], st, h, x, hx => by
    have hxa : x ≠ a := by simpa using hx
    have h1 : (st.nb_ports_in_mask + 1) % 2 = 1 := by omega
    simp [List.foldl, pair_body, pair_finish, h, h1, setPort, hxa]
  | a :: b :: rest, st, h, x, hx => by
    have hxa : x ≠ a := fun e => hx (by simp [e])
    have hxb : x ≠ b := fun e => hx (by simp [e])
    have hxr : x ∉ rest := fun e => hx (by simp [e])
    rw [foldl_pair_two st h, pair_frame rest _ (by simp; omega) x hxr]
    simp [setPort, hxa, hxb]

/-- Consecutive visited ports are paired with each other. -/
theorem pair_consecutive : ∀ (es : List Nat) (st : PairState),
    es.Nodup → st.nb_ports_in_mask % 2 = 0 →
    ∀ (k : Nat) (h1 : 2 * k + 1 < es.length),
      pair_finish (es.foldl pair_body st) (es.get ⟨2 * k, by omega⟩)
          = es.get ⟨2 * k + 1, h1⟩
      ∧ pair_finish (es.foldl pair_body st) (es.get ⟨2 * k + 1, h1⟩)
          = es.get ⟨2 * k, by omega⟩
  | [], _, _, _, k, h1 => by simp at h1
  | [a], _, _, _, k, h1 => by simp at h1
  | a :: b :: rest, st, hnd, h, k, h1 => by
    have hab : a ≠ b := by
      intro e; subst e; simp at hnd
    have har : a ∉ rest := by
      intro e; simp [List.nodup_cons] at hnd; exact hnd.1.2 e
    have hbr : b ∉ rest := by
      intro e; simp [List.nodup_cons] at hnd; exact hnd.2.1 e
    have hrest : rest.Nodup := by
      simp [List.nodup_cons] at hnd; exact hnd.2.2
    rw [foldl_pair_two st h]
    cases k with
    | zero =>
      simp only [Nat.mul_zero, Nat.zero_add, List.get_eq_getElem, List.getElem_cons_zero,
        List.getElem_cons_succ]
      rw [pair_frame rest _ (by simp; omega) a har, pair_frame rest _ (by simp; omega) b hbr]
      simp [setPort, hab, Ne.symm hab]
    | succ j =>
      have h2 : 2 * j + 1 < rest.length := by simp at h1; omega
      have ih := pair_consecutive rest
        { l2fwd_dst_ports := setPort (setPort st.l2fwd_dst_ports b a) a b
          last_port := a
          nb_ports_in_mask := st.nb_ports_in_mask + 1 + 1 } hrest (by simp; omega) j h2
      have e1 : (a :: b :: rest).get ⟨2 * (j + 1), by omega⟩ = rest.get ⟨2 * j, by omega⟩ := by
        simp [List.get_eq_getElem, Nat.mul_add]
      have e2 : (a :: b :: rest).get ⟨2 * (j + 1) + 1, h1⟩ = rest.get ⟨2 * j + 1, h2⟩ := by
        simp [List.get_eq_getElem, Nat.mul_add]
      rw [e1, e2]
      exact ih

/-- Option-indexed form of `pair_consecutive`. -/
theorem pair_consecutive_opt (es : List Nat) (st : PairState) (hnd : es.Nodup)
    (h : st.nb_ports_in_mask % 2 = 0) (k a b : Nat)
    (ha : es[2 * k]? = some a) (hb : es[2 * k + 1]? = some b) :
    pair_finish (es.foldl pair_body st) a = b
      ∧ pair_finish (es.foldl pair_body st) b = a := by
  obtain ⟨h0, e0⟩ := List.getElem?_eq_some.mp ha
  obtain ⟨h1, e1⟩ := List.getElem?_eq_some.mp hb
  have := pair_consecutive es st hnd h k h1
  simp only [List.get_eq_getElem] at this
  rw [e0, e1] at this
  exact this

/-- The final statement of the pairing makes an odd leftover port map to
itself. -/
theorem pair_leftover : ∀ (es : List Nat) (st : PairState),
    st.nb_ports_in_mask % 2 = 0 → es.length % 2 = 1 →
    ∀ x, es.getLast? = some x → pair_finish (es.foldl pair_body st) x = x
  | [], _, _, hl, _, _ => by simp at hl
  | [a], st, h, _, x, hx => by
    have h1 : (st.nb_ports_in_mask + 1) % 2 = 1 := by omega
    have hxa : a = x := by simpa using hx
    subst hxa
    simp [List.foldl, pair_body, pair_finish, h, h1, setPort]
  | a :: b :: rest, st, h, hl, x, hx => by
    have hl2 : rest.length % 2 = 1 := by simp at hl; omega
    have hne : rest ≠ [] := by
      intro e; subst e; simp at hl2
    obtain ⟨c, cs, hc⟩ := List.exists_cons_of_ne_nil hne
    have hx2 : rest.getLast? = some x := by
      subst hc
      simpa [List.getLast?_cons_cons] using hx
    rw [foldl_pair_two st h]
    exact pair_leftover rest _ (by simp; omega) hl2 x hx2

/-- Every visited port whose pair is complete has a partner among the visited
ports: the table swaps the two. -/
theorem pair_partner (es : List Nat) (st : PairState) (hnd : es.Nodup)
    (h : st.nb_ports_in_mask % 2 = 0) (i p : Nat) (hp : es[i]? = some p)
    (hfull : 2 * (i / 2) + 1 < es.length) :
    ∃ q, q ∈ es ∧ q ≠ p
      ∧ pair_finish (es.foldl pair_body st) p = q
      ∧ pair_finish (es.foldl pair_body st) q = p := by
  obtain ⟨hi, ei⟩ := List.getElem?_eq_some.mp hp
  by_cases hpar : i % 2 = 0
  · have hi2 : i = 2 * (i / 2) := by omega
    have hq : es[2 * (i / 2) + 1]? = some (es[2 * (i / 2) + 1]) :=
      List.getElem?_eq_getElem hfull
    have hp2 : es[2 * (i / 2)]? = some p := by rw [← hi2]; exact hp
    have := pair_consecutive_opt es st hnd h (i / 2) p _ hp2 hq
    refine ⟨es[2 * (i / 2) + 1], List.getElem_mem _, ?_, this.1, this.2⟩
    intro e
    rw [← ei] at e
    have := (List.Nodup.getElem_inj_iff hnd).mp e
    omega
  · have hi2 : i = 2 * (i / 2) + 1 := by omega
    have h0 : 2 * (i / 2) < es.length := by omega
    have hq : es[2 * (i / 2)]? = some (es[2 * (i / 2)]) :=
      List.getElem?_eq_getElem h0
    have hp2 : es[2 * (i / 2) + 1]? = some p := by rw [← hi2]; exact hp
    have := pair_consecutive_opt es st hnd h (i / 2) _ p hq hp2
    refine ⟨es[2 * (i / 2)], List.getElem_mem _, ?_, this.2, this.1⟩
    intro e
    rw [← ei] at e
    have := (List.Nodup.getElem_inj_iff hnd).mp e
    omega

theorem enabled_ports_nodup (mask : Nat) (devs : List Nat) (hnd : devs.Nodup) :
    (enabled_ports mask devs).Nodup :=
  List.Nodup.filter _ hnd

/-! ### Claims on the pairing -/

/-- C1: when the number of enabled ports is even, `l2fwd_dst_ports` is an
involution on the enabled ports: `dst (dst p) = p`, `dst p` is enabled, and
distinct enabled ports have distinct destinations. -/
theorem C1_even_pairing_involution (mask : Nat) (devs : List Nat) (hnd : devs.Nodup)
    (heven : (enabled_ports mask devs).length % 2 = 0) :
    ∀ p ∈ enabled_ports mask devs,
      main_dst_ports mask devs (main_dst_ports mask devs p) = p
      ∧ main_dst_ports mask devs p ∈ enabled_ports mask devs
      ∧ ∀ q ∈ enabled_ports mask devs, q ≠ p →
          main_dst_ports mask devs q ≠ main_dst_ports mask devs p := by
  have hes := enabled_ports_nodup mask devs hnd
  have key : ∀ p ∈ enabled_ports mask devs,
      main_dst_ports mask devs p ∈ enabled_ports mask devs
      ∧ main_dst_ports mask devs (main_dst_ports mask devs p) = p := by
    intro p hp
    obtain ⟨i, hi⟩ := List.mem_iff_getElem?.mp hp
    obtain ⟨hlt, _⟩ := List.getElem?_eq_some.mp hi
    obtain ⟨q, hq, _, h1, h2⟩ :=
      pair_partner (enabled_ports mask devs) pairInit hes rfl i p hi (by omega)
    rw [main_dst_ports_eq, h1, h2]
    exact ⟨hq, rfl⟩
  intro p hp
  refine ⟨(key p hp).2, (key p hp).1, ?_⟩
  intro q hq hne e
  apply hne
  rw [← (key q hq).2, e, (key p hp).2]

theorem C1_even_pairing_involution_witness :
    [0, 1, 2, 3].Nodup ∧ (enabled_ports 15 [0, 1, 2, 3]).length % 2 = 0
    ∧ ∀ p ∈ enabled_ports 15 [0, 1, 2, 3],
      main_dst_ports 15 [0, 1, 2, 3] (main_dst_ports 15 [0, 1, 2, 3] p) = p
      ∧ main_dst_ports 15 [0, 1, 2, 3] p ∈ enabled_ports 15 [0, 1, 2, 3]
      ∧ ∀ q ∈ enabled_ports 15 [0, 1, 2, 3], q ≠ p →
          main_dst_ports 15 [0, 1, 2, 3] q ≠ main_dst_ports 15 [0, 1, 2, 3] p :=
  ⟨by decide, by decide,
    C1_even_pairing_involution 15 [0, 1, 2, 3] (by decide) (by decide)⟩

/-- C2: when the number of enabled ports is odd, the last enabled port in
enumeration order is the only enabled port that maps to itself; every other
enabled port `q` has `dst q ≠ q` and `dst (dst q) = q`. -/
theorem C2_odd_pairing_self_loop (mask : Nat) (devs : List Nat) (hnd : devs.Nodup)
    (hodd : (enabled_ports mask devs).length % 2 = 1) :
    ∃ last, (enabled_ports mask devs).getLast? = some last
      ∧ (∀ p ∈ enabled_ports mask devs, main_dst_ports mask devs p = p ↔ p = last)
      ∧ ∀ q ∈ enabled_ports mask devs, q ≠ last →
          main_dst_ports mask devs q ≠ q
          ∧ main_dst_ports mask devs (main_dst_ports mask devs q) = q := by
  have hes := enabled_ports_nodup mask devs hnd
  have hne : enabled_ports mask devs ≠ [] := by
    intro e; rw [e] at hodd; simp at hodd
  have hlast := List.getLast?_eq_getLast _ hne
  have hself := pair_leftover (enabled_ports mask devs) pairInit rfl hodd _ hlast
  have hother : ∀ q ∈ enabled_ports mask devs, q ≠ (enabled_ports mask devs).getLast hne →
      main_dst_ports mask devs q ≠ q
      ∧ main_dst_ports mask devs (main_dst_ports mask devs q) = q := by
    intro q hq hql
    obtain ⟨i, hi⟩ := List.mem_iff_getElem?.mp hq
    obtain ⟨hlt, ei⟩ := List.getElem?_eq_some.mp hi
    have hil : i ≠ (enabled_ports mask devs).length - 1 := by
      intro e
      apply hql
      rw [List.getLast_eq_getElem, ← ei]
      simp [e]
    obtain ⟨r, _, hrq, h1, h2⟩ :=
      pair_partner (enabled_ports mask devs) pairInit hes rfl i q hi (by omega)
    rw [main_dst_ports_eq, h1, h2]
    exact ⟨hrq, rfl⟩
  refine ⟨(enabled_ports mask devs).getLast hne, hlast, ?_, hother⟩
  intro p hp
  constructor
  · intro hpp
    by_contra hpl
    exact (hother p hp hpl).1 hpp
  · intro e
    rw [e, main_dst_ports_eq]
    exact hself

theorem C2_odd_pairing_self_loop_witness :
    [0, 1, 2, 3].Nodup ∧ (enabled_ports 11 [0, 1, 2, 3]).length % 2 = 1
    ∧ ∃ last, (enabled_ports 11 [0, 1, 2, 3]).getLast? = some last
      ∧ (∀ p ∈ enabled_ports 11 [0, 1, 2, 3],
          main_dst_ports 11 [0, 1, 2, 3] p = p ↔ p = last)
      ∧ ∀ q ∈ enabled_ports 11 [0, 1, 2, 3], q ≠ last →
          main_dst_ports 11 [0, 1, 2, 3] q ≠ q
          ∧ main_dst_ports 11 [0, 1, 2, 3] (main_dst_ports 11 [0, 1, 2, 3] q) = q :=
  ⟨by decide, by decide,
    C2_odd_pairing_self_loop 11 [0, 1, 2, 3] (by decide) (by decide)⟩

/-- C3: the pairing follows enablement order: the enabled ports at positions
`2k` and `2k+1` of the visiting order are each other's destination. -/
theorem C3_pairing_in_enablement_order (mask : Nat) (devs : List Nat) (hnd : devs.Nodup)
    (k : Nat) (h : 2 * k + 1 < (enabled_ports mask devs).length) :
    main_dst_ports mask devs ((enabled_ports mask devs).get ⟨2 * k, by omega⟩)
        = (enabled_ports mask devs).get ⟨2 * k + 1, h⟩
    ∧ main_dst_ports mask devs ((enabled_ports mask devs).get ⟨2 * k + 1, h⟩)
        = (enabled_ports mask devs).get ⟨2 * k, by omega⟩ := by
  rw [main_dst_ports_eq]
  exact pair_consecutive _ pairInit (enabled_ports_nodup mask devs hnd) rfl k h

theorem C3_pairing_in_enablement_order_witness :
    [0, 1, 2, 3, 4].Nodup ∧ enabled_ports 27 [0, 1, 2, 3, 4] = [0, 1, 3, 4]
    ∧ main_dst_ports 27 [0, 1, 2, 3, 4] 3 = 4
    ∧ main_dst_ports 27 [0, 1, 2, 3, 4] 4 = 3 :=
  ⟨by decide, by decide,
    C3_pairing_in_enablement_order 27 [0, 1, 2, 3, 4] (by decide) 1 (by decide)⟩

/-! ### Frame filter -/

theorem loop_source_any (cfg : Config) (m : rte_mbuf) :
    (List.range cfg.nb_ports).any
        (fun i => is_same_ether_addr (s_addr m) (cfg.l2fwd_ports_eth_addr i)) = true
      ↔ ∃ i, i < cfg.nb_ports ∧ s_addr m = cfg.l2fwd_ports_eth_addr i := by
  simp [List.any_eq_true, is_same_ether_addr]

/-- Startup validation confines the enabled ports to the table indices the
filter scans. -/
theorem enabled_port_lt_nb_ports (mask p : Nat) (hmask : mask < 2 ^ 32)
    (hok : port_mask_ok mask 2 = true) (hen : port_enabled mask p = true) : p < 2 := by
  by_contra hp
  have hbit : mask.testBit p = true := by
    by_contra hb
    have hb2 : mask.testBit p = false := by simpa using hb
    have : mask &&& (1 <<< p) = 0 := by
      rw [Nat.one_shiftLeft, Nat.and_two_pow, hb2]; simp
    simp [port_enabled, this] at hen
  have hp32 : p < 32 := by
    by_contra h32
    have hle : 2 ^ 32 ≤ 2 ^ p := Nat.pow_le_pow_right (by decide) (by omega)
    have := Nat.testBit_lt_two_pow (lt_of_lt_of_le hmask hle)
    rw [this] at hbit
    exact Bool.noConfusion hbit
  have hz : mask &&& (2 ^ 32 - 1 - ((1 <<< 2) - 1)) = 0 := by
    simpa [port_mask_ok] using hok
  have hc : (2 ^ 32 - 1 - ((1 <<< 2) - 1) : Nat).testBit p = true := by
    have hp2 : 2 ≤ p := by omega
    interval_cases p <;> decide
  have : (mask &&& (2 ^ 32 - 1 - ((1 <<< 2) - 1))).testBit p = true := by
    rw [Nat.testBit_and, hbit, hc]; rfl
  rw [hz] at this
  simp at this

/-- C4: `filter_ether_frame` returns one of the four verdicts 1, -1, -2, -3,
and it accepts exactly the IPv4/UDP frames whose source MAC differs from each
of the first `nb_ports` entries of the port MAC table. -/
theorem C4_filter_verdict (cfg : Config) (m : rte_mbuf) :
    (filter_ether_frame cfg m = 1 ∨ filter_ether_frame cfg m = -1
      ∨ filter_ether_frame cfg m = -2 ∨ filter_ether_frame cfg m = -3)
    ∧ (filter_ether_frame cfg m = 1 ↔
        ether_type m = ETHER_TYPE_IPv4 ∧ next_proto_id m = IPPROTO_UDP
        ∧ ∀ i, i < cfg.nb_ports → s_addr m ≠ cfg.l2fwd_ports_eth_addr i) := by
  unfold filter_ether_frame
  by_cases h1 : ether_type m = ETHER_TYPE_IPv4
  · by_cases h2 : next_proto_id m = IPPROTO_UDP
    · by_cases h3 : (List.range cfg.nb_ports).any
          (fun i => is_same_ether_addr (s_addr m) (cfg.l2fwd_ports_eth_addr i)) = true
      · have h3x := (loop_source_any cfg m).mp h3
        obtain ⟨i, hi, he⟩ := h3x
        simp only [h1, h2, h3, ne_eq, not_true_eq_false, if_false, if_true]
        refine ⟨by decide, ?_⟩
        constructor
        · intro h; exact absurd h (by decide)
        · intro h; exact absurd he (h.2.2 i hi)
      · have h3x : ¬ ∃ i, i < cfg.nb_ports ∧ s_addr m = cfg.l2fwd_ports_eth_addr i :=
          fun h => h3 ((loop_source_any cfg m).mpr h)
        simp only [h1, h2, h3, ne_eq, not_true_eq_false, if_false]
        refine ⟨Or.inl rfl, ?_⟩
        constructor
        · intro _
          exact ⟨trivial, trivial, fun i hi he => h3x ⟨i, hi, he⟩⟩
        · intro _; rfl
    · simp only [h1, h2, ne_eq, not_true_eq_false, not_false_eq_true, if_false, if_true]
      refine ⟨by decide, ?_⟩
      constructor
      · intro h; exact absurd h (by decide)
      · intro h; exact absurd h.2.1 (by simp)
  · simp only [h1, ne_eq, not_false_eq_true, if_true]
    refine ⟨by decide, ?_⟩
    constructor
    · intro h; exact absurd h (by decide)
    · intro h; exact absurd h.1 (by simp)

/-- C6: an IPv4 frame whose protocol field is not UDP gets verdict -2. -/
theorem C6_filter_not_udp (cfg : Config) (m : rte_mbuf)
    (h4 : ether_type m = ETHER_TYPE_IPv4) (hudp : next_proto_id m ≠ IPPROTO_UDP) :
    filter_ether_frame cfg m = -2 := by
  simp [filter_ether_frame, h4, hudp]

/-! ### Batch filter -/

theorem rejected_succ (cfg : Config) (arr : MbufArray) (k : Nat) (m : rte_mbuf)
    (hk : arr[k]? = some (some m)) :
    rejected cfg arr (k + 1)
      = rejected cfg arr k ++ (if filter_ether_frame cfg m ≠ 1 then [m] else []) := by
  unfold rejected
  rw [List.take_succ, hk]
  by_cases h : filter_ether_frame cfg m = 1 <;>
    simp [List.filterMap_append, List.filter_append, h]

/-- What `filter_mbuf_array` computes when the first `num` slots hold
descriptors: it ends normally, frees the rejected descriptors in slot order,
empties their slots and leaves every other slot as it was. -/
theorem filter_mbuf_array_spec (cfg : Config) (arr : MbufArray) (num : Nat)
    (hwf : ∀ j, j < num → ∃ m, arr[j]? = some (some m)) :
    ∃ out, filter_mbuf_array cfg arr num
        = some (out, (rejected cfg arr num).map Call.rte_pktmbuf_free)
      ∧ out.length = arr.length
      ∧ ∀ j, out[j]? = if j < num then (arr[j]?).map (keep_accepted cfg) else arr[j]? := by
  induction num with
  | zero =>
    refine ⟨arr, ?_, rfl, ?_⟩
    · simp [filter_mbuf_array, rejected]
    · intro j; simp
  | succ k ih =>
    obtain ⟨out, hrun, hlen, hget⟩ := ih (fun j hj => hwf j (by omega))
    obtain ⟨m, hm⟩ := hwf k (by omega)
    have hk : out[k]? = some (some m) := by
      rw [hget k]; simp [hm]
    have hklt : k < out.length := by
      obtain ⟨h, _⟩ := List.getElem?_eq_some.mp hk
      exact h
    unfold filter_mbuf_array at hrun ⊢
    rw [List.range_succ, List.foldl_append, hrun]
    by_cases hv : filter_ether_frame cfg m = 1
    · refine ⟨out, ?_, hlen, ?_⟩
      · simp [filter_mbuf_array_body, hk, hv, rejected_succ cfg arr k m hm]
      · intro j
        by_cases hjk : j = k
        · subst hjk
          simp [hk, hm, keep_accepted, hv]
        · rw [hget j]
          by_cases hj : j < k
          · have : j < k + 1 := by omega
            simp [hj, this]
          · have : ¬ j < k + 1 := by omega
            simp [hj, this]
    · refine ⟨out.set k none, ?_, by simp [hlen], ?_⟩
      · simp [filter_mbuf_array_body, hk, hv, rejected_succ cfg arr k m hm]
      · intro j
        by_cases hjk : j = k
        · subst hjk
          simp [hklt, hm, keep_accepted, hv]
        · have hkj : k ≠ j := fun e => hjk e.symm
          rw [List.getElem?_set_ne hkj, hget j]
          by_cases hj : j < k
          · have : j < k + 1 := by omega
            simp [hj, this]
          · have : ¬ j < k + 1 := by omega
            simp [hj, this]

theorem mem_rejected (cfg : Config) (arr : MbufArray) (num : Nat) (m : rte_mbuf) :
    m ∈ rejected cfg arr num
      ↔ m ∈ (arr.take num).filterMap id ∧ filter_ether_frame cfg m ≠ 1 := by
  simp [rejected, List.mem_filter]

theorem mem_taken (arr : MbufArray) (num i : Nat) (m : rte_mbuf) (hi : i < num)
    (hm : arr[i]? = some (some m)) : m ∈ (arr.take num).filterMap id := by
  have h1 : (arr.take num)[i]? = some (some m) := by
    rw [List.getElem?_take_of_lt hi]; exact hm
  obtain ⟨h2, h3⟩ := List.getElem?_eq_some.mp h1
  exact List.mem_filterMap.mpr ⟨some m, by rw [← h3]; exact List.getElem_mem _, rfl⟩

/-- C8: `filter_mbuf_array` on a batch of `num` descriptors ends normally and
leaves an array of the same length; it frees the rejected descriptors in slot
order, one call per rejected slot; a rejected slot is left `NULL` and an
accepted slot still holds its descriptor, which is not freed.  With pairwise
distinct descriptors each rejected one is freed exactly once. -/
theorem C8_filter_mbuf_array (cfg : Config) (arr : MbufArray) (num : Nat)
    (hwf : ∀ j, j < num → ∃ m, arr[j]? = some (some m)) :
    ∃ out log, filter_mbuf_array cfg arr num = some (out, log)
      ∧ out.length = arr.length
      ∧ log = (rejected cfg arr num).map Call.rte_pktmbuf_free
      ∧ (∀ i m, i < num → arr[i]? = some (some m) →
          (filter_ether_frame cfg m ≠ 1 →
            out[i]? = some none ∧ Call.rte_pktmbuf_free m ∈ log)
          ∧ (filter_ether_frame cfg m = 1 →
            out[i]? = some (some m) ∧ Call.rte_pktmbuf_free m ∉ log))
      ∧ (∀ i, num ≤ i → out[i]? = arr[i]?)
      ∧ (((arr.take num).filterMap id).Nodup →
          ∀ i m, i < num → arr[i]? = some (some m) →
            log.count (Call.rte_pktmbuf_free m)
              = if filter_ether_frame cfg m = 1 then 0 else 1) := by
  obtain ⟨out, hrun, hlen, hget⟩ := filter_mbuf_array_spec cfg arr num hwf
  have hmemlog : ∀ m, Call.rte_pktmbuf_free m
      ∈ (rejected cfg arr num).map Call.rte_pktmbuf_free ↔ m ∈ rejected cfg arr num := by
    intro m
    constructor
    · intro h
      obtain ⟨x, hx, e⟩ := List.mem_map.mp h
      cases e
      exact hx
    · intro h
      exact List.mem_map.mpr ⟨m, h, rfl⟩
  refine ⟨out, _, hrun, hlen, rfl, ?_, ?_, ?_⟩
  · intro i m hi hm
    constructor
    · intro hv
      refine ⟨?_, (hmemlog m).mpr ((mem_rejected cfg arr num m).mpr ⟨mem_taken arr num i m hi hm, hv⟩)⟩
      rw [hget i]; simp [hi, hm, keep_accepted, hv]
    · intro hv
      refine ⟨?_, fun h => ((mem_rejected cfg arr num m).mp ((hmemlog m).mp h)).2 hv⟩
      rw [hget i]; simp [hi, hm, keep_accepted, hv]
  · intro i hi
    rw [hget i]
    have : ¬ i < num := by omega
    simp [this]
  · intro hnd i m hi hm
    by_cases hv : filter_ether_frame cfg m = 1
    · rw [if_pos hv]
      apply List.count_eq_zero.mpr
      exact fun h => ((mem_rejected cfg arr num m).mp ((hmemlog m).mp h)).2 hv
    · rw [if_neg hv]
      have hnd2 : ((rejected cfg arr num).map Call.rte_pktmbuf_free).Nodup := by
        apply List.Nodup.map
        · intro a b e; cases e; rfl
        · exact List.Nodup.filter _ hnd
      exact List.count_eq_one_of_mem hnd2
        ((hmemlog m).mpr ((mem_rejected cfg arr num m).mpr ⟨mem_taken arr num i m hi hm, hv⟩))

theorem C8_filter_mbuf_array_witness :
    (∀ j, j < 3 → ∃ m, [some frameUdp, some frameTcp, some frameUdpLoop, none][j]? = some (some m))
    ∧ ∃ out log,
        filter_mbuf_array sampleConfig [some frameUdp, some frameTcp, some frameUdpLoop, none] 3
          = some (out, log)
        ∧ out.length = 4
        ∧ log = [Call.rte_pktmbuf_free frameTcp, Call.rte_pktmbuf_free frameUdpLoop] := by
  have hwf : ∀ j, j < 3 →
      ∃ m, [some frameUdp, some frameTcp, some frameUdpLoop, none][j]? = some (some m) := by
    intro j hj
    interval_cases j <;> exact ⟨_, rfl⟩
  obtain ⟨out, log, h1, h2, h3, _⟩ := C8_filter_mbuf_array sampleConfig
    [some frameUdp, some frameTcp, some frameUdpLoop, none] 3 hwf
  refine ⟨hwf, out, log, h1, h2, ?_⟩
  rw [h3]
  decide

/-! ### Transmit path and dispatcher -/

theorem ether_addr_copy_length (a : ether_addr) (data : List Nat) (off : Nat) :
    (ether_addr_copy a data off).length = data.length := by
  simp [ether_addr_copy]

theorem ether_addr_copy_get (a : ether_addr) (data : List Nat) (off i : Nat)
    (h : i < off ∨ off + 6 ≤ i) : (ether_addr_copy a data off)[i]? = data[i]? := by
  unfold ether_addr_copy
  rw [List.getElem?_set_ne (by omega), List.getElem?_set_ne (by omega),
    List.getElem?_set_ne (by omega), List.getElem?_set_ne (by omega),
    List.getElem?_set_ne (by omega), List.getElem?_set_ne (by omega)]

/-- The calls made inside `nc_udp` never include a call of `nc_udp`. -/
theorem nc_udp_not_reentrant (cfg : Config) (ct : Int) (m : rte_mbuf) (p : Nat)
    (ct1 : Int) (m1 : rte_mbuf) (p1 : Nat) :
    Call.nc_udp ct1 m1 p1 ∉ nc_udp cfg ct m p := by
  unfold nc_udp l2fwd_put_rxq
  split_ifs <;> simp

/-- The dispatch loop on an array with at least `nb_rx` slots ends normally
and makes the calls listed by `dispatched`. -/
theorem dispatch_spec (cfg : Config) (portid : Nat) (pkts : MbufArray) (nb_rx n0 : Nat)
    (log0 : List Call) (hlen : nb_rx ≤ pkts.length) :
    ∃ n, (List.range nb_rx).foldl (dispatch_body cfg portid pkts) (some (n0, log0))
      = some (n, log0 ++ dispatched cfg portid pkts nb_rx) := by
  induction nb_rx with
  | zero => exact ⟨n0, by simp [dispatched]⟩
  | succ k ih =>
    obtain ⟨n, hn⟩ := ih (by omega)
    have hk : k < pkts.length := by omega
    rw [List.range_succ, List.foldl_append, hn]
    have hget : pkts[k]? = some pkts[k] := List.getElem?_eq_getElem hk
    cases hslot : pkts[k] with
    | none =>
      rw [hslot] at hget
      refine ⟨n, ?_⟩
      simp [dispatch_body, hget, dispatched, List.take_succ, List.filterMap_append]
    | some m =>
      rw [hslot] at hget
      refine ⟨(n + 1) % 2 ^ 64, ?_⟩
      simp [dispatch_body, hget, dispatched, List.take_succ, List.filterMap_append,
        List.flatMap_append]

/-- A call of `nc_udp` among the dispatched calls is on a descriptor held in
one of the first `nb_rx` slots. -/
theorem mem_dispatched (cfg : Config) (portid : Nat) (pkts : MbufArray) (nb_rx : Nat)
    (ct : Int) (m : rte_mbuf) (p : Nat)
    (h : Call.nc_udp ct m p ∈ dispatched cfg portid pkts nb_rx) :
    ∃ j, j < nb_rx ∧ pkts[j]? = some (some m) := by
  unfold dispatched at h
  obtain ⟨m0, hm0, hin⟩ := List.mem_flatMap.mp h
  rcases List.mem_cons.mp hin with e | e
  · cases e
    obtain ⟨slot, hslot, hid⟩ := List.mem_filterMap.mp hm0
    simp only [id_eq] at hid
    subst hid
    obtain ⟨j, hj⟩ := List.mem_iff_getElem?.mp hslot
    rw [List.getElem?_take] at hj
    by_cases hjn : j < nb_rx
    · rw [if_pos hjn] at hj
      exact ⟨j, hjn, hj⟩
    · rw [if_neg hjn] at hj
      exact Option.noConfusion hj
  · exact absurd e (nc_udp_not_reentrant cfg _ _ _ _ _ _)

theorem filter_accept_ipv4 (cfg : Config) (m : rte_mbuf)
    (h : filter_ether_frame cfg m = 1) : ether_type m = ETHER_TYPE_IPv4 := by
  by_contra hne
  simp [filter_ether_frame, hne] at h

theorem keep_accepted_some (cfg : Config) (slot : Option rte_mbuf) (m : rte_mbuf)
    (h : keep_accepted cfg slot = some m) : slot = some m ∧ filter_ether_frame cfg m = 1 := by
  cases slot with
  | none => simp [keep_accepted] at h
  | some m0 =>
    by_cases hv : filter_ether_frame cfg m0 = 1
    · simp [keep_accepted, hv] at h
      subst h
      exact ⟨rfl, hv⟩
    · simp [keep_accepted, hv] at h

/-- C9: with coder role -1, `nc_udp` calls `l2fwd_put_rxq` once, on the
descriptor it was given, and nothing else; the frame that reaches the
transmit buffer has the same descriptor and length, the same bytes from
offset 12 on, and is the very same frame when MAC rewriting is off. -/
theorem C9_pass_through (cfg : Config) (m : rte_mbuf) (p : Nat) :
    ∃ m1, nc_udp cfg (-1) m p
        = [Call.l2fwd_put_rxq m p,
           Call.rte_eth_tx_buffer (cfg.l2fwd_dst_ports p) 0 (cfg.l2fwd_dst_ports p) m1]
      ∧ m1.addr = m.addr
      ∧ m1.data.length = m.data.length
      ∧ (∀ i, 12 ≤ i → m1.data[i]? = m.data[i]?)
      ∧ (cfg.mac_updating = 0 → m1 = m) := by
  by_cases hmac : cfg.mac_updating = 0
  · refine ⟨m, ?_, rfl, rfl, fun _ _ => rfl, fun _ => rfl⟩
    simp [nc_udp, l2fwd_put_rxq, hmac]
  · refine ⟨l2fwd_mac_updating cfg m, ?_, rfl, ?_, ?_, fun h => absurd h hmac⟩
    · simp [nc_udp, l2fwd_put_rxq, hmac]
    · simp [l2fwd_mac_updating, ether_addr_copy_length]
    · intro i hi
      simp only [l2fwd_mac_updating]
      rw [ether_addr_copy_get _ _ 0 i (by omega), ether_addr_copy_get _ _ 6 i (by omega)]

/-- C10: for coder roles 0, 1 and 2 `nc_udp` makes exactly one call, to the
coding operation of that role, with the frame, the shared pool, the receive
port and `l2fwd_put_rxq` as sink; it does not call `l2fwd_put_rxq` itself. -/
theorem C10_coder_dispatch (cfg : Config) (m : rte_mbuf) (p : Nat) :
    nc_udp cfg 0 m p
        = [Call.encode_udp_data Sym.enc m Sym.l2fwd_pktmbuf_pool p Sym.l2fwd_put_rxq]
    ∧ nc_udp cfg 1 m p
        = [Call.decode_udp_data Sym.dec m Sym.l2fwd_pktmbuf_pool p Sym.l2fwd_put_rxq]
    ∧ nc_udp cfg 2 m p
        = [Call.recode_udp_data Sym.rec_ m Sym.l2fwd_pktmbuf_pool p Sym.l2fwd_put_rxq]
    ∧ ∀ ct : Int, ct = 0 ∨ ct = 1 ∨ ct = 2 →
        ∀ m1 p1, Call.l2fwd_put_rxq m1 p1 ∉ nc_udp cfg ct m p := by
  refine ⟨by simp [nc_udp], by simp [nc_udp], by simp [nc_udp], ?_⟩
  intro ct hct m1 p1
  rcases hct with h | h | h <;> subst h <;> simp [nc_udp]

/-! ### Receive step -/

/-- C5: a frame whose Ethertype is not IPv4 gets verdict -1, and with
filtering on one receive step of `l2fwd_main_loop` over a received batch ends
normally and calls `nc_udp` only on IPv4 frames. -/
theorem C5_non_ipv4_never_dispatched (cfg : Config) (st : LoopState) (i nb_rx : Nat)
    (pkts : MbufArray) (hfilt : cfg.filtering ≠ 0)
    (hwf : ∀ j, j < nb_rx → ∃ m, pkts[j]? = some (some m)) :
    (∀ m, ether_type m ≠ ETHER_TYPE_IPv4 → filter_ether_frame cfg m = -1)
    ∧ ∃ flow st1 new, l2fwd_main_loop_rx cfg st i nb_rx pkts = some (flow, st1)
        ∧ st1.log = st.log ++ new
        ∧ ∀ ct m p, Call.nc_udp ct m p ∈ new → ether_type m = ETHER_TYPE_IPv4 := by
  constructor
  · intro m hm
    simp [filter_ether_frame, hm]
  · unfold l2fwd_main_loop_rx
    simp only []
    by_cases hflag : st.qconf.start_rx_flag i = true
    · rw [if_pos hflag]
      by_cases hbig : nb_rx > (cfg.max_pkt_burst % 65536).toNat
      · rw [if_pos hbig]
        exact ⟨_, _, [Call.rte_eth_rx_burst (st.qconf.rx_port_list i) 0 cfg.max_pkt_burst],
          rfl, rfl, by simp⟩
      · rw [if_neg hbig]
        by_cases hzero : nb_rx = 0
        · rw [if_pos hzero]
          by_cases htry0 : cfg.max_poll_short_try = 0
          · rw [if_pos htry0]
            exact ⟨_, _, [Call.rte_eth_rx_burst (st.qconf.rx_port_list i) 0 cfg.max_pkt_burst],
              rfl, rfl, by simp⟩
          · rw [if_neg htry0]
            by_cases hlt : (st.qconf.rx_burst_try i : Int) < cfg.max_poll_short_try
            · rw [if_pos hlt]
              exact ⟨_, _, [Call.rte_eth_rx_burst (st.qconf.rx_port_list i) 0 cfg.max_pkt_burst,
                Call.rte_delay_us cfg.poll_short_interval_us], rfl, by simp, by simp⟩
            · rw [if_neg hlt]
              exact ⟨_, _, [Call.rte_eth_rx_burst (st.qconf.rx_port_list i) 0 cfg.max_pkt_burst,
                Call.usleep cfg.poll_long_interval_us], rfl, by simp, by simp⟩
        · rw [if_neg hzero, if_pos hfilt]
          obtain ⟨out, hrun, hlen, hget⟩ := filter_mbuf_array_spec cfg pkts nb_rx hwf
          rw [hrun]
          simp only []
          by_cases hkni : cfg.kni_mode ≠ 0
          · rw [if_pos hkni]
            refine ⟨_, _, [Call.rte_eth_rx_burst (st.qconf.rx_port_list i) 0 cfg.max_pkt_burst]
              ++ (rejected cfg pkts nb_rx).map Call.rte_pktmbuf_free
              ++ [Call.push_kni (st.qconf.rx_port_list i) nb_rx out 1], rfl, by simp, ?_⟩
            intro ct m p hmem
            simp at hmem
          · rw [if_neg hkni]
            have hle : nb_rx ≤ out.length := by
              obtain ⟨m, hm⟩ := hwf (nb_rx - 1) (by omega)
              obtain ⟨h, _⟩ := List.getElem?_eq_some.mp hm
              omega
            obtain ⟨n, hn⟩ := dispatch_spec cfg (st.qconf.rx_port_list i) out nb_rx
              st.nb_udp_dgrams
              (st.log ++ [Call.rte_eth_rx_burst (st.qconf.rx_port_list i) 0 cfg.max_pkt_burst]
                ++ (rejected cfg pkts nb_rx).map Call.rte_pktmbuf_free) hle
            rw [hn]
            refine ⟨_, _, [Call.rte_eth_rx_burst (st.qconf.rx_port_list i) 0 cfg.max_pkt_burst]
              ++ (rejected cfg pkts nb_rx).map Call.rte_pktmbuf_free
              ++ dispatched cfg (st.qconf.rx_port_list i) out nb_rx, rfl, by simp, ?_⟩
            intro ct m p hmem
            have hd : Call.nc_udp ct m p
                ∈ dispatched cfg (st.qconf.rx_port_list i) out nb_rx := by
              simpa using hmem
            obtain ⟨j, hj, hslot⟩ := mem_dispatched cfg _ out nb_rx ct m p hd
            rw [hget j, if_pos hj] at hslot
            obtain ⟨m0, hm0⟩ := hwf j hj
            rw [hm0] at hslot
            simp only [Option.map_some', Option.some.injEq] at hslot
            exact filter_accept_ipv4 cfg m (keep_accepted_some cfg _ m hslot).2
    · rw [if_neg hflag]
      exact ⟨_, _, [], rfl, by simp, by simp⟩

theorem C5_non_ipv4_never_dispatched_witness :
    sampleConfig.filtering ≠ 0
    ∧ (∀ j, j < 2 → ∃ m, [some frameArpLoop, some frameUdp][j]? = some (some m))
    ∧ (∀ m, ether_type m ≠ ETHER_TYPE_IPv4 → filter_ether_frame sampleConfig m = -1)
    ∧ ∃ flow st1 new,
        l2fwd_main_loop_rx sampleConfig sampleState 0 2 [some frameArpLoop, some frameUdp]
          = some (flow, st1)
        ∧ st1.log = sampleState.log ++ new
        ∧ ∀ ct m p, Call.nc_udp ct m p ∈ new → ether_type m = ETHER_TYPE_IPv4 := by
  have hwf : ∀ j, j < 2 → ∃ m, [some frameArpLoop, some frameUdp][j]? = some (some m) := by
    intro j hj
    interval_cases j <;> exact ⟨_, rfl⟩
  exact ⟨by decide, hwf,
    C5_non_ipv4_never_dispatched sampleConfig sampleState 0 2
      [some frameArpLoop, some frameUdp] (by decide) hwf⟩

theorem C6_filter_not_udp_witness :
    ether_type frameTcp = ETHER_TYPE_IPv4 ∧ next_proto_id frameTcp ≠ IPPROTO_UDP
    ∧ filter_ether_frame sampleConfig frameTcp = -2 :=
  ⟨by decide, by decide, C6_filter_not_udp sampleConfig frameTcp (by decide) (by decide)⟩

/-- C7 as stated fails: an ARP frame whose source MAC is the MAC of the
enabled forwarding port 0 gets verdict -1, not -3, because the Ethertype test
comes first. -/
theorem C7_counterexample :
    port_mask_ok 3 sampleConfig.nb_ports = true ∧ port_enabled 3 0 = true
    ∧ s_addr frameArpLoop = sampleConfig.l2fwd_ports_eth_addr 0
    ∧ filter_ether_frame sampleConfig frameArpLoop = -1
    ∧ filter_ether_frame sampleConfig frameArpLoop ≠ -3 := by
  decide

/-- C7, amended: once startup validation has passed (two ports, mask within
the first `nb_ports` bits), every IPv4/UDP frame whose source MAC equals the
MAC table entry of an enabled port gets verdict -3. -/
theorem C7_loop_source_rejected (cfg : Config) (mask p : Nat) (m : rte_mbuf)
    (hnb : cfg.nb_ports = 2) (hmask : mask < 2 ^ 32)
    (hok : port_mask_ok mask cfg.nb_ports = true) (hen : port_enabled mask p = true)
    (h4 : ether_type m = ETHER_TYPE_IPv4) (hudp : next_proto_id m = IPPROTO_UDP)
    (hsrc : s_addr m = cfg.l2fwd_ports_eth_addr p) :
    filter_ether_frame cfg m = -3 := by
  rw [hnb] at hok
  have hp : p < cfg.nb_ports := by
    rw [hnb]; exact enabled_port_lt_nb_ports mask p hmask hok hen
  have hany := (loop_source_any cfg m).mpr ⟨p, hp, hsrc⟩
  simp only [filter_ether_frame, h4, hudp, hany, ne_eq, not_true_eq_false, if_false, if_true]

theorem C7_loop_source_rejected_witness :
    sampleConfig.nb_ports = 2 ∧ 3 < 2 ^ 32
    ∧ port_mask_ok 3 sampleConfig.nb_ports = true ∧ port_enabled 3 1 = true
    ∧ ether_type frameUdpLoop = ETHER_TYPE_IPv4 ∧ next_proto_id frameUdpLoop = IPPROTO_UDP
    ∧ s_addr frameUdpLoop = sampleConfig.l2fwd_ports_eth_addr 1
    ∧ filter_ether_frame sampleConfig frameUdpLoop = -3 :=
  ⟨by decide, by decide, by decide, by decide, by decide, by decide, by decide,
    C7_loop_source_rejected sampleConfig 3 1 frameUdpLoop (by decide) (by decide) (by decide)
      (by decide) (by decide) (by decide) (by decide)⟩

/-! ### MAC rewriting and transmit buffers -/

/-- C11 fails on the code: with MAC rewriting on, `l2fwd_put_rxq` writes the
MAC given by option `-s` (`src_mac_addr`) into the source MAC field, not the
MAC of the destination port; the destination MAC field gets `dst_mac_addr`.
Evaluated for receive port 0, whose destination port is 1. -/
theorem C11_source_mac_is_src_mac_addr :
    sampleConfig.mac_updating ≠ 0
    ∧ sampleConfig.l2fwd_dst_ports 0 = 1
    ∧ l2fwd_put_rxq sampleConfig frameUdp 0
        = [Call.rte_eth_tx_buffer 1 0 1 (l2fwd_mac_updating sampleConfig frameUdp)]
    ∧ s_addr (l2fwd_mac_updating sampleConfig frameUdp) = sampleConfig.src_mac_addr
    ∧ s_addr (l2fwd_mac_updating sampleConfig frameUdp)
        ≠ sampleConfig.l2fwd_ports_eth_addr (sampleConfig.l2fwd_dst_ports 0)
    ∧ d_addr (l2fwd_mac_updating sampleConfig frameUdp) = sampleConfig.dst_mac_addr := by
  decide

/-- C12: `l2fwd_put_rxq` makes one call of `rte_eth_tx_buffer`, on port
`l2fwd_dst_ports[portid]` and its buffer, with the descriptor it was given;
the packet is appended to that port's accumulator (which the library empties
into the port's queue when it is full), and the accumulator and queue of
every other port are unchanged. -/
theorem C12_put_rxq_accumulator (cfg : Config) (m : rte_mbuf) (p : Nat) (tx : TxState) :
    ∃ m1, l2fwd_put_rxq cfg m p
        = [Call.rte_eth_tx_buffer (cfg.l2fwd_dst_ports p) 0 (cfg.l2fwd_dst_ports p) m1]
      ∧ m1.addr = m.addr
      ∧ (tx_run tx (l2fwd_put_rxq cfg m p)).tx_burst (cfg.l2fwd_dst_ports p)
            ++ ((tx_run tx (l2fwd_put_rxq cfg m p)).tx_buffer (cfg.l2fwd_dst_ports p)).pkts
          = tx.tx_burst (cfg.l2fwd_dst_ports p)
            ++ ((tx.tx_buffer (cfg.l2fwd_dst_ports p)).pkts ++ [m1])
      ∧ (((tx.tx_buffer (cfg.l2fwd_dst_ports p)).pkts.length + 1
            < (tx.tx_buffer (cfg.l2fwd_dst_ports p)).size) →
          ((tx_run tx (l2fwd_put_rxq cfg m p)).tx_buffer (cfg.l2fwd_dst_ports p)).pkts
            = (tx.tx_buffer (cfg.l2fwd_dst_ports p)).pkts ++ [m1])
      ∧ ∀ q, q ≠ cfg.l2fwd_dst_ports p →
          (tx_run tx (l2fwd_put_rxq cfg m p)).tx_buffer q = tx.tx_buffer q
          ∧ (tx_run tx (l2fwd_put_rxq cfg m p)).tx_burst q = tx.tx_burst q := by
  refine ⟨if cfg.mac_updating ≠ 0 then l2fwd_mac_updating cfg m else m, rfl, ?_, ?_, ?_, ?_⟩
  · split_ifs <;> rfl
  · by_cases hfull : (tx.tx_buffer (cfg.l2fwd_dst_ports p)).pkts.length + 1
        < (tx.tx_buffer (cfg.l2fwd_dst_ports p)).size
    · simp [tx_run, l2fwd_put_rxq, tx_apply, rte_eth_tx_buffer, hfull]
    · simp [tx_run, l2fwd_put_rxq, tx_apply, rte_eth_tx_buffer, hfull, rte_eth_tx_buffer_flush]
  · intro hfull
    simp [tx_run, l2fwd_put_rxq, tx_apply, rte_eth_tx_buffer, hfull]
  · intro q hq
    by_cases hfull : (tx.tx_buffer (cfg.l2fwd_dst_ports p)).pkts.length + 1
        < (tx.tx_buffer (cfg.l2fwd_dst_ports p)).size
    · simp [tx_run, l2fwd_put_rxq, tx_apply, rte_eth_tx_buffer, hfull, hq]
    · simp [tx_run, l2fwd_put_rxq, tx_apply, rte_eth_tx_buffer, hfull, rte_eth_tx_buffer_flush, hq]

/-! ### Receive step: general shape -/

theorem wf_le_length (nb_rx : Nat) (pkts : MbufArray)
    (hwf : ∀ j, j < nb_rx → ∃ m, pkts[j]? = some (some m)) : nb_rx ≤ pkts.length := by
  by_cases h0 : nb_rx = 0
  · omega
  · obtain ⟨m, hm⟩ := hwf (nb_rx - 1) (by omega)
    obtain ⟨h, _⟩ := List.getElem?_eq_some.mp hm
    omega

/-- The filter stage of a receive step (`if (filtering) filter_mbuf_array`)
on a well-formed burst. -/
theorem filter_stage_spec (cfg : Config) (pkts : MbufArray) (nb_rx : Nat)
    (hwf : ∀ j, j < nb_rx → ∃ m, pkts[j]? = some (some m)) :
    ∃ out frees,
      (if cfg.filtering ≠ 0 then filter_mbuf_array cfg pkts nb_rx else some (pkts, []))
        = some (out, frees)
      ∧ out.length = pkts.length
      ∧ frees = (if cfg.filtering ≠ 0 then (rejected cfg pkts nb_rx).map Call.rte_pktmbuf_free
                 else [])
      ∧ ∀ j, out[j]? = if cfg.filtering ≠ 0 ∧ j < nb_rx then (pkts[j]?).map (keep_accepted cfg)
                       else pkts[j]? := by
  by_cases hf : cfg.filtering ≠ 0
  · obtain ⟨out, hrun, hlen, hget⟩ := filter_mbuf_array_spec cfg pkts nb_rx hwf
    refine ⟨out, _, ?_, hlen, rfl, ?_⟩
    · rw [if_pos hf, hrun, if_pos hf]
    · intro j
      rw [hget j]
      by_cases hj : j < nb_rx
      · rw [if_pos hj, if_pos ⟨hf, hj⟩]
      · rw [if_neg hj, if_neg (fun h => hj h.2)]
  · refine ⟨pkts, [], ?_, rfl, ?_, ?_⟩
    · rw [if_neg hf]
    · rw [if_neg hf]
    · intro j
      rw [if_neg (fun h => hf h.1)]

/-- A receive step of `l2fwd_main_loop` on a non-empty burst of admissible
size: it goes on to the next queue, clears the queue's counter, and its calls
are the poll, the frees of the filter, and then either `push_kni` (kni mode)
or the dispatch of the surviving frames. -/
theorem rx_step_burst (cfg : Config) (st : LoopState) (i nb_rx : Nat) (pkts : MbufArray)
    (hflag : st.qconf.start_rx_flag i = true) (h0 : nb_rx ≠ 0)
    (hmax : ¬ nb_rx > (cfg.max_pkt_burst % 65536).toNat)
    (hwf : ∀ j, j < nb_rx → ∃ m, pkts[j]? = some (some m)) :
    ∃ out frees st1,
      l2fwd_main_loop_rx cfg st i nb_rx pkts = some (Flow.next, st1)
      ∧ st1.qconf = { st.qconf with rx_burst_try := setPort st.qconf.rx_burst_try i 0 }
      ∧ st1.log = st.log ++ ([Call.rte_eth_rx_burst (st.qconf.rx_port_list i) 0 cfg.max_pkt_burst]
          ++ frees
          ++ (if cfg.kni_mode ≠ 0 then [Call.push_kni (st.qconf.rx_port_list i) nb_rx out 1]
              else dispatched cfg (st.qconf.rx_port_list i) out nb_rx))
      ∧ out.length = pkts.length
      ∧ frees = (if cfg.filtering ≠ 0 then (rejected cfg pkts nb_rx).map Call.rte_pktmbuf_free
                 else [])
      ∧ ∀ j, out[j]? = if cfg.filtering ≠ 0 ∧ j < nb_rx then (pkts[j]?).map (keep_accepted cfg)
                       else pkts[j]? := by
  obtain ⟨out, frees, hrun, hlen, hfrees, hget⟩ := filter_stage_spec cfg pkts nb_rx hwf
  unfold l2fwd_main_loop_rx
  simp only []
  rw [if_pos hflag, if_neg hmax, if_neg h0, hrun]
  simp only []
  by_cases hkni : cfg.kni_mode ≠ 0
  · rw [if_pos hkni]
    refine ⟨out, frees, _, rfl, rfl, ?_, hlen, hfrees, hget⟩
    simp [hkni]
  · rw [if_neg hkni]
    have hle : nb_rx ≤ out.length := by
      rw [hlen]; exact wf_le_length nb_rx pkts hwf
    obtain ⟨n, hn⟩ := dispatch_spec cfg (st.qconf.rx_port_list i) out nb_rx st.nb_udp_dgrams
      (st.log ++ [Call.rte_eth_rx_burst (st.qconf.rx_port_list i) 0 cfg.max_pkt_burst] ++ frees)
      hle
    rw [hn]
    refine ⟨out, frees, _, rfl, rfl, ?_, hlen, hfrees, hget⟩
    simp [hkni]

theorem flush_not_in_dispatched (cfg : Config) (portid : Nat) (pkts : MbufArray) (nb_rx : Nat)
    (p q b : Nat) :
    Call.rte_eth_tx_buffer_flush p q b ∉ dispatched cfg portid pkts nb_rx := by
  intro h
  unfold dispatched at h
  obtain ⟨m0, _, hin⟩ := List.mem_flatMap.mp h
  rcases List.mem_cons.mp hin with e | e
  · cases e
  · unfold nc_udp l2fwd_put_rxq at e
    split_ifs at e <;> simp at e

/-- Every receive step of `l2fwd_main_loop` on a well-formed burst is defined;
it only appends to the call log, never calls `rte_eth_tx_buffer_flush`, leaves
the queue configuration alone apart from the counter of its own queue, and
returns exactly when the queue is polled and the reported count exceeds the
16-bit burst limit. -/
theorem rx_step_frame (cfg : Config) (st : LoopState) (i : Nat) (r : RxResult) (hwf : r.wf) :
    ∃ flow st1 new,
      l2fwd_main_loop_rx cfg st i r.nb_rx r.pkts_burst = some (flow, st1)
      ∧ st1.log = st.log ++ new
      ∧ st1.qconf.n_rx_port = st.qconf.n_rx_port
      ∧ st1.qconf.rx_port_list = st.qconf.rx_port_list
      ∧ st1.qconf.start_rx_flag = st.qconf.start_rx_flag
      ∧ (∀ k, k ≠ i → st1.qconf.rx_burst_try k = st.qconf.rx_burst_try k)
      ∧ (∀ p q b, Call.rte_eth_tx_buffer_flush p q b ∉ new)
      ∧ (flow = Flow.ret ↔
          st.qconf.start_rx_flag i = true ∧ r.nb_rx > (cfg.max_pkt_burst % 65536).toNat) := by
  by_cases hflag : st.qconf.start_rx_flag i = true
  · by_cases hbig : r.nb_rx > (cfg.max_pkt_burst % 65536).toNat
    · have hrun : l2fwd_main_loop_rx cfg st i r.nb_rx r.pkts_burst
          = some (Flow.ret, { st with log := st.log
              ++ [Call.rte_eth_rx_burst (st.qconf.rx_port_list i) 0 cfg.max_pkt_burst] }) := by
        simp [l2fwd_main_loop_rx, hflag, hbig]
      exact ⟨Flow.ret, _, [Call.rte_eth_rx_burst (st.qconf.rx_port_list i) 0 cfg.max_pkt_burst],
        hrun, rfl, rfl, rfl, rfl, fun _ _ => rfl, by simp, by simp [hflag, hbig]⟩
    · by_cases hzero : r.nb_rx = 0
      · have hbig0 : ¬ 0 > (cfg.max_pkt_burst % 65536).toNat := by omega
        by_cases htry0 : cfg.max_poll_short_try = 0
        · have hrun : l2fwd_main_loop_rx cfg st i r.nb_rx r.pkts_burst
              = some (Flow.next, { st with log := st.log
                  ++ [Call.rte_eth_rx_burst (st.qconf.rx_port_list i) 0 cfg.max_pkt_burst] }) := by
            simp [l2fwd_main_loop_rx, hflag, hzero, htry0]
          exact ⟨Flow.next, _,
            [Call.rte_eth_rx_burst (st.qconf.rx_port_list i) 0 cfg.max_pkt_burst],
            hrun, rfl, rfl, rfl, rfl, fun _ _ => rfl, by simp, by simp [hbig]⟩
        · by_cases hlt : (st.qconf.rx_burst_try i : Int) < cfg.max_poll_short_try
          · have hrun : l2fwd_main_loop_rx cfg st i r.nb_rx r.pkts_burst
                = some (Flow.next,
                  { st with
                    qconf := { st.qconf with
                      rx_burst_try := setPort st.qconf.rx_burst_try i
                        ((st.qconf.rx_burst_try i + 1) % 65536) }
                    log := st.log
                      ++ [Call.rte_eth_rx_burst (st.qconf.rx_port_list i) 0 cfg.max_pkt_burst]
                      ++ [Call.rte_delay_us cfg.poll_short_interval_us] }) := by
              simp [l2fwd_main_loop_rx, hflag, hzero, htry0, hlt]
            refine ⟨Flow.next, _,
              [Call.rte_eth_rx_burst (st.qconf.rx_port_list i) 0 cfg.max_pkt_burst,
                Call.rte_delay_us cfg.poll_short_interval_us],
              hrun, by simp, rfl, rfl, rfl, ?_, by simp, by simp [hbig]⟩
            intro k hk
            simp [setPort, hk]
          · have hrun : l2fwd_main_loop_rx cfg st i r.nb_rx r.pkts_burst
                = some (Flow.next,
                  { st with
                    log := st.log
                      ++ [Call.rte_eth_rx_burst (st.qconf.rx_port_list i) 0 cfg.max_pkt_burst]
                      ++ [Call.usleep cfg.poll_long_interval_us] }) := by
              simp [l2fwd_main_loop_rx, hflag, hzero, htry0, hlt]
            exact ⟨Flow.next, _,
              [Call.rte_eth_rx_burst (st.qconf.rx_port_list i) 0 cfg.max_pkt_burst,
                Call.usleep cfg.poll_long_interval_us],
              hrun, by simp, rfl, rfl, rfl, fun _ _ => rfl, by simp, by simp [hbig]⟩
      · obtain ⟨out, frees, st1, hrun, hq, hlog, _, hfrees, _⟩ :=
          rx_step_burst cfg st i r.nb_rx r.pkts_burst hflag hzero hbig hwf
        refine ⟨Flow.next, st1, _, hrun, hlog, ?_, ?_, ?_, ?_, ?_, by simp [hbig]⟩
        · rw [hq]
        · rw [hq]
        · rw [hq]
        · intro k hk
          rw [hq]
          simp [setPort, hk]
        · intro p q b hmem
          rw [hfrees] at hmem
          rcases List.mem_append.mp hmem with h1 | h2
          · rcases List.mem_append.mp h1 with h3 | h4
            · simp at h3
            · split_ifs at h4 <;> simp at h4
          · split_ifs at h2
            · simp at h2
            · exact flush_not_in_dispatched cfg _ _ _ p q b h2
  · have hrun : l2fwd_main_loop_rx cfg st i r.nb_rx r.pkts_burst = some (Flow.next, st) := by
      simp [l2fwd_main_loop_rx, hflag]
    exact ⟨Flow.next, st, [], hrun, by simp, rfl, rfl, rfl, fun _ _ => rfl, by simp,
      by simp [hflag]⟩

/-! ### Scheduler tick and drain timer -/

/-- The receive part of a tick, over any list of queue indices, on well-formed
bursts: it is defined, only appends calls that are not flushes, and keeps the
static part of the queue configuration and the counters of the queues it does
not visit. -/
theorem rx_loop_frame (cfg : Config) (rx : Nat → RxResult) (hwf : ∀ i, (rx i).wf) :
    ∀ (idxs : List Nat) (st : LoopState),
    ∃ flow st1 new,
      seq_loop (fun st i => l2fwd_main_loop_rx cfg st i (rx i).nb_rx (rx i).pkts_burst) idxs st
        = some (flow, st1)
      ∧ st1.log = st.log ++ new
      ∧ st1.qconf.n_rx_port = st.qconf.n_rx_port
      ∧ st1.qconf.rx_port_list = st.qconf.rx_port_list
      ∧ st1.qconf.start_rx_flag = st.qconf.start_rx_flag
      ∧ (∀ k, k ∉ idxs → st1.qconf.rx_burst_try k = st.qconf.rx_burst_try k)
      ∧ (∀ p q b, Call.rte_eth_tx_buffer_flush p q b ∉ new)
  | [], st => ⟨Flow.next, st, [], rfl, by simp, rfl, rfl, rfl, fun _ _ => rfl, by simp⟩
  | i :: rest, st => by
    obtain ⟨flow, st1, new, hrun, hlog, hn, hl, hf, hc, hnf, _⟩ :=
      rx_step_frame cfg st i (rx i) (hwf i)
    cases flow with
    | ret =>
      refine ⟨Flow.ret, st1, new, ?_, hlog, hn, hl, hf, ?_, hnf⟩
      · simp [seq_loop, hrun]
      · intro k hk
        exact hc k (fun e => hk (by simp [e]))
    | next =>
      obtain ⟨flow2, st2, new2, hrun2, hlog2, hn2, hl2, hf2, hc2, hnf2⟩ :=
        rx_loop_frame cfg rx hwf rest st1
      refine ⟨flow2, st2, new ++ new2, ?_, ?_, hn2.trans hn, hl2.trans hl, hf2.trans hf, ?_, ?_⟩
      · simp [seq_loop, hrun, hrun2]
      · rw [hlog2, hlog, List.append_assoc]
      · intro k hk
        rw [hc2 k (fun e => hk (by simp [e])), hc k (fun e => hk (by simp [e]))]
      · intro p q b hmem
        rcases List.mem_append.mp hmem with h | h
        · exact hnf p q b h
        · exact hnf2 p q b h

/-- A tick of `l2fwd_main_loop` on well-formed bursts: it is defined, its
`prev_tsc` is the one the drain block leaves, and the receive part appends
calls that are not flushes. -/
theorem tick_spec (cfg : Config) (drain_tsc : Nat) (s : MainLoop) (t : Tick)
    (hwf : ∀ i, (t.rx i).wf) :
    ∃ flow s1 new,
      l2fwd_main_loop_tick cfg drain_tsc s t = some (flow, s1)
      ∧ s1.prev_tsc = (l2fwd_main_loop_drain cfg drain_tsc s t.cur_tsc).prev_tsc
      ∧ s1.st.log = (l2fwd_main_loop_drain cfg drain_tsc s t.cur_tsc).st.log ++ new
      ∧ s1.st.qconf.n_rx_port = s.st.qconf.n_rx_port
      ∧ (∀ p q b, Call.rte_eth_tx_buffer_flush p q b ∉ new) := by
  obtain ⟨flow, st1, new, hrun, hlog, hn, _, _, _, hnf⟩ :=
    rx_loop_frame cfg t.rx hwf
      (List.range (l2fwd_main_loop_drain cfg drain_tsc s t.cur_tsc).st.qconf.n_rx_port)
      (l2fwd_main_loop_drain cfg drain_tsc s t.cur_tsc).st
  refine ⟨flow, { prev_tsc := (l2fwd_main_loop_drain cfg drain_tsc s t.cur_tsc).prev_tsc
                  st := st1 }, new, ?_, rfl, hlog, ?_, hnf⟩
  · simp [l2fwd_main_loop_tick, hrun]
  · rw [hn]
    unfold l2fwd_main_loop_drain
    split_ifs <;> rfl

theorem flush_mem_drain_calls (cfg : Config) (qconf : lcore_queue_conf)
    (hq : 0 < qconf.n_rx_port) :
    Call.rte_eth_tx_buffer_flush (cfg.l2fwd_dst_ports (qconf.rx_port_list 0)) 0
        (cfg.l2fwd_dst_ports (qconf.rx_port_list 0))
      ∈ drain_calls cfg qconf := by
  unfold drain_calls
  exact List.mem_flatMap.mpr ⟨0, List.mem_range.mpr hq, by simp⟩

/-- C13 as stated fails: with `drain_tsc = 100`, `prev_tsc = 0` and
`cur_tsc = 100` the elapsed time equals the interval, and the tick makes no
flush and keeps `prev_tsc`; one cycle later the drain runs. -/
theorem C13_counterexample :
    diff_tsc 100 sampleMain.prev_tsc ≥ 100
    ∧ (l2fwd_main_loop_tick sampleConfig 100 sampleMain (idleTick 100)).map
        (fun r => (r.1, r.2.prev_tsc, r.2.st.log))
      = some (Flow.next, 0, [Call.rte_eth_rx_burst 0 0 32, Call.rte_delay_us 10])
    ∧ (l2fwd_main_loop_tick sampleConfig 100 sampleMain (idleTick 101)).map
        (fun r => (r.1, r.2.prev_tsc, r.2.st.log))
      = some (Flow.next, 101, [Call.rte_eth_tx_buffer_flush 1 0 1,
          Call.rte_eth_rx_burst 0 0 32, Call.rte_delay_us 10]) := by
  decide

/-- C13, amended: at every tick of `l2fwd_main_loop` the drain is executed
(the flush calls are made and `prev_tsc` becomes `cur_tsc`) if and only if
`cur_tsc - prev_tsc`, on 64-bit words, is strictly greater than `drain_tsc`,
whatever the polls of the tick return. -/
theorem C13_drain_iff_elapsed_exceeds (cfg : Config) (drain_tsc : Nat) (s : MainLoop)
    (t : Tick) (hq : 0 < s.st.qconf.n_rx_port) (hwf : ∀ i, (t.rx i).wf) :
    ∃ flow s1 new,
      l2fwd_main_loop_tick cfg drain_tsc s t = some (flow, s1)
      ∧ s1.st.log = s.st.log ++ new
      ∧ ((∃ p q b, Call.rte_eth_tx_buffer_flush p q b ∈ new)
          ↔ diff_tsc t.cur_tsc s.prev_tsc > drain_tsc)
      ∧ (diff_tsc t.cur_tsc s.prev_tsc > drain_tsc →
          s1.prev_tsc = t.cur_tsc ∧ ∃ rest, new = drain_calls cfg s.st.qconf ++ rest)
      ∧ (¬ diff_tsc t.cur_tsc s.prev_tsc > drain_tsc → s1.prev_tsc = s.prev_tsc) := by
  obtain ⟨flow, s1, new, hrun, hprev, hlog, _, hnf⟩ := tick_spec cfg drain_tsc s t hwf
  by_cases hd : diff_tsc t.cur_tsc s.prev_tsc > drain_tsc
  · have hdr : l2fwd_main_loop_drain cfg drain_tsc s t.cur_tsc
        = { prev_tsc := t.cur_tsc
            st := { s.st with log := s.st.log ++ drain_calls cfg s.st.qconf } } := by
      simp [l2fwd_main_loop_drain, hd]
    rw [hdr] at hprev hlog
    refine ⟨flow, s1, drain_calls cfg s.st.qconf ++ new, hrun, ?_, ?_, ?_, ?_⟩
    · rw [hlog, List.append_assoc]
    · constructor
      · intro _; exact hd
      · intro _
        exact ⟨_, _, _, List.mem_append_left _ (flush_mem_drain_calls cfg s.st.qconf hq)⟩
    · intro _
      exact ⟨hprev, new, rfl⟩
    · intro h; exact absurd hd h
  · have hdr : l2fwd_main_loop_drain cfg drain_tsc s t.cur_tsc = s := by
      simp [l2fwd_main_loop_drain, hd]
    rw [hdr] at hprev hlog
    refine ⟨flow, s1, new, hrun, hlog, ?_, ?_, ?_⟩
    · constructor
      · rintro ⟨p, q, b, h⟩
        exact absurd h (hnf p q b)
      · intro h; exact absurd h hd
    · intro h; exact absurd h hd
    · intro _; exact hprev

theorem C13_drain_iff_elapsed_exceeds_witness :
    0 < sampleMain.st.qconf.n_rx_port ∧ (∀ i, ((busyTick 101).rx i).wf)
    ∧ ∃ flow s1 new,
      l2fwd_main_loop_tick sampleConfig 100 sampleMain (busyTick 101) = some (flow, s1)
      ∧ s1.st.log = sampleMain.st.log ++ new
      ∧ ((∃ p q b, Call.rte_eth_tx_buffer_flush p q b ∈ new)
          ↔ diff_tsc (busyTick 101).cur_tsc sampleMain.prev_tsc > 100)
      ∧ (diff_tsc (busyTick 101).cur_tsc sampleMain.prev_tsc > 100 →
          s1.prev_tsc = (busyTick 101).cur_tsc
          ∧ ∃ rest, new = drain_calls sampleConfig sampleMain.st.qconf ++ rest)
      ∧ (¬ diff_tsc (busyTick 101).cur_tsc sampleMain.prev_tsc > 100 →
          s1.prev_tsc = sampleMain.prev_tsc) := by
  have hwf : ∀ i, ((busyTick 101).rx i).wf := by
    intro i j hj
    have : j = 0 := by simp [busyTick] at hj; omega
    subst this
    exact ⟨frameUdp, rfl⟩
  exact ⟨by decide, hwf,
    C13_drain_iff_elapsed_exceeds sampleConfig 100 sampleMain (busyTick 101) (by decide) hwf⟩

theorem drain_prev_tsc (cfg : Config) (drain_tsc : Nat) (s : MainLoop) (cur_tsc : Nat) :
    (l2fwd_main_loop_drain cfg drain_tsc s cur_tsc).prev_tsc
      = if diff_tsc cur_tsc s.prev_tsc > drain_tsc then cur_tsc else s.prev_tsc := by
  unfold l2fwd_main_loop_drain
  split_ifs <;> rfl

/-- Over any run of ticks with well-formed bursts whose timestamps lie between
`lo` and `hi`, the loop is defined and `prev_tsc` stays between `lo` and
`hi`. -/
theorem run_prev_between (cfg : Config) (drain_tsc lo hi : Nat) :
    ∀ (ticks : List Tick) (s : MainLoop),
    (∀ u ∈ ticks, ∀ i, (u.rx i).wf) →
    (∀ u ∈ ticks, lo ≤ u.cur_tsc ∧ u.cur_tsc ≤ hi) →
    lo ≤ s.prev_tsc → s.prev_tsc ≤ hi →
    ∃ flow s1, l2fwd_main_loop_run cfg drain_tsc ticks s = some (flow, s1)
      ∧ lo ≤ s1.prev_tsc ∧ s1.prev_tsc ≤ hi
  | [], s, _, _, h1, h2 => ⟨Flow.next, s, rfl, h1, h2⟩
  | t :: rest, s, hwf, hb, h1, h2 => by
    obtain ⟨flow, s1, new, hrun, hprev, _⟩ :=
      tick_spec cfg drain_tsc s t (hwf t (by simp))
    have hbt := hb t (by simp)
    have hs1 : lo ≤ s1.prev_tsc ∧ s1.prev_tsc ≤ hi := by
      rw [hprev, drain_prev_tsc]
      split_ifs
      · exact hbt
      · exact ⟨h1, h2⟩
    cases flow with
    | ret =>
      refine ⟨Flow.ret, s1, ?_, hs1⟩
      simp [l2fwd_main_loop_run, seq_loop, hrun]
    | next =>
      obtain ⟨flow2, s2, hrun2, hs2⟩ := run_prev_between cfg drain_tsc lo hi rest s1
        (fun u hu => hwf u (by simp [hu])) (fun u hu => hb u (by simp [hu])) hs1.1 hs1.2
      refine ⟨flow2, s2, ?_, hs2⟩
      unfold l2fwd_main_loop_run at hrun2 ⊢
      simp [seq_loop, hrun, hrun2]

/-- C14: over ticks with non-decreasing timestamps, a tick at time `t` whose
drain condition holds sets `prev_tsc` to `t`; whatever is received in that
tick and in the ticks after it, the loop state reached before a later tick at
time `t2` with `t2 - t ≤ drain_tsc` has `t ≤ prev_tsc ≤ t2`, and that later
tick does not drain: it makes no flush call and keeps `prev_tsc`. -/
theorem C14_drain_rate_limited (cfg : Config) (drain_tsc : Nat) (s : MainLoop)
    (t : Tick) (mid : List Tick) (t2 : Tick)
    (hsorted : List.Pairwise (fun a b => a ≤ b)
      ((t :: (mid ++ [t2])).map Tick.cur_tsc))
    (hrange : t2.cur_tsc < 2 ^ 64)
    (hwf : ∀ u ∈ t :: (mid ++ [t2]), ∀ i, (u.rx i).wf)
    (hdrain : diff_tsc t.cur_tsc s.prev_tsc > drain_tsc)
    (hclose : t2.cur_tsc - t.cur_tsc ≤ drain_tsc) :
    (l2fwd_main_loop_drain cfg drain_tsc s t.cur_tsc).prev_tsc = t.cur_tsc
    ∧ ∃ flow s1, l2fwd_main_loop_run cfg drain_tsc (t :: mid) s = some (flow, s1)
      ∧ t.cur_tsc ≤ s1.prev_tsc ∧ s1.prev_tsc ≤ t2.cur_tsc
      ∧ l2fwd_main_loop_drain cfg drain_tsc s1 t2.cur_tsc = s1
      ∧ ∃ flow2 s2 new, l2fwd_main_loop_tick cfg drain_tsc s1 t2 = some (flow2, s2)
          ∧ s2.prev_tsc = s1.prev_tsc
          ∧ s2.st.log = s1.st.log ++ new
          ∧ ∀ p q b, Call.rte_eth_tx_buffer_flush p q b ∉ new := by
  have hfirst : (l2fwd_main_loop_drain cfg drain_tsc s t.cur_tsc).prev_tsc = t.cur_tsc := by
    rw [drain_prev_tsc, if_pos hdrain]
  have hord : ∀ u ∈ mid ++ [t2], t.cur_tsc ≤ u.cur_tsc := by
    intro u hu
    have h := (List.pairwise_cons.mp hsorted).1
    exact h u.cur_tsc (List.mem_map.mpr ⟨u, hu, rfl⟩)
  have hmid2 : ∀ u ∈ mid, u.cur_tsc ≤ t2.cur_tsc := by
    intro u hu
    have h := (List.pairwise_cons.mp hsorted).2
    rw [List.map_append, List.pairwise_append] at h
    exact h.2.2 u.cur_tsc (List.mem_map.mpr ⟨u, hu, rfl⟩) t2.cur_tsc (by simp)
  have ht2 : t.cur_tsc ≤ t2.cur_tsc := hord t2 (by simp)
  obtain ⟨flow0, s0, new0, hrun0, hprev0, _⟩ := tick_spec cfg drain_tsc s t (hwf t (by simp))
  rw [hfirst] at hprev0
  have hrest : ∃ flow s1, l2fwd_main_loop_run cfg drain_tsc (t :: mid) s = some (flow, s1)
      ∧ t.cur_tsc ≤ s1.prev_tsc ∧ s1.prev_tsc ≤ t2.cur_tsc := by
    cases flow0 with
    | ret =>
      refine ⟨Flow.ret, s0, ?_, by omega, by omega⟩
      simp [l2fwd_main_loop_run, seq_loop, hrun0]
    | next =>
      obtain ⟨flow1, s1, hrun1, hb1⟩ := run_prev_between cfg drain_tsc t.cur_tsc t2.cur_tsc mid s0
        (fun u hu => hwf u (by simp [hu]))
        (fun u hu => ⟨hord u (by simp [hu]), hmid2 u hu⟩) (by omega) (by omega)
      refine ⟨flow1, s1, ?_, hb1⟩
      unfold l2fwd_main_loop_run at hrun1 ⊢
      simp [seq_loop, hrun0, hrun1]
  obtain ⟨flow1, s1, hrun1, hlo, hhi⟩ := hrest
  have hno : ¬ diff_tsc t2.cur_tsc s1.prev_tsc > drain_tsc := by
    unfold diff_tsc
    have e : (t2.cur_tsc + 2 ^ 64 - s1.prev_tsc) % 2 ^ 64 = t2.cur_tsc - s1.prev_tsc := by
      have h1 : t2.cur_tsc + 2 ^ 64 - s1.prev_tsc = (t2.cur_tsc - s1.prev_tsc) + 2 ^ 64 := by
        omega
      rw [h1, Nat.add_mod_right]
      exact Nat.mod_eq_of_lt (by omega)
    rw [e]
    omega
  have hstay : l2fwd_main_loop_drain cfg drain_tsc s1 t2.cur_tsc = s1 := by
    simp [l2fwd_main_loop_drain, hno]
  obtain ⟨flow2, s2, new, hrun2, hprev2, hlog2, _, hnf2⟩ :=
    tick_spec cfg drain_tsc s1 t2 (hwf t2 (by simp))
  rw [hstay] at hprev2 hlog2
  exact ⟨hfirst, flow1, s1, hrun1, hlo, hhi, hstay, flow2, s2, new, hrun2, hprev2, hlog2, hnf2⟩

theorem busyTick_wf (c i : Nat) : ((busyTick c).rx i).wf := by
  intro j hj
  have : j = 0 := by simp [busyTick] at hj; omega
  subst this
  exact ⟨frameUdp, rfl⟩

theorem idleTick_wf (c i : Nat) : ((idleTick c).rx i).wf := by
  intro j hj
  simp [idleTick] at hj

theorem C14_drain_rate_limited_witness :
    List.Pairwise (fun a b => a ≤ b)
      ((busyTick 150 :: ([busyTick 160, idleTick 200] ++ [busyTick 250])).map Tick.cur_tsc)
    ∧ (busyTick 250).cur_tsc < 2 ^ 64
    ∧ diff_tsc (busyTick 150).cur_tsc sampleMain.prev_tsc > 100
    ∧ (busyTick 250).cur_tsc - (busyTick 150).cur_tsc ≤ 100
    ∧ (l2fwd_main_loop_drain sampleConfig 100 sampleMain (busyTick 150).cur_tsc).prev_tsc
        = (busyTick 150).cur_tsc
    ∧ ∃ flow s1,
        l2fwd_main_loop_run sampleConfig 100 (busyTick 150 :: [busyTick 160, idleTick 200])
          sampleMain = some (flow, s1)
      ∧ (busyTick 150).cur_tsc ≤ s1.prev_tsc ∧ s1.prev_tsc ≤ (busyTick 250).cur_tsc
      ∧ l2fwd_main_loop_drain sampleConfig 100 s1 (busyTick 250).cur_tsc = s1
      ∧ ∃ flow2 s2 new, l2fwd_main_loop_tick sampleConfig 100 s1 (busyTick 250) = some (flow2, s2)
          ∧ s2.prev_tsc = s1.prev_tsc
          ∧ s2.st.log = s1.st.log ++ new
          ∧ ∀ p q b, Call.rte_eth_tx_buffer_flush p q b ∉ new := by
  have hwf : ∀ u ∈ busyTick 150 :: ([busyTick 160, idleTick 200] ++ [busyTick 250]),
      ∀ i, (u.rx i).wf := by
    intro u hu i
    simp only [List.cons_append, List.nil_append, List.mem_cons, List.not_mem_nil,
      or_false] at hu
    rcases hu with e | e | e | e
    · rw [e]; exact busyTick_wf 150 i
    · rw [e]; exact busyTick_wf 160 i
    · rw [e]; exact idleTick_wf 200 i
    · rw [e]; exact busyTick_wf 250 i
  have hs : List.Pairwise (fun a b => a ≤ b)
      ((busyTick 150 :: ([busyTick 160, idleTick 200] ++ [busyTick 250])).map Tick.cur_tsc) := by
    decide
  exact ⟨hs, by decide, by decide, by decide,
    C14_drain_rate_limited sampleConfig 100 sampleMain (busyTick 150)
      [busyTick 160, idleTick 200] (busyTick 250) hs (by decide) hwf (by decide) (by decide)⟩

/-! ### Kernel bridge -/

/-- Function `mod_ip_addr` on an array with at least `nb_rx` slots: it ends
normally, keeps the length, rewrites the frame of each of the first `nb_rx`
slots that holds a descriptor and leaves every other slot as it was. -/
theorem mod_ip_addr_spec (lib : CksumLib) (src dst : Option (List Nat)) (pkts : MbufArray)
    (nb_rx : Nat) (hlen : nb_rx ≤ pkts.length) :
    ∃ out, mod_ip_addr lib nb_rx pkts src dst = some out
      ∧ out.length = pkts.length
      ∧ ∀ j, out[j]? = if j < nb_rx then
                (pkts[j]?).map (Option.map (mod_ip_addr_frame lib src dst))
              else pkts[j]? := by
  induction nb_rx with
  | zero =>
    exact ⟨pkts, by simp [mod_ip_addr], rfl, by intro j; simp⟩
  | succ k ih =>
    obtain ⟨out, hrun, hl, hget⟩ := ih (by omega)
    have hk : k < pkts.length := by omega
    have hko : out[k]? = pkts[k]? := by
      rw [hget k]; simp
    have hpk : pkts[k]? = some pkts[k] := List.getElem?_eq_getElem hk
    unfold mod_ip_addr at hrun ⊢
    rw [List.range_succ, List.foldl_append, hrun]
    cases hslot : pkts[k] with
    | none =>
      rw [hslot] at hpk
      refine ⟨out, ?_, hl, ?_⟩
      · simp [mod_ip_addr_body, hko, hpk]
      · intro j
        by_cases hjk : j = k
        · subst hjk
          simp [hko, hpk]
        · rw [hget j]
          by_cases hj : j < k
          · have : j < k + 1 := by omega
            simp [hj, this]
          · have : ¬ j < k + 1 := by omega
            simp [hj, this]
    | some m =>
      rw [hslot] at hpk
      refine ⟨out.set k (some (mod_ip_addr_frame lib src dst m)), ?_, by simp [hl], ?_⟩
      · simp [mod_ip_addr_body, hko, hpk]
      · intro j
        by_cases hjk : j = k
        · subst hjk
          have : j < out.length := by omega
          simp [this, hpk]
        · have hkj : k ≠ j := fun e => hjk e.symm
          rw [List.getElem?_set_ne hkj, hget j]
          by_cases hj : j < k
          · have : j < k + 1 := by omega
            simp [hj, this]
          · have : ¬ j < k + 1 := by omega
            simp [hj, this]

/-- The release loop of `push_kni` over the indices `a .. a+n-1`, all inside
the array: it frees the descriptors held in those slots, in order, and leaves
exactly those slots `NULL`. -/
theorem push_kni_free_spec : ∀ (n a : Nat) (arr : MbufArray) (log : List Call),
    a + n ≤ arr.length →
    ∃ out, (List.range' a n).foldl push_kni_free_body (some (arr, log))
        = some (out, log ++ (((arr.drop a).take n).filterMap id).map Call.rte_pktmbuf_free)
      ∧ out.length = arr.length
      ∧ ∀ j, out[j]? = if a ≤ j ∧ j < a + n then some none else arr[j]?
  | 0, a, arr, log, _ => by
    refine ⟨arr, by simp, rfl, ?_⟩
    intro j
    have : ¬ (a ≤ j ∧ j < a + 0) := by omega
    rw [if_neg this]
  | n + 1, a, arr, log, h => by
    have ha : a < arr.length := by omega
    have hpa : arr[a]? = some arr[a] := List.getElem?_eq_getElem ha
    have hdrop : arr.drop a = arr[a] :: arr.drop (a + 1) := List.drop_eq_getElem_cons ha
    rw [List.range'_succ, List.foldl_cons]
    cases hslot : arr[a] with
    | none =>
      rw [hslot] at hpa hdrop
      obtain ⟨out, hrun, hl, hget⟩ := push_kni_free_spec n (a + 1) (arr.set a none) log
        (by simp; omega)
      rw [List.drop_set_of_lt _ _ (by omega)] at hrun
      refine ⟨out, ?_, by simpa using hl, ?_⟩
      · simp only [push_kni_free_body, hpa]
        rw [hrun, hdrop]
        simp
      · intro j
        rw [hget j]
        by_cases hja : j = a
        · subst hja
          have h1 : ¬ (j + 1 ≤ j ∧ j < j + 1 + n) := by omega
          have h2 : j ≤ j ∧ j < j + (n + 1) := by omega
          simp [h1, h2, ha]
        · have hne : a ≠ j := fun e => hja e.symm
          rw [List.getElem?_set_ne hne]
          by_cases hin : a + 1 ≤ j ∧ j < a + 1 + n
          · have h2 : a ≤ j ∧ j < a + (n + 1) := by omega
            simp [hin, h2]
          · have h2 : ¬ (a ≤ j ∧ j < a + (n + 1)) := by omega
            simp [hin, h2]
    | some m =>
      rw [hslot] at hpa hdrop
      obtain ⟨out, hrun, hl, hget⟩ := push_kni_free_spec n (a + 1) (arr.set a none)
        (log ++ [Call.rte_pktmbuf_free m]) (by simp; omega)
      rw [List.drop_set_of_lt _ _ (by omega)] at hrun
      refine ⟨out, ?_, by simpa using hl, ?_⟩
      · simp only [push_kni_free_body, hpa]
        rw [hrun, hdrop]
        simp
      · intro j
        rw [hget j]
        by_cases hja : j = a
        · subst hja
          have h1 : ¬ (j + 1 ≤ j ∧ j < j + 1 + n) := by omega
          have h2 : j ≤ j ∧ j < j + (n + 1) := by omega
          simp [h1, h2, ha]
        · have hne : a ≠ j := fun e => hja e.symm
          rw [List.getElem?_set_ne hne]
          by_cases hin : a + 1 ≤ j ∧ j < a + 1 + n
          · have h2 : a ≤ j ∧ j < a + (n + 1) := by omega
            simp [hin, h2]
          · have h2 : ¬ (a ≤ j ∧ j < a + (n + 1)) := by omega
            simp [hin, h2]

/-- Function `push_kni` with `mod_ip = 1` on an array with at least `nb_rx`
slots: it ends normally; after the two bridge calls it frees the descriptors
of the slots `push_num ≤ j < nb_rx - push_num` and leaves exactly those slots
`NULL`. -/
theorem push_kni_spec (lib : CksumLib) (portid nb_rx : Nat) (pkts : MbufArray)
    (push_num : Nat) (hlen : nb_rx ≤ pkts.length) :
    ∃ pkts1 out,
      mod_ip_addr lib nb_rx pkts none (some vnf_recv_dst_ip) = some pkts1
      ∧ pkts1.length = pkts.length
      ∧ push_kni lib portid nb_rx pkts 1 push_num
        = some (out,
            [Call.rte_kni_tx_burst portid pkts1 nb_rx, Call.rte_kni_handle_request portid]
            ++ (((pkts1.drop push_num).take (nb_rx - push_num - push_num)).filterMap id).map
                Call.rte_pktmbuf_free)
      ∧ out.length = pkts.length
      ∧ ∀ j, out[j]? = if push_num ≤ j ∧ j < nb_rx - push_num then some none
                       else pkts1[j]? := by
  obtain ⟨pkts1, hmod, hl1, _⟩ :=
    mod_ip_addr_spec lib none (some vnf_recv_dst_ip) pkts nb_rx hlen
  by_cases hp : push_num < nb_rx
  · obtain ⟨out, hrun, hl, hget⟩ := push_kni_free_spec (nb_rx - push_num - push_num) push_num
      pkts1 [Call.rte_kni_tx_burst portid pkts1 nb_rx, Call.rte_kni_handle_request portid]
      (by omega)
    refine ⟨pkts1, out, hmod, hl1, ?_, by omega, ?_⟩
    · simp only [push_kni, if_true, hmod, if_pos hp]
      exact hrun
    · intro j
      rw [hget j]
      by_cases hin : push_num ≤ j ∧ j < nb_rx - push_num
      · have : push_num ≤ j ∧ j < push_num + (nb_rx - push_num - push_num) := by omega
        rw [if_pos hin, if_pos this]
      · have : ¬ (push_num ≤ j ∧ j < push_num + (nb_rx - push_num - push_num)) := by omega
        rw [if_neg hin, if_neg this]
  · refine ⟨pkts1, pkts1, hmod, hl1, ?_, hl1, ?_⟩
    · have h0 : nb_rx - push_num - push_num = 0 := by omega
      simp only [push_kni, if_true, hmod, if_neg hp, h0]
      simp
    · intro j
      have : ¬ (push_num ≤ j ∧ j < nb_rx - push_num) := by omega
      rw [if_neg this]

/-- C19 fails on the code: for a batch of two frames of which the bridge
accepts one (`push_num = 1 < nb_rx = 2`), the release loop of `push_kni` runs
over `1 ≤ i < nb_rx - push_num = 1`, which is empty: no descriptor is freed
and slot 1 still holds its descriptor. -/
theorem C19_backpressure_remainder_not_released (lib : CksumLib) :
    ∃ pkts1 out,
      mod_ip_addr lib 2 [some frameUdp, some frameTcp] none (some vnf_recv_dst_ip) = some pkts1
      ∧ push_kni lib 0 2 [some frameUdp, some frameTcp] 1 1
          = some (out, [Call.rte_kni_tx_burst 0 pkts1 2, Call.rte_kni_handle_request 0])
      ∧ out[1]? = some (some (mod_ip_addr_frame lib none (some vnf_recv_dst_ip) frameTcp))
      ∧ (mod_ip_addr_frame lib none (some vnf_recv_dst_ip) frameTcp).addr = frameTcp.addr :=
  ⟨_, _, rfl, rfl, rfl, rfl⟩

/-! ### Loops over the receive queues -/

theorem flow_next_of_ne_ret (flow : Flow) (h : flow ≠ Flow.ret) : flow = Flow.next := by
  cases flow with
  | next => rfl
  | ret => exact absurd rfl h

/-- A loop over the queue indices `a .. a+n-1`, none of which is `i`, keeps
what the body keeps at indices other than its own. -/
theorem seq_loop_keep {σ : Type} (body : σ → Nat → Option (Flow × σ)) (P : σ → Prop)
    (cnt : σ → Nat) (i : Nat)
    (hother : ∀ s j, P s → j ≠ i →
      ∃ flow s1, body s j = some (flow, s1) ∧ P s1 ∧ cnt s1 = cnt s) :
    ∀ (n a : Nat) (s : σ), P s → i < a →
    ∃ flow s1, seq_loop body (List.range' a n) s = some (flow, s1) ∧ P s1 ∧ cnt s1 = cnt s
  | 0, a, s, hP, _ => ⟨Flow.next, s, rfl, hP, rfl⟩
  | n + 1, a, s, hP, ha => by
    obtain ⟨flow, s1, hrun, hP1, hc1⟩ := hother s a hP (by omega)
    rw [List.range'_succ]
    cases flow with
    | ret => exact ⟨Flow.ret, s1, by simp [seq_loop, hrun], hP1, hc1⟩
    | next =>
      obtain ⟨flow2, s2, hrun2, hP2, hc2⟩ :=
        seq_loop_keep body P cnt i hother n (a + 1) s1 hP1 (by omega)
      exact ⟨flow2, s2, by simp [seq_loop, hrun, hrun2], hP2, hc2.trans hc1⟩

/-- A loop over the queue indices `a .. a+n-1`, one of which is `i`: when the
body does not return before `i` and clears the counter at `i`, the counter is
clear when the loop ends. -/
theorem seq_loop_clear {σ : Type} (body : σ → Nat → Option (Flow × σ)) (P : σ → Prop)
    (cnt : σ → Nat) (i : Nat)
    (hother : ∀ s j, P s → j ≠ i →
      ∃ flow s1, body s j = some (flow, s1) ∧ P s1 ∧ cnt s1 = cnt s
        ∧ (j < i → flow = Flow.next))
    (hself : ∀ s, P s → ∃ s1, body s i = some (Flow.next, s1) ∧ P s1 ∧ cnt s1 = 0) :
    ∀ (n a : Nat) (s : σ), P s → a ≤ i → i < a + n →
    ∃ flow s1, seq_loop body (List.range' a n) s = some (flow, s1) ∧ cnt s1 = 0
  | 0, a, s, _, h1, h2 => by omega
  | n + 1, a, s, hP, h1, h2 => by
    rw [List.range'_succ]
    by_cases hai : a = i
    · subst hai
      obtain ⟨s1, hrun, hP1, hc1⟩ := hself s hP
      obtain ⟨flow2, s2, hrun2, _, hc2⟩ := seq_loop_keep body P cnt a
        (fun s j hs hj => by
          obtain ⟨f, t, e1, e2, e3, _⟩ := hother s j hs hj
          exact ⟨f, t, e1, e2, e3⟩) n (a + 1) s1 hP1 (by omega)
      exact ⟨flow2, s2, by simp [seq_loop, hrun, hrun2], hc2.trans hc1⟩
    · obtain ⟨flow, s1, hrun, hP1, _, hnext⟩ := hother s a hP hai
      have hf : flow = Flow.next := hnext (by omega)
      subst hf
      obtain ⟨flow2, s2, hrun2, hc2⟩ :=
        seq_loop_clear body P cnt i hother hself n (a + 1) s1 hP1 (by omega) (by omega)
      exact ⟨flow2, s2, by simp [seq_loop, hrun, hrun2], hc2⟩

/-- A receive step of `kni_ingress_loop` on a non-empty burst of admissible
size: it goes on to the next queue, clears the queue's counter and the idle
flag, and its calls are the poll, the clearing of the flag, the frees of the
filter and `push_kni` with the calls made inside it. -/
theorem kni_step_burst (cfg : Config) (lib : CksumLib) (s : KniIngress) (i : Nat) (r : KniRx)
    (hflag : s.st.qconf.start_rx_flag i = true) (h0 : r.rx.nb_rx ≠ 0)
    (hmax : ¬ r.rx.nb_rx > (cfg.max_pkt_burst % 65536).toNat) (hwf : r.rx.wf) :
    ∃ out frees pushed s1,
      (if cfg.filtering ≠ 0 then filter_mbuf_array cfg r.rx.pkts_burst r.rx.nb_rx
        else some (r.rx.pkts_burst, [])) = some (out, frees)
      ∧ (∃ left, push_kni lib (s.st.qconf.rx_port_list i) r.rx.nb_rx out 1 r.push_num
          = some (left, pushed))
      ∧ kni_ingress_loop_rx cfg lib s i r = some (Flow.next, s1)
      ∧ s1.st.qconf = { s.st.qconf with rx_burst_try := setPort s.st.qconf.rx_burst_try i 0 }
      ∧ s1.kni_egress_sleep = 0
      ∧ s1.st.log = s.st.log
          ++ ([Call.rte_eth_rx_burst (s.st.qconf.rx_port_list i) 0 cfg.max_pkt_burst,
                Call.rte_atomic16_clear] ++ frees
              ++ Call.push_kni (s.st.qconf.rx_port_list i) r.rx.nb_rx out 1 :: pushed) := by
  obtain ⟨out, frees, hrun, hlen, _, _⟩ :=
    filter_stage_spec cfg r.rx.pkts_burst r.rx.nb_rx hwf
  have hle : r.rx.nb_rx ≤ out.length := by
    rw [hlen]; exact wf_le_length _ _ hwf
  obtain ⟨pkts1, out2, _, _, hpush, _, _⟩ :=
    push_kni_spec lib (s.st.qconf.rx_port_list i) r.rx.nb_rx out r.push_num hle
  have hstep : ∃ s1, kni_ingress_loop_rx cfg lib s i r = some (Flow.next, s1)
      ∧ s1.st.qconf = { s.st.qconf with rx_burst_try := setPort s.st.qconf.rx_burst_try i 0 }
      ∧ s1.kni_egress_sleep = 0
      ∧ s1.st.log = s.st.log
          ++ ([Call.rte_eth_rx_burst (s.st.qconf.rx_port_list i) 0 cfg.max_pkt_burst,
                Call.rte_atomic16_clear] ++ frees
              ++ Call.push_kni (s.st.qconf.rx_port_list i) r.rx.nb_rx out 1 ::
                ([Call.rte_kni_tx_burst (s.st.qconf.rx_port_list i) pkts1 r.rx.nb_rx,
                    Call.rte_kni_handle_request (s.st.qconf.rx_port_list i)]
                  ++ (((pkts1.drop r.push_num).take
                        (r.rx.nb_rx - r.push_num - r.push_num)).filterMap id).map
                      Call.rte_pktmbuf_free)) := by
    unfold kni_ingress_loop_rx
    simp only []
    rw [if_pos hflag, if_neg hmax, if_neg h0, hrun]
    simp only []
    rw [hpush]
    simp only []
    exact ⟨_, rfl, rfl, rfl, by simp⟩
  obtain ⟨s1, h1, h2, h3, h4⟩ := hstep
  exact ⟨out, frees, _, s1, hrun, ⟨out2, hpush⟩, h1, h2, h3, h4⟩

/-- Every receive step of `kni_ingress_loop` on a well-formed burst is
defined, keeps the queue configuration apart from the counter of its own
queue, and returns exactly when the queue is polled and the reported count
exceeds the 16-bit burst limit. -/
theorem kni_step_frame (cfg : Config) (lib : CksumLib) (s : KniIngress) (i : Nat) (r : KniRx)
    (hwf : r.rx.wf) :
    ∃ flow s1,
      kni_ingress_loop_rx cfg lib s i r = some (flow, s1)
      ∧ s1.st.qconf.start_rx_flag = s.st.qconf.start_rx_flag
      ∧ (∀ k, k ≠ i → s1.st.qconf.rx_burst_try k = s.st.qconf.rx_burst_try k)
      ∧ (flow = Flow.ret ↔
          s.st.qconf.start_rx_flag i = true
            ∧ r.rx.nb_rx > (cfg.max_pkt_burst % 65536).toNat) := by
  by_cases hflag : s.st.qconf.start_rx_flag i = true
  · by_cases hbig : r.rx.nb_rx > (cfg.max_pkt_burst % 65536).toNat
    · unfold kni_ingress_loop_rx
      simp only []
      rw [if_pos hflag, if_pos hbig]
      exact ⟨Flow.ret, _, rfl, rfl, fun _ _ => rfl, by simp [hflag, hbig]⟩
    · by_cases hzero : r.rx.nb_rx = 0
      · unfold kni_ingress_loop_rx
        simp only []
        rw [if_pos hflag, if_neg hbig, if_pos hzero]
        by_cases htry0 : cfg.max_poll_short_try = 0
        · rw [if_pos htry0]
          exact ⟨Flow.next, _, rfl, rfl, fun _ _ => rfl, by simp [hbig]⟩
        · rw [if_neg htry0]
          by_cases hlt : (s.st.qconf.rx_burst_try i : Int) < cfg.max_poll_short_try
          · rw [if_pos hlt]
            refine ⟨Flow.next, _, rfl, rfl, ?_, by simp [hbig]⟩
            intro k hk
            simp [setPort, hk]
          · rw [if_neg hlt]
            by_cases hsl : s.kni_egress_sleep % 256 = 0
            · rw [if_pos hsl]
              exact ⟨Flow.next, _, rfl, rfl, fun _ _ => rfl, by simp [hbig]⟩
            · rw [if_neg hsl]
              exact ⟨Flow.next, _, rfl, rfl, fun _ _ => rfl, by simp [hbig]⟩
      · obtain ⟨_, _, _, s1, _, _, hrun, hq, _, _⟩ :=
          kni_step_burst cfg lib s i r hflag hzero hbig hwf
        refine ⟨Flow.next, s1, hrun, by rw [hq], ?_, by simp [hbig]⟩
        intro k hk
        rw [hq]
        simp [setPort, hk]
  · unfold kni_ingress_loop_rx
    simp only []
    rw [if_neg hflag]
    exact ⟨Flow.next, s, rfl, rfl, fun _ _ => rfl, by simp [hflag]⟩

/-! ### Backoff automaton -/

/-- An empty poll while the counter is below a non-zero ceiling: the counter
goes up by one on 16 bits and the short pause is made. -/
theorem rx_step_idle_short (cfg : Config) (st : LoopState) (i : Nat) (pkts : MbufArray)
    (hflag : st.qconf.start_rx_flag i = true) (htry0 : cfg.max_poll_short_try ≠ 0)
    (hlt : (st.qconf.rx_burst_try i : Int) < cfg.max_poll_short_try) :
    l2fwd_main_loop_rx cfg st i 0 pkts
      = some (Flow.next,
          { st with
            qconf := { st.qconf with
              rx_burst_try := setPort st.qconf.rx_burst_try i
                ((st.qconf.rx_burst_try i + 1) % 65536) }
            log := st.log
              ++ [Call.rte_eth_rx_burst (st.qconf.rx_port_list i) 0 cfg.max_pkt_burst]
              ++ [Call.rte_delay_us cfg.poll_short_interval_us] }) := by
  have hbig0 : ¬ 0 > (cfg.max_pkt_burst % 65536).toNat := by omega
  simp [l2fwd_main_loop_rx, hflag, htry0, hlt]

/-- An empty poll once the counter has reached a non-zero ceiling: the
counter is kept and the long sleep is made. -/
theorem rx_step_idle_long (cfg : Config) (st : LoopState) (i : Nat) (pkts : MbufArray)
    (hflag : st.qconf.start_rx_flag i = true) (htry0 : cfg.max_poll_short_try ≠ 0)
    (hge : ¬ (st.qconf.rx_burst_try i : Int) < cfg.max_poll_short_try) :
    l2fwd_main_loop_rx cfg st i 0 pkts
      = some (Flow.next,
          { st with
            log := st.log
              ++ [Call.rte_eth_rx_burst (st.qconf.rx_port_list i) 0 cfg.max_pkt_burst]
              ++ [Call.usleep cfg.poll_long_interval_us] }) := by
  have hbig0 : ¬ 0 > (cfg.max_pkt_burst % 65536).toNat := by omega
  simp [l2fwd_main_loop_rx, hflag, htry0, hge]

/-- With a ceiling `1 ≤ c ≤ 65535`, after `n` consecutive empty polls the
counter is `min (k + n) c`, where `k ≤ c` is its value before. -/
theorem empty_polls_counter (cfg : Config) (i c : Nat) (hc : cfg.max_poll_short_try = (c : Int))
    (hc1 : 1 ≤ c) (hc2 : c ≤ 65535) :
    ∀ (n : Nat) (st : LoopState), st.qconf.start_rx_flag i = true →
      st.qconf.rx_burst_try i ≤ c →
      ∃ st1, empty_polls cfg i n st = some st1
        ∧ st1.qconf.start_rx_flag i = true
        ∧ st1.qconf.rx_burst_try i = min (st.qconf.rx_burst_try i + n) c
  | 0, st, hflag, hk => ⟨st, rfl, hflag, by simp [hk]⟩
  | n + 1, st, hflag, hk => by
    have htry0 : cfg.max_poll_short_try ≠ 0 := by rw [hc]; omega
    by_cases hlt : (st.qconf.rx_burst_try i : Int) < cfg.max_poll_short_try
    · have hlt2 : st.qconf.rx_burst_try i < c := by rw [hc] at hlt; omega
      obtain ⟨st1, hrun, hf1, hc1⟩ := empty_polls_counter cfg i c hc hc1 hc2 n
        { st with
          qconf := { st.qconf with
            rx_burst_try := setPort st.qconf.rx_burst_try i
              ((st.qconf.rx_burst_try i + 1) % 65536) }
          log := st.log
            ++ [Call.rte_eth_rx_burst (st.qconf.rx_port_list i) 0 cfg.max_pkt_burst]
            ++ [Call.rte_delay_us cfg.poll_short_interval_us] }
        hflag (by simp [setPort]; omega)
      refine ⟨st1, ?_, hf1, ?_⟩
      · simp only [empty_polls, rx_step_idle_short cfg st i [] hflag htry0 hlt]
        exact hrun
      · rw [hc1]
        simp only [setPort, if_true]
        have : (st.qconf.rx_burst_try i + 1) % 65536 = st.qconf.rx_burst_try i + 1 :=
          Nat.mod_eq_of_lt (by omega)
        rw [this]
        omega
    · have hge2 : st.qconf.rx_burst_try i = c := by rw [hc] at hlt; omega
      obtain ⟨st1, hrun, hf1, hc1⟩ := empty_polls_counter cfg i c hc hc1 hc2 n
        { st with
          log := st.log
            ++ [Call.rte_eth_rx_burst (st.qconf.rx_port_list i) 0 cfg.max_pkt_burst]
            ++ [Call.usleep cfg.poll_long_interval_us] }
        hflag hk
      refine ⟨st1, ?_, hf1, ?_⟩
      · simp only [empty_polls, rx_step_idle_long cfg st i [] hflag htry0 hlt]
        exact hrun
      · rw [hc1]
        simp only []
        omega

/-- With a ceiling `1 ≤ c ≤ 65535` and the counter at 0, the poll after `n`
consecutive empty polls, if empty, makes the short pause and sets the counter
to `n + 1` when `n < c`, and makes the long sleep and keeps the counter at `c`
when `n ≥ c`. -/
theorem backoff_automaton (cfg : Config) (i c : Nat) (hc : cfg.max_poll_short_try = (c : Int))
    (hc1 : 1 ≤ c) (hc2 : c ≤ 65535) (n : Nat) (st : LoopState)
    (hflag : st.qconf.start_rx_flag i = true) (h0 : st.qconf.rx_burst_try i = 0) :
    ∃ st1 st2, empty_polls cfg i n st = some st1
      ∧ l2fwd_main_loop_rx cfg st1 i 0 [] = some (Flow.next, st2)
      ∧ (n < c →
          st2.qconf.rx_burst_try i = n + 1
          ∧ st2.log = st1.log
              ++ [Call.rte_eth_rx_burst (st1.qconf.rx_port_list i) 0 cfg.max_pkt_burst,
                  Call.rte_delay_us cfg.poll_short_interval_us])
      ∧ (c ≤ n →
          st2.qconf.rx_burst_try i = c
          ∧ st2.log = st1.log
              ++ [Call.rte_eth_rx_burst (st1.qconf.rx_port_list i) 0 cfg.max_pkt_burst,
                  Call.usleep cfg.poll_long_interval_us]) := by
  have htry0 : cfg.max_poll_short_try ≠ 0 := by rw [hc]; omega
  obtain ⟨st1, hrun, hf1, hc1x⟩ :=
    empty_polls_counter cfg i c hc hc1 hc2 n st hflag (by omega)
  rw [h0, Nat.zero_add] at hc1x
  by_cases hn : n < c
  · have hv : st1.qconf.rx_burst_try i = n := by rw [hc1x]; omega
    have hlt : (st1.qconf.rx_burst_try i : Int) < cfg.max_poll_short_try := by
      rw [hc, hv]; omega
    refine ⟨st1, _, hrun, rx_step_idle_short cfg st1 i [] hf1 htry0 hlt, ?_, ?_⟩
    · intro _
      refine ⟨?_, by simp⟩
      simp only [setPort, if_true, hv]
      exact Nat.mod_eq_of_lt (by omega)
    · intro h; omega
  · have hv : st1.qconf.rx_burst_try i = c := by rw [hc1x]; omega
    have hge : ¬ (st1.qconf.rx_burst_try i : Int) < cfg.max_poll_short_try := by
      rw [hc, hv]; omega
    refine ⟨st1, _, hrun, rx_step_idle_long cfg st1 i [] hf1 htry0 hge, ?_, ?_⟩
    · intro h; omega
    · intro _
      exact ⟨hv, by simp⟩

/-- With a ceiling of 65536 or more the 16-bit counter never reaches it:
after any number of consecutive empty polls the counter is the number of
polls modulo 65536 and no long sleep has been added to the call log. -/
theorem empty_polls_wide (cfg : Config) (i : Nat) (hc : 65536 ≤ cfg.max_poll_short_try) :
    ∀ (n : Nat) (st : LoopState), st.qconf.start_rx_flag i = true →
      st.qconf.rx_burst_try i < 65536 →
      ∃ st1, empty_polls cfg i n st = some st1
        ∧ st1.qconf.rx_burst_try i = (st.qconf.rx_burst_try i + n) % 65536
        ∧ ∀ us, Call.usleep us ∈ st1.log → Call.usleep us ∈ st.log
  | 0, st, _, hk => ⟨st, rfl, by simp [Nat.mod_eq_of_lt hk], fun _ h => h⟩
  | n + 1, st, hflag, hk => by
    have htry0 : cfg.max_poll_short_try ≠ 0 := by omega
    have hlt : (st.qconf.rx_burst_try i : Int) < cfg.max_poll_short_try := by omega
    obtain ⟨st1, hrun, hc1, hlog⟩ := empty_polls_wide cfg i hc n
      { st with
        qconf := { st.qconf with
          rx_burst_try := setPort st.qconf.rx_burst_try i
            ((st.qconf.rx_burst_try i + 1) % 65536) }
        log := st.log
          ++ [Call.rte_eth_rx_burst (st.qconf.rx_port_list i) 0 cfg.max_pkt_burst]
          ++ [Call.rte_delay_us cfg.poll_short_interval_us] }
      hflag (by simp only [setPort, if_true]; exact Nat.mod_lt _ (by decide))
    refine ⟨st1, ?_, ?_, ?_⟩
    · simp only [empty_polls, rx_step_idle_short cfg st i [] hflag htry0 hlt]
      exact hrun
    · rw [hc1]
      simp only [setPort, if_true]
      omega
    · intro us h
      have := hlog us h
      simpa using this

/-- C15 fails on the code for ceilings above 65535: with option
`-i 65536,10,1000` and the counter at 0, after any number `n` of consecutive
empty polls the counter is `n % 65536` (the 65536th empty poll wraps it to 0
instead of incrementing it) and no long sleep has been performed. -/
theorem C15_wide_ceiling_never_long_sleeps (n : Nat) :
    ∃ st1, empty_polls wideCeilingConfig 0 n sampleState = some st1
      ∧ st1.qconf.rx_burst_try 0 = n % 65536
      ∧ ∀ us, Call.usleep us ∉ st1.log := by
  obtain ⟨st1, hrun, hc1, hlog⟩ :=
    empty_polls_wide wideCeilingConfig 0 (by decide) n sampleState rfl (by decide)
  refine ⟨st1, hrun, ?_, ?_⟩
  · rw [hc1]
    simp [sampleState]
  · intro us h
    have := hlog us h
    simp [sampleState] at this

/-! ### Claims on the polling loops -/

/-- C16: a poll of queue `i` that returns a non-empty burst of admissible size
clears the counter of queue `i` and leaves the counter of every other queue as
it was, in `l2fwd_main_loop` and in `kni_ingress_loop`, whatever the counter
was before; and when no earlier queue of the tick reports an oversized burst,
the counter of queue `i` is 0 at the end of the tick in both loops. -/
theorem C16_nonempty_poll_clears_counter (cfg : Config) (lib : CksumLib) (s : KniIngress)
    (prev_tsc drain_tsc cur_tsc : Nat) (rx : Nat → KniRx) (i : Nat)
    (hwf : ∀ j, (rx j).rx.wf) (hi : i < s.st.qconf.n_rx_port)
    (hflag : s.st.qconf.start_rx_flag i = true)
    (hearlier : ∀ j, j < i → ¬ (rx j).rx.nb_rx > (cfg.max_pkt_burst % 65536).toNat)
    (h1 : 1 ≤ (rx i).rx.nb_rx)
    (hmax : (rx i).rx.nb_rx ≤ (cfg.max_pkt_burst % 65536).toNat) :
    (∀ st : LoopState, st.qconf.start_rx_flag i = true →
      ∃ st1, l2fwd_main_loop_rx cfg st i (rx i).rx.nb_rx (rx i).rx.pkts_burst
          = some (Flow.next, st1)
        ∧ st1.qconf.rx_burst_try i = 0
        ∧ ∀ k, k ≠ i → st1.qconf.rx_burst_try k = st.qconf.rx_burst_try k)
    ∧ (∀ s0 : KniIngress, s0.st.qconf.start_rx_flag i = true →
      ∃ s1, kni_ingress_loop_rx cfg lib s0 i (rx i) = some (Flow.next, s1)
        ∧ s1.st.qconf.rx_burst_try i = 0
        ∧ ∀ k, k ≠ i → s1.st.qconf.rx_burst_try k = s0.st.qconf.rx_burst_try k)
    ∧ (∃ flow s1,
        l2fwd_main_loop_tick cfg drain_tsc { prev_tsc := prev_tsc, st := s.st }
            { cur_tsc := cur_tsc, rx := fun j => (rx j).rx } = some (flow, s1)
        ∧ s1.st.qconf.rx_burst_try i = 0)
    ∧ (∃ flow s1, kni_ingress_loop_tick cfg lib s rx = some (flow, s1)
        ∧ s1.st.qconf.rx_burst_try i = 0) := by
  have hstep : ∀ st : LoopState, st.qconf.start_rx_flag i = true →
      ∃ st1, l2fwd_main_loop_rx cfg st i (rx i).rx.nb_rx (rx i).rx.pkts_burst
          = some (Flow.next, st1)
        ∧ st1.qconf.start_rx_flag i = true
        ∧ st1.qconf.rx_burst_try i = 0
        ∧ ∀ k, k ≠ i → st1.qconf.rx_burst_try k = st.qconf.rx_burst_try k := by
    intro st hf
    obtain ⟨_, _, st1, hrun, hq, _⟩ := rx_step_burst cfg st i (rx i).rx.nb_rx
      (rx i).rx.pkts_burst hf (by omega) (by omega) (hwf i)
    refine ⟨st1, hrun, by rw [hq]; exact hf, by rw [hq]; simp [setPort], ?_⟩
    intro k hk
    rw [hq]
    simp [setPort, hk]
  have hkstep : ∀ s0 : KniIngress, s0.st.qconf.start_rx_flag i = true →
      ∃ s1, kni_ingress_loop_rx cfg lib s0 i (rx i) = some (Flow.next, s1)
        ∧ s1.st.qconf.start_rx_flag i = true
        ∧ s1.st.qconf.rx_burst_try i = 0
        ∧ ∀ k, k ≠ i → s1.st.qconf.rx_burst_try k = s0.st.qconf.rx_burst_try k := by
    intro s0 hf
    obtain ⟨_, _, _, s1, _, _, hrun, hq, _, _⟩ :=
      kni_step_burst cfg lib s0 i (rx i) hf (by omega) (by omega) (hwf i)
    refine ⟨s1, hrun, by rw [hq]; exact hf, by rw [hq]; simp [setPort], ?_⟩
    intro k hk
    rw [hq]
    simp [setPort, hk]
  refine ⟨?_, ?_, ?_, ?_⟩
  · intro st hf
    obtain ⟨st1, h1, _, h3, h4⟩ := hstep st hf
    exact ⟨st1, h1, h3, h4⟩
  · intro s0 hf
    obtain ⟨s1, h1, _, h3, h4⟩ := hkstep s0 hf
    exact ⟨s1, h1, h3, h4⟩
  · have hdq : (l2fwd_main_loop_drain cfg drain_tsc { prev_tsc := prev_tsc, st := s.st }
        cur_tsc).st.qconf = s.st.qconf := by
      unfold l2fwd_main_loop_drain
      split_ifs <;> rfl
    obtain ⟨flow, st1, hrun, hz⟩ := seq_loop_clear
      (fun st j => l2fwd_main_loop_rx cfg st j (rx j).rx.nb_rx (rx j).rx.pkts_burst)
      (fun st => st.qconf.start_rx_flag i = true) (fun st => st.qconf.rx_burst_try i) i
      (by
        intro st j hf hj
        obtain ⟨flow, st1, _, hrun, _, _, _, hfl, hcn, _, hret⟩ :=
          rx_step_frame cfg st j (rx j).rx (hwf j)
        refine ⟨flow, st1, hrun, by show st1.qconf.start_rx_flag i = true; rw [hfl]; exact hf,
          hcn i (fun e => hj e.symm), ?_⟩
        intro hji
        apply flow_next_of_ne_ret
        intro e
        exact hearlier j hji (hret.mp e).2)
      (by
        intro st hf
        obtain ⟨st1, h1, h2, h3, _⟩ := hstep st hf
        exact ⟨st1, h1, h2, h3⟩)
      s.st.qconf.n_rx_port 0
      (l2fwd_main_loop_drain cfg drain_tsc { prev_tsc := prev_tsc, st := s.st } cur_tsc).st
      (by
        show (l2fwd_main_loop_drain cfg drain_tsc { prev_tsc := prev_tsc, st := s.st }
          cur_tsc).st.qconf.start_rx_flag i = true
        rw [hdq]; exact hflag) (by omega) (by omega)
    refine ⟨flow,
      { prev_tsc := (l2fwd_main_loop_drain cfg drain_tsc { prev_tsc := prev_tsc, st := s.st }
          cur_tsc).prev_tsc
        st := st1 }, ?_, hz⟩
    simp only [l2fwd_main_loop_tick, hdq, List.range_eq_range']
    rw [hrun]
  · obtain ⟨flow, s1, hrun, hz⟩ := seq_loop_clear
      (fun s1 j => kni_ingress_loop_rx cfg lib s1 j (rx j))
      (fun s0 => s0.st.qconf.start_rx_flag i = true) (fun s0 => s0.st.qconf.rx_burst_try i) i
      (by
        intro s0 j hf hj
        obtain ⟨flow, s1, hrun, hfl, hcn, hret⟩ := kni_step_frame cfg lib s0 j (rx j) (hwf j)
        refine ⟨flow, s1, hrun, by show s1.st.qconf.start_rx_flag i = true; rw [hfl]; exact hf,
          hcn i (fun e => hj e.symm), ?_⟩
        intro hji
        apply flow_next_of_ne_ret
        intro e
        exact hearlier j hji (hret.mp e).2)
      (by
        intro s0 hf
        obtain ⟨s1, h1, h2, h3, _⟩ := hkstep s0 hf
        exact ⟨s1, h1, h2, h3⟩)
      s.st.qconf.n_rx_port 0 s hflag (by omega) (by omega)
    refine ⟨flow, s1, ?_, hz⟩
    simp only [kni_ingress_loop_tick, List.range_eq_range']
    exact hrun

theorem busyKniRx_wf (j : Nat) : (busyKniRx j).rx.wf := by
  intro k hk
  have : k = 0 := by simp [busyKniRx] at hk; omega
  subst this
  exact ⟨frameUdp, rfl⟩

theorem C16_nonempty_poll_clears_counter_witness :
    (∀ j, (busyKniRx j).rx.wf) ∧ 0 < sampleKni.st.qconf.n_rx_port
    ∧ sampleKni.st.qconf.start_rx_flag 0 = true
    ∧ 1 ≤ (busyKniRx 0).rx.nb_rx
    ∧ (busyKniRx 0).rx.nb_rx ≤ (sampleConfig.max_pkt_burst % 65536).toNat
    ∧ (∃ flow s1,
        l2fwd_main_loop_tick sampleConfig 100 { prev_tsc := 0, st := sampleKni.st }
            { cur_tsc := 50, rx := fun j => (busyKniRx j).rx } = some (flow, s1)
        ∧ s1.st.qconf.rx_burst_try 0 = 0)
    ∧ (∃ flow s1, kni_ingress_loop_tick sampleConfig zeroCksum sampleKni busyKniRx
          = some (flow, s1)
        ∧ s1.st.qconf.rx_burst_try 0 = 0) := by
  have h := C16_nonempty_poll_clears_counter sampleConfig zeroCksum sampleKni 0 100 50
    busyKniRx 0 busyKniRx_wf (by decide) (by decide) (fun j hj => absurd hj (by omega))
    (by decide) (by decide)
  exact ⟨busyKniRx_wf, by decide, by decide, by decide, by decide, h.2.2.1, h.2.2.2⟩

/-- C17: with the short-try ceiling configured as 0, an empty poll goes on to
the next queue with the loop state unchanged apart from the call log, to which
it adds neither the short pause nor the long sleep; so the counter is not
modified.  This holds in `l2fwd_main_loop` and in `kni_ingress_loop`. -/
theorem C17_zero_ceiling_busy_poll (cfg : Config) (lib : CksumLib) (s : KniIngress) (i : Nat)
    (pkts : MbufArray) (push_num : Nat) (h0 : cfg.max_poll_short_try = 0) :
    (∃ new, l2fwd_main_loop_rx cfg s.st i 0 pkts
        = some (Flow.next, { s.st with log := s.st.log ++ new })
      ∧ ∀ us, Call.rte_delay_us us ∉ new ∧ Call.usleep us ∉ new)
    ∧ (∃ new, kni_ingress_loop_rx cfg lib s i { rx := ⟨0, pkts⟩, push_num := push_num }
        = some (Flow.next, { s with st := { s.st with log := s.st.log ++ new } })
      ∧ ∀ us, Call.rte_delay_us us ∉ new ∧ Call.usleep us ∉ new) := by
  have hbig0 : ¬ 0 > (cfg.max_pkt_burst % 65536).toNat := by omega
  by_cases hflag : s.st.qconf.start_rx_flag i = true
  · refine ⟨⟨[Call.rte_eth_rx_burst (s.st.qconf.rx_port_list i) 0 cfg.max_pkt_burst], ?_, ?_⟩,
      ⟨[Call.rte_eth_rx_burst (s.st.qconf.rx_port_list i) 0 cfg.max_pkt_burst], ?_, ?_⟩⟩
    · simp [l2fwd_main_loop_rx, hflag, h0]
    · intro us; simp
    · simp [kni_ingress_loop_rx, hflag, h0]
    · intro us; simp
  · refine ⟨⟨[], ?_, ?_⟩, ⟨[], ?_, ?_⟩⟩
    · simp [l2fwd_main_loop_rx, hflag]
    · intro us; simp
    · simp [kni_ingress_loop_rx, hflag]
    · intro us; simp

theorem C17_zero_ceiling_busy_poll_witness :
    zeroCeilingConfig.max_poll_short_try = 0
    ∧ (∃ new, l2fwd_main_loop_rx zeroCeilingConfig sampleKni.st 0 0 []
        = some (Flow.next, { sampleKni.st with log := sampleKni.st.log ++ new })
      ∧ ∀ us, Call.rte_delay_us us ∉ new ∧ Call.usleep us ∉ new)
    ∧ (∃ new, kni_ingress_loop_rx zeroCeilingConfig zeroCksum sampleKni 0
          { rx := ⟨0, []⟩, push_num := 0 }
        = some (Flow.next,
            { sampleKni with st := { sampleKni.st with log := sampleKni.st.log ++ new } })
      ∧ ∀ us, Call.rte_delay_us us ∉ new ∧ Call.usleep us ∉ new) :=
  ⟨by decide, C17_zero_ceiling_busy_poll zeroCeilingConfig zeroCksum sampleKni 0 [] 0 (by decide)⟩

/-- C18 as stated fails: with `-b 65544` a poll that reports 9 frames, which
does not exceed the configured max burst, makes both loops return, because
the count is compared with `(uint16_t)max_pkt_burst = 8`. -/
theorem C18_counterexample :
    (9 : Int) ≤ wideBurstConfig.max_pkt_burst
    ∧ (l2fwd_main_loop_rx wideBurstConfig sampleState 0 9 (sampleBurst 9)).map
        (fun r => (r.1, r.2.log))
      = some (Flow.ret, [Call.rte_eth_rx_burst 0 0 65544])
    ∧ (kni_ingress_loop_rx wideBurstConfig zeroCksum sampleKni 0
          { rx := ⟨9, sampleBurst 9⟩, push_num := 9 }).map (fun r => (r.1, r.2.st.log))
      = some (Flow.ret, [Call.rte_eth_rx_burst 0 0 65544]) := by
  decide

/-- C18, amended: in `l2fwd_main_loop` and in `kni_ingress_loop`, a poll of a
started queue whose reported count exceeds the configured max burst taken on
16 bits (`(uint16_t)max_pkt_burst`) makes the loop return at once, the poll
being its only call (no filtering, dispatch or push); a well-formed poll whose
count does not exceed that value never makes the loop return; and for
`0 ≤ max_pkt_burst ≤ 65535` that value is the configured max burst itself. -/
theorem C18_oversized_burst_returns (cfg : Config) (lib : CksumLib) (s : KniIngress) (i : Nat)
    (r : KniRx) (hflag : s.st.qconf.start_rx_flag i = true) :
    (r.rx.nb_rx > (cfg.max_pkt_burst % 65536).toNat →
      l2fwd_main_loop_rx cfg s.st i r.rx.nb_rx r.rx.pkts_burst
          = some (Flow.ret, { s.st with log := s.st.log
              ++ [Call.rte_eth_rx_burst (s.st.qconf.rx_port_list i) 0 cfg.max_pkt_burst] })
      ∧ kni_ingress_loop_rx cfg lib s i r
          = some (Flow.ret, { s with st := { s.st with log := s.st.log
              ++ [Call.rte_eth_rx_burst (s.st.qconf.rx_port_list i) 0 cfg.max_pkt_burst] } }))
    ∧ (¬ r.rx.nb_rx > (cfg.max_pkt_burst % 65536).toNat → r.rx.wf →
      (∃ st1, l2fwd_main_loop_rx cfg s.st i r.rx.nb_rx r.rx.pkts_burst = some (Flow.next, st1))
      ∧ ∃ s1, kni_ingress_loop_rx cfg lib s i r = some (Flow.next, s1))
    ∧ (0 ≤ cfg.max_pkt_burst → cfg.max_pkt_burst < 65536 →
      (r.rx.nb_rx > (cfg.max_pkt_burst % 65536).toNat
        ↔ (r.rx.nb_rx : Int) > cfg.max_pkt_burst)) := by
  refine ⟨?_, ?_, ?_⟩
  · intro hbig
    constructor
    · simp [l2fwd_main_loop_rx, hflag, hbig]
    · simp [kni_ingress_loop_rx, hflag, hbig]
  · intro hsmall hwf
    constructor
    · obtain ⟨flow, st1, _, hrun, _, _, _, _, _, _, hret⟩ := rx_step_frame cfg s.st i r.rx hwf
      have : flow = Flow.next :=
        flow_next_of_ne_ret flow (fun e => hsmall (hret.mp e).2)
      subst this
      exact ⟨st1, hrun⟩
    · obtain ⟨flow, s1, hrun, _, _, hret⟩ := kni_step_frame cfg lib s i r hwf
      have : flow = Flow.next :=
        flow_next_of_ne_ret flow (fun e => hsmall (hret.mp e).2)
      subst this
      exact ⟨s1, hrun⟩
  · intro h1 h2
    have : cfg.max_pkt_burst % 65536 = cfg.max_pkt_burst := Int.emod_eq_of_lt h1 h2
    rw [this]
    omega

theorem C18_oversized_burst_returns_witness :
    sampleKni.st.qconf.start_rx_flag 0 = true
    ∧ (l2fwd_main_loop_rx sampleConfig sampleKni.st 0 33 (sampleBurst 33)).map
        (fun r => (r.1, r.2.log))
      = some (Flow.ret, [Call.rte_eth_rx_burst 0 0 32])
    ∧ (∃ st1, l2fwd_main_loop_rx sampleConfig sampleKni.st 0 32 (sampleBurst 32)
        = some (Flow.next, st1)) := by
  have hwf : (⟨32, sampleBurst 32⟩ : RxResult).wf := by
    intro j hj
    have hj2 : j < 32 := hj
    refine ⟨{ addr := 4096 + 2048 * j, data := frameUdp.data }, ?_⟩
    simp [sampleBurst, hj2]
  have hbig := (C18_oversized_burst_returns sampleConfig zeroCksum sampleKni 0
    { rx := ⟨33, sampleBurst 33⟩, push_num := 0 } (by decide)).1 (by decide)
  have hok := (C18_oversized_burst_returns sampleConfig zeroCksum sampleKni 0
    { rx := ⟨32, sampleBurst 32⟩, push_num := 0 } (by decide)).2.1 (by decide) hwf
  refine ⟨by decide, ?_, hok.1⟩
  rw [hbig.1]
  rfl

/-! ### Conservation and ordering in the receive step -/

theorem all_some_eq_map (l : MbufArray) (h : ∀ s ∈ l, ∃ m, s = some m) :
    l = (l.filterMap id).map some := by
  induction l with
  | nil => rfl
  | cons a t ih =>
    obtain ⟨m, hm⟩ := h a (by simp)
    subst hm
    have := ih (fun s hs => h s (by simp [hs]))
    simp only [List.filterMap_cons, id_eq, List.map_cons]
    rw [← this]

/-- A well-formed burst is the list of its descriptors: the first `nb_rx`
slots are exactly the `nb_rx` descriptors of `batch_frames`. -/
theorem wf_batch (pkts : MbufArray) (nb_rx : Nat)
    (hwf : ∀ j, j < nb_rx → ∃ m, pkts[j]? = some (some m)) :
    pkts.take nb_rx = (batch_frames pkts nb_rx).map some
    ∧ (batch_frames pkts nb_rx).length = nb_rx := by
  have hall : ∀ s ∈ pkts.take nb_rx, ∃ m, s = some m := by
    intro s hs
    obtain ⟨j, hj⟩ := List.mem_iff_getElem?.mp hs
    rw [List.getElem?_take] at hj
    by_cases hjn : j < nb_rx
    · rw [if_pos hjn] at hj
      obtain ⟨m, hm⟩ := hwf j hjn
      rw [hm] at hj
      exact ⟨m, (Option.some.inj hj).symm⟩
    · rw [if_neg hjn] at hj
      exact Option.noConfusion hj
  have heq := all_some_eq_map (pkts.take nb_rx) hall
  refine ⟨heq, ?_⟩
  have hlen : (pkts.take nb_rx).length = nb_rx := by
    rw [List.length_take]
    exact Nat.min_eq_left (wf_le_length nb_rx pkts hwf)
  have := congrArg List.length heq
  rw [List.length_map, hlen] at this
  exact this.symm

theorem filterMap_guard (cfg : Config) (l : List rte_mbuf) :
    l.filterMap (fun m => if cfg.filtering ≠ 0 then keep_accepted cfg (some m) else some m)
      = l.filter (fun m => !rejects cfg m) := by
  induction l with
  | nil => rfl
  | cons a t ih =>
    by_cases hf : cfg.filtering ≠ 0
    · by_cases hv : filter_ether_frame cfg a = 1
      · simp [List.filterMap_cons, List.filter_cons, rejects, keep_accepted, hf, hv] at ih ⊢
        exact ih
      · simp [List.filterMap_cons, List.filter_cons, rejects, keep_accepted, hf, hv] at ih ⊢
        exact ih
    · simp [List.filterMap_cons, List.filter_cons, rejects, hf] at ih ⊢

/-- The descriptors left in the first `nb_rx` slots after the filter stage are
the descriptors of the burst that are not rejected, in slot order. -/
theorem survivors_eq (cfg : Config) (pkts out : MbufArray) (nb_rx : Nat)
    (hwf : ∀ j, j < nb_rx → ∃ m, pkts[j]? = some (some m))
    (hget : ∀ j, out[j]? = if cfg.filtering ≠ 0 ∧ j < nb_rx then
        (pkts[j]?).map (keep_accepted cfg) else pkts[j]?) :
    batch_frames out nb_rx = (batch_frames pkts nb_rx).filter (fun m => !rejects cfg m) := by
  have htake : out.take nb_rx
      = (pkts.take nb_rx).map
          (fun slot => if cfg.filtering ≠ 0 then keep_accepted cfg slot else slot) := by
    apply List.ext_getElem?
    intro j
    rw [List.getElem?_take, List.getElem?_map, List.getElem?_take]
    by_cases hj : j < nb_rx
    · rw [if_pos hj, if_pos hj, hget j]
      by_cases hf : cfg.filtering ≠ 0
      · rw [if_pos ⟨hf, hj⟩]
        simp [hf]
      · rw [if_neg (fun h => hf h.1)]
        simp [hf]
    · rw [if_neg hj, if_neg hj]
      rfl
  unfold batch_frames at *
  rw [htake, List.filterMap_map]
  have hb := (wf_batch pkts nb_rx hwf).1
  unfold batch_frames at hb
  rw [hb, List.filterMap_map]
  have : ((id ∘ fun slot => if cfg.filtering ≠ 0 then keep_accepted cfg slot else slot) ∘ some)
      = (fun m => if cfg.filtering ≠ 0 then keep_accepted cfg (some m) else some m) := by
    funext m; rfl
  rw [this, filterMap_guard]
  rw [← hb]

theorem free_calls_map (l : List rte_mbuf) :
    free_calls (l.map Call.rte_pktmbuf_free) = l := by
  induction l with
  | nil => rfl
  | cons a t ih =>
    simp only [free_calls, List.map_cons, List.filterMap_cons] at ih ⊢
    rw [ih]

theorem nc_udp_calls_map_free (l : List rte_mbuf) :
    nc_udp_calls (l.map Call.rte_pktmbuf_free) = [] := by
  induction l with
  | nil => rfl
  | cons a t ih =>
    simp only [nc_udp_calls, List.map_cons, List.filterMap_cons] at ih ⊢
    exact ih

theorem nc_udp_calls_nc_udp (cfg : Config) (ct : Int) (m : rte_mbuf) (p : Nat) :
    nc_udp_calls (nc_udp cfg ct m p) = [] := by
  unfold nc_udp l2fwd_put_rxq
  split_ifs <;> rfl

theorem free_calls_nc_udp (cfg : Config) (ct : Int) (m : rte_mbuf) (p : Nat) :
    free_calls (nc_udp cfg ct m p) = [] := by
  unfold nc_udp l2fwd_put_rxq
  split_ifs <;> rfl

theorem nc_udp_calls_append (a b : List Call) :
    nc_udp_calls (a ++ b) = nc_udp_calls a ++ nc_udp_calls b := by
  simp [nc_udp_calls, List.filterMap_append]

theorem free_calls_append (a b : List Call) :
    free_calls (a ++ b) = free_calls a ++ free_calls b := by
  simp [free_calls, List.filterMap_append]

/-- The `nc_udp` calls of the dispatch loop are one per descriptor held in the
first `nb_rx` slots, in slot order, with `coder_type` and the receive port;
the dispatch loop frees nothing itself. -/
theorem calls_dispatched (cfg : Config) (portid : Nat) (pkts : MbufArray) (nb_rx : Nat) :
    nc_udp_calls (dispatched cfg portid pkts nb_rx)
        = (batch_frames pkts nb_rx).map (fun m => (cfg.coder_type, m, portid))
    ∧ free_calls (dispatched cfg portid pkts nb_rx) = [] := by
  unfold dispatched batch_frames
  generalize (pkts.take nb_rx).filterMap id = l
  induction l with
  | nil => exact ⟨rfl, rfl⟩
  | cons a t ih =>
    rw [List.flatMap_cons, nc_udp_calls_append, free_calls_append, ih.1, ih.2]
    constructor
    · have : nc_udp_calls (Call.nc_udp cfg.coder_type a portid :: nc_udp cfg cfg.coder_type a portid)
          = [(cfg.coder_type, a, portid)] := by
        have h := nc_udp_calls_nc_udp cfg cfg.coder_type a portid
        simp only [nc_udp_calls, List.filterMap_cons] at h ⊢
        rw [h]
      rw [this]
      rfl
    · have : free_calls (Call.nc_udp cfg.coder_type a portid :: nc_udp cfg cfg.coder_type a portid)
          = [] := by
        have h := free_calls_nc_udp cfg cfg.coder_type a portid
        simp only [free_calls, List.filterMap_cons] at h ⊢
        exact h
      rw [this]
      rfl

/-- The calls of a receive step of `l2fwd_main_loop` in normal mode on a
non-empty burst of admissible size: the released descriptors are the rejected
ones and the `nc_udp` calls are on the others, both in slot order. -/
theorem rx_burst_calls (cfg : Config) (st : LoopState) (i : Nat) (r : RxResult)
    (hkni : cfg.kni_mode = 0) (hflag : st.qconf.start_rx_flag i = true)
    (h0 : r.nb_rx ≠ 0) (hmax : ¬ r.nb_rx > (cfg.max_pkt_burst % 65536).toNat) (hwf : r.wf) :
    ∃ st1 new,
      l2fwd_main_loop_rx cfg st i r.nb_rx r.pkts_burst = some (Flow.next, st1)
      ∧ st1.log = st.log ++ new
      ∧ free_calls new = (batch_frames r.pkts_burst r.nb_rx).filter (fun m => rejects cfg m)
      ∧ nc_udp_calls new
          = ((batch_frames r.pkts_burst r.nb_rx).filter (fun m => !rejects cfg m)).map
              (fun m => (cfg.coder_type, m, st.qconf.rx_port_list i)) := by
  obtain ⟨out, frees, st1, hrun, _, hlog, _, hfrees, hget⟩ :=
    rx_step_burst cfg st i r.nb_rx r.pkts_burst hflag h0 hmax hwf
  have hk : ¬ cfg.kni_mode ≠ 0 := fun h => h hkni
  rw [if_neg hk] at hlog
  have hsurv := survivors_eq cfg r.pkts_burst out r.nb_rx hwf hget
  have hd := calls_dispatched cfg (st.qconf.rx_port_list i) out r.nb_rx
  have hfree : free_calls frees
      = (batch_frames r.pkts_burst r.nb_rx).filter (fun m => rejects cfg m) := by
    rw [hfrees]
    by_cases hf : cfg.filtering ≠ 0
    · rw [if_pos hf, free_calls_map]
      unfold rejected batch_frames rejects
      congr 1
      funext m
      simp [hf]
    · rw [if_neg hf]
      have : (fun m => rejects cfg m) = fun _ => false := by
        funext m
        simp [rejects, hf]
      rw [this]
      simp [free_calls]
  have hnc : nc_udp_calls frees = [] := by
    rw [hfrees]
    split_ifs
    · exact nc_udp_calls_map_free _
    · rfl
  refine ⟨st1, _, hrun, hlog, ?_, ?_⟩
  · rw [free_calls_append, free_calls_append, hfree, hd.2]
    simp [free_calls]
  · rw [nc_udp_calls_append, nc_udp_calls_append, hnc, hd.1, hsurv]
    simp [nc_udp_calls]

theorem count_tagged (ct : Int) (p : Nat) (l : List rte_mbuf) (m : rte_mbuf) :
    (l.map (fun m => (ct, m, p))).count (ct, m, p) = l.count m := by
  induction l with
  | nil => rfl
  | cons a t ih =>
    rw [List.map_cons, List.count_cons, List.count_cons, ih]
    by_cases h : a = m
    · subst h; simp
    · have : ¬ ((ct, a, p) = (ct, m, p)) := fun e => h (Prod.mk.inj (Prod.mk.inj e).2).1
      simp [h, this]

theorem mixedBurst_wf : mixedBurst.wf := by
  intro j hj
  have hj3 : j < 3 := hj
  interval_cases j <;> exact ⟨_, rfl⟩

/-- C20: in normal mode, a receive step of `l2fwd_main_loop` on a burst of
`nb_rx` descriptors ends normally; the released descriptors and the
descriptors handed to `nc_udp` together number `nb_rx`; every descriptor of
the burst is either released and not handed to `nc_udp`, or handed to
`nc_udp` and not released; with pairwise distinct descriptors each is released
or handed over exactly once in all; and nothing else is released or handed
over. -/
theorem C20_conservation (cfg : Config) (st : LoopState) (i : Nat) (r : RxResult)
    (hkni : cfg.kni_mode = 0) (hflag : st.qconf.start_rx_flag i = true)
    (h0 : r.nb_rx ≠ 0) (hmax : ¬ r.nb_rx > (cfg.max_pkt_burst % 65536).toNat) (hwf : r.wf) :
    ∃ st1 new,
      l2fwd_main_loop_rx cfg st i r.nb_rx r.pkts_burst = some (Flow.next, st1)
      ∧ st1.log = st.log ++ new
      ∧ (batch_frames r.pkts_burst r.nb_rx).length = r.nb_rx
      ∧ (free_calls new).length + (nc_udp_calls new).length = r.nb_rx
      ∧ (∀ m ∈ batch_frames r.pkts_burst r.nb_rx,
          (m ∈ free_calls new ∧ ∀ ct p, (ct, m, p) ∉ nc_udp_calls new)
          ∨ (m ∉ free_calls new
              ∧ (cfg.coder_type, m, st.qconf.rx_port_list i) ∈ nc_udp_calls new))
      ∧ ((batch_frames r.pkts_burst r.nb_rx).Nodup →
          ∀ m ∈ batch_frames r.pkts_burst r.nb_rx,
            (free_calls new).count m
              + (nc_udp_calls new).count (cfg.coder_type, m, st.qconf.rx_port_list i) = 1)
      ∧ (∀ m ∈ free_calls new, m ∈ batch_frames r.pkts_burst r.nb_rx)
      ∧ (∀ c ∈ nc_udp_calls new, c.2.1 ∈ batch_frames r.pkts_burst r.nb_rx) := by
  obtain ⟨st1, new, hrun, hlog, hfree, hnc⟩ := rx_burst_calls cfg st i r hkni hflag h0 hmax hwf
  have hblen := (wf_batch r.pkts_burst r.nb_rx hwf).2
  refine ⟨st1, new, hrun, hlog, hblen, ?_, ?_, ?_, ?_, ?_⟩
  · rw [hfree, hnc, List.length_map, ← List.length_eq_length_filter_add]
    exact hblen
  · intro m hm
    by_cases hr : rejects cfg m = true
    · left
      refine ⟨by rw [hfree]; exact List.mem_filter.mpr ⟨hm, hr⟩, ?_⟩
      intro ct p hmem
      rw [hnc] at hmem
      obtain ⟨m1, hm1, e⟩ := List.mem_map.mp hmem
      have : m1 = m := (Prod.mk.inj (Prod.mk.inj e).2).1
      subst this
      have := (List.mem_filter.mp hm1).2
      simp [hr] at this
    · right
      have hr2 : rejects cfg m = false := by simpa using hr
      refine ⟨?_, ?_⟩
      · rw [hfree]
        intro h
        have := (List.mem_filter.mp h).2
        rw [hr2] at this
        exact Bool.noConfusion this
      · rw [hnc]
        exact List.mem_map.mpr ⟨m, List.mem_filter.mpr ⟨hm, by simp [hr2]⟩, rfl⟩
  · intro hnd m hm
    rw [hfree, hnc, count_tagged]
    have hone : (batch_frames r.pkts_burst r.nb_rx).count m = 1 :=
      List.count_eq_one_of_mem hnd hm
    by_cases hr : rejects cfg m = true
    · rw [List.count_filter hr, hone]
      have : m ∉ (batch_frames r.pkts_burst r.nb_rx).filter (fun m => !rejects cfg m) := by
        intro h
        have := (List.mem_filter.mp h).2
        simp [hr] at this
      rw [List.count_eq_zero.mpr this]
    · have hr2 : rejects cfg m = false := by simpa using hr
      have hn : (!rejects cfg m) = true := by simp [hr2]
      have hcf : List.count m
          ((batch_frames r.pkts_burst r.nb_rx).filter (fun m => !rejects cfg m))
          = List.count m (batch_frames r.pkts_burst r.nb_rx) :=
        List.count_filter (p := fun m => !rejects cfg m) hn
      rw [hcf, hone]
      have : m ∉ (batch_frames r.pkts_burst r.nb_rx).filter (fun m => rejects cfg m) := by
        intro h
        have := (List.mem_filter.mp h).2
        rw [hr2] at this
        exact Bool.noConfusion this
      rw [List.count_eq_zero.mpr this]
  · intro m hm
    rw [hfree] at hm
    exact (List.mem_filter.mp hm).1
  · intro c hc
    rw [hnc] at hc
    obtain ⟨m1, hm1, e⟩ := List.mem_map.mp hc
    rw [← e]
    exact (List.mem_filter.mp hm1).1

theorem C20_conservation_witness :
    sampleConfig.kni_mode = 0 ∧ sampleState.qconf.start_rx_flag 0 = true
    ∧ mixedBurst.nb_rx ≠ 0
    ∧ ¬ mixedBurst.nb_rx > (sampleConfig.max_pkt_burst % 65536).toNat
    ∧ mixedBurst.wf
    ∧ ∃ st1 new,
      l2fwd_main_loop_rx sampleConfig sampleState 0 mixedBurst.nb_rx mixedBurst.pkts_burst
        = some (Flow.next, st1)
      ∧ st1.log = sampleState.log ++ new
      ∧ (free_calls new).length + (nc_udp_calls new).length = mixedBurst.nb_rx := by
  obtain ⟨st1, new, h1, h2, _, h4, _⟩ := C20_conservation sampleConfig sampleState 0 mixedBurst
    (by decide) (by decide) (by decide) (by decide) mixedBurst_wf
  exact ⟨by decide, by decide, by decide, by decide, mixedBurst_wf, st1, new, h1, h2, h4⟩

/-- C21: in normal mode, the calls of `nc_udp` made by a receive step of
`l2fwd_main_loop` are, in order, on the frames of the received burst that
survive the filter (all frames of the burst when filtering is off), in burst
order, each with `coder_type` and the port of the burst. -/
theorem C21_dispatch_in_receive_order (cfg : Config) (st : LoopState) (i : Nat) (r : RxResult)
    (hkni : cfg.kni_mode = 0) (hflag : st.qconf.start_rx_flag i = true)
    (h0 : r.nb_rx ≠ 0) (hmax : ¬ r.nb_rx > (cfg.max_pkt_burst % 65536).toNat) (hwf : r.wf) :
    ∃ st1 new,
      l2fwd_main_loop_rx cfg st i r.nb_rx r.pkts_burst = some (Flow.next, st1)
      ∧ st1.log = st.log ++ new
      ∧ nc_udp_calls new
          = ((batch_frames r.pkts_burst r.nb_rx).filter
              (fun m => decide (cfg.filtering = 0 ∨ filter_ether_frame cfg m = 1))).map
              (fun m => (cfg.coder_type, m, st.qconf.rx_port_list i))
      ∧ (cfg.filtering = 0 →
          nc_udp_calls new = (batch_frames r.pkts_burst r.nb_rx).map
              (fun m => (cfg.coder_type, m, st.qconf.rx_port_list i))) := by
  obtain ⟨st1, new, hrun, hlog, _, hnc⟩ := rx_burst_calls cfg st i r hkni hflag h0 hmax hwf
  have hp : (fun m => !rejects cfg m)
      = fun m => decide (cfg.filtering = 0 ∨ filter_ether_frame cfg m = 1) := by
    funext m
    by_cases hf : cfg.filtering = 0 <;> by_cases hv : filter_ether_frame cfg m = 1 <;>
      simp [rejects, hf, hv]
  rw [hp] at hnc
  refine ⟨st1, new, hrun, hlog, hnc, ?_⟩
  intro hf
  rw [hnc]
  congr 1
  apply List.filter_eq_self.mpr
  intro m _
  simp [hf]

theorem C21_dispatch_in_receive_order_witness :
    sampleConfig.kni_mode = 0 ∧ sampleState.qconf.start_rx_flag 0 = true
    ∧ mixedBurst.nb_rx ≠ 0
    ∧ ¬ mixedBurst.nb_rx > (sampleConfig.max_pkt_burst % 65536).toNat
    ∧ mixedBurst.wf
    ∧ ∃ st1 new,
      l2fwd_main_loop_rx sampleConfig sampleState 0 mixedBurst.nb_rx mixedBurst.pkts_burst
        = some (Flow.next, st1)
      ∧ st1.log = sampleState.log ++ new
      ∧ nc_udp_calls new = [(-1, frameUdp, 0)] := by
  obtain ⟨st1, new, h1, h2, h3, _⟩ := C21_dispatch_in_receive_order sampleConfig sampleState 0
    mixedBurst (by decide) (by decide) (by decide) (by decide) mixedBurst_wf
  refine ⟨by decide, by decide, by decide, by decide, mixedBurst_wf, st1, new, h1, h2, ?_⟩
  rw [h3]
  decide

/-! ### Startup checks -/

theorem main_checks_none (env : StartupEnv) (a : Parsed) (h : main_checks env a = none) :
    a.nb_ports = 2
    ∧ ¬ (a.flags.filtering ≠ 0 ∧ a.flags.kni_mode ≠ 0)
    ∧ coder_switch env a.coder_type = none
    ∧ port_mask_ok a.l2fwd_enabled_port_mask 2 = true := by
  unfold main_checks at h
  by_cases h1 : a.nb_ports ≠ 2
  · simp [h1] at h
  · have h1x : a.nb_ports = 2 := by simpa using h1
    by_cases h2 : a.flags.filtering ≠ 0 ∧ a.flags.kni_mode ≠ 0
    · rw [if_neg h1, if_pos h2] at h
      exact Option.noConfusion h
    · rw [if_neg h1, if_neg h2] at h
      by_cases h3 : a.flags.packet_capturing ≠ 0 ∧ env.rte_pdump_init < 0
      · rw [if_pos h3] at h
        exact Option.noConfusion h
      · rw [if_neg h3] at h
        cases hc : coder_switch env a.coder_type with
        | some e =>
          rw [hc] at h
          exact Option.noConfusion h
        | none =>
          rw [hc] at h
          simp only [] at h
          by_cases h5 : port_mask_ok a.l2fwd_enabled_port_mask a.nb_ports = false
          · rw [if_pos h5] at h
            exact Option.noConfusion h
          · rw [h1x] at h5
            exact ⟨h1x, h2, rfl, by simpa using h5⟩

theorem coder_switch_none (env : StartupEnv) (ct : Int) (h : coder_switch env ct = none) :
    ct = 0 ∨ ct = 1 ∨ ct = 2 ∨ ct = -1 := by
  unfold coder_switch at h
  by_cases h0 : ct = 0
  · exact Or.inl h0
  · by_cases h1 : ct = 1
    · exact Or.inr (Or.inl h1)
    · by_cases h2 : ct = 2
      · exact Or.inr (Or.inr (Or.inl h2))
      · by_cases h3 : ct = -1
        · exact Or.inr (Or.inr (Or.inr h3))
        · simp [h0, h1, h2, h3] at h

/-- C22 as stated fails: with `-n 2 -p 1` the checks of `main` pass although
the mask enables one port only; the same holds for an empty mask. -/
theorem C22_counterexample :
    main_checks goodEnv onePortArgs = none
    ∧ enabled_ports onePortArgs.l2fwd_enabled_port_mask [0, 1] = [0]
    ∧ main_checks goodEnv { onePortArgs with l2fwd_enabled_port_mask := 0 } = none
    ∧ enabled_ports 0 [0, 1] = [] := by
  decide

/-- C22, amended: the checks of `main` reject every configuration whose
announced number of ports (`-n`) is not 2, and every configuration whose mask
has a bit outside the two lowest; when they pass, the announced number is 2,
only ports 0 and 1 can be enabled, and at most two ports are enabled. -/
theorem C22_startup_port_checks (env : StartupEnv) (a : Parsed) (devs : List Nat)
    (hnd : devs.Nodup) (hmask : a.l2fwd_enabled_port_mask < 2 ^ 32) :
    (a.nb_ports ≠ 2 → main_checks env a = some Exit.invalid_number_of_ports)
    ∧ (port_mask_ok a.l2fwd_enabled_port_mask 2 = false → main_checks env a ≠ none)
    ∧ (main_checks env a = none →
        a.nb_ports = 2
        ∧ (∀ p ∈ enabled_ports a.l2fwd_enabled_port_mask devs, p = 0 ∨ p = 1)
        ∧ (enabled_ports a.l2fwd_enabled_port_mask devs).length ≤ 2) := by
  refine ⟨?_, ?_, ?_⟩
  · intro h
    simp [main_checks, h]
  · intro h hn
    have := (main_checks_none env a hn).2.2.2
    rw [h] at this
    exact Bool.noConfusion this
  · intro hn
    obtain ⟨h1, _, _, h4⟩ := main_checks_none env a hn
    have hsub : ∀ p ∈ enabled_ports a.l2fwd_enabled_port_mask devs, p = 0 ∨ p = 1 := by
      intro p hp
      have hen : port_enabled a.l2fwd_enabled_port_mask p = true :=
        (List.mem_filter.mp hp).2
      have := enabled_port_lt_nb_ports a.l2fwd_enabled_port_mask p hmask h4 hen
      omega
    refine ⟨h1, hsub, ?_⟩
    have hnd2 := enabled_ports_nodup a.l2fwd_enabled_port_mask devs hnd
    have hss : enabled_ports a.l2fwd_enabled_port_mask devs ⊆ [0, 1] := by
      intro p hp
      rcases hsub p hp with e | e <;> simp [e]
    have := List.Subperm.length_le (List.subperm_of_subset hnd2 hss)
    simpa using this

theorem C22_startup_port_checks_witness :
    [0, 1, 2].Nodup ∧ onePortArgs.l2fwd_enabled_port_mask < 2 ^ 32
    ∧ main_checks goodEnv onePortArgs = none
    ∧ onePortArgs.nb_ports = 2
    ∧ (∀ p ∈ enabled_ports onePortArgs.l2fwd_enabled_port_mask [0, 1, 2], p = 0 ∨ p = 1)
    ∧ (enabled_ports onePortArgs.l2fwd_enabled_port_mask [0, 1, 2]).length ≤ 2 :=
  ⟨by decide, by decide, by decide,
    (C22_startup_port_checks goodEnv onePortArgs [0, 1, 2] (by decide) (by decide)).2.2
      (by decide)⟩

/-- C23: the checks of `main` reject every configuration in which filtering
and kni mode are both on, so whenever they pass (and the polling loops are
started) the two flags are not both set; in particular a command line that
ends with kni mode on and never gives `--no-filtering` is rejected, filtering
being on initially. -/
theorem C23_kni_excludes_filtering (env : StartupEnv) (a : Parsed) :
    (a.flags.filtering ≠ 0 ∧ a.flags.kni_mode ≠ 0 → main_checks env a ≠ none)
    ∧ (a.nb_ports = 2 → a.flags.filtering ≠ 0 ∧ a.flags.kni_mode ≠ 0 →
        main_checks env a = some Exit.kni_with_filtering)
    ∧ (main_checks env a = none → ¬ (a.flags.filtering ≠ 0 ∧ a.flags.kni_mode ≠ 0))
    ∧ initial_flags.filtering = 1 ∧ initial_flags.kni_mode = 0
    ∧ (∀ opts : List LongOpt, LongOpt.no_filtering ∉ opts → (flags_of opts).kni_mode ≠ 0 →
        a.flags = flags_of opts → main_checks env a ≠ none) := by
  have hfilt : ∀ (opts : List LongOpt) (f : Flags), LongOpt.no_filtering ∉ opts →
      f.filtering = 1 → (opts.foldl apply_lgopt f).filtering = 1 := by
    intro opts
    induction opts with
    | nil => intro f _ hf; exact hf
    | cons o t ih =>
      intro f hno hf
      have hne : o ≠ LongOpt.no_filtering := fun e => hno (by simp [e])
      have hno2 : LongOpt.no_filtering ∉ t := fun e => hno (by simp [e])
      rw [List.foldl_cons]
      apply ih _ hno2
      cases o <;> simp_all [apply_lgopt]
  refine ⟨?_, ?_, ?_, rfl, rfl, ?_⟩
  · intro h hn
    exact (main_checks_none env a hn).2.1 h
  · intro h1 h2
    simp [main_checks, h1, h2]
  · intro hn
    exact (main_checks_none env a hn).2.1
  · intro opts hno hk hfl hn
    apply (main_checks_none env a hn).2.1
    rw [hfl]
    refine ⟨?_, hk⟩
    have := hfilt opts initial_flags hno rfl
    unfold flags_of
    rw [this]
    decide

/-- C24: the checks of `main` end with "Unknown coder type." for every value
of `coder_type` other than 0, 1, 2 and -1 (when the earlier checks pass), and
never pass for such a value; each of the four values passes the coder switch
when its coder can be created; so once the checks have passed `nc_udp` takes
its last branch, the direct call of `l2fwd_put_rxq`, exactly when `coder_type`
is -1. -/
theorem C24_coder_type_values (env : StartupEnv) (a : Parsed) :
    (a.coder_type ≠ 0 → a.coder_type ≠ 1 → a.coder_type ≠ 2 → a.coder_type ≠ -1 →
      main_checks env a ≠ none
      ∧ (a.nb_ports = 2 → ¬ (a.flags.filtering ≠ 0 ∧ a.flags.kni_mode ≠ 0) →
          ¬ (a.flags.packet_capturing ≠ 0 ∧ env.rte_pdump_init < 0) →
          main_checks env a = some Exit.unknown_coder_type))
    ∧ (main_checks env a = none →
        a.coder_type = 0 ∨ a.coder_type = 1 ∨ a.coder_type = 2 ∨ a.coder_type = -1)
    ∧ coder_switch goodEnv 0 = none ∧ coder_switch goodEnv 1 = none
    ∧ coder_switch goodEnv 2 = none ∧ coder_switch env (-1) = none
    ∧ (main_checks env a = none → ∀ (cfg : Config) (m : rte_mbuf) (p : Nat),
        (nc_udp cfg a.coder_type m p = Call.l2fwd_put_rxq m p :: l2fwd_put_rxq cfg m p
          ↔ a.coder_type = -1)) := by
  refine ⟨?_, ?_, by decide, by decide, by decide, by simp [coder_switch], ?_⟩
  · intro h0 h1 h2 h3
    constructor
    · intro hn
      rcases coder_switch_none env a.coder_type (main_checks_none env a hn).2.2.1 with
        e | e | e | e
      · exact h0 e
      · exact h1 e
      · exact h2 e
      · exact h3 e
    · intro hp hfk hpd
      have hp2 : ¬ a.nb_ports ≠ 2 := fun h => h hp
      simp only [main_checks, if_neg hp2, if_neg hfk, if_neg hpd, coder_switch, if_neg h0,
        if_neg h1, if_neg h2, if_neg h3]
  · intro hn
    exact coder_switch_none env a.coder_type (main_checks_none env a hn).2.2.1
  · intro hn cfg m p
    rcases coder_switch_none env a.coder_type (main_checks_none env a hn).2.2.1 with
      e | e | e | e
    · rw [e]; simp [nc_udp]
    · rw [e]; simp [nc_udp]
    · rw [e]; simp [nc_udp]
    · rw [e]; simp [nc_udp]

/-! ### Polling the kernel bridge -/

/-- The forwarding loop of `poll_kni` for a count of at most 255: with enough
fuel it ends, having handled each slot from `i` to `num_rx - 1` once, in
order. -/
theorem poll_kni_forward_spec (cfg : Config) (portid num_rx : Nat) (pkts : MbufArray)
    (h255 : num_rx ≤ 255) (hlen : num_rx ≤ pkts.length) :
    ∀ (k i fuel : Nat) (log : List Call), i + k = num_rx → k < fuel →
      poll_kni_forward cfg portid num_rx pkts fuel i log
        = Outcome.done (log ++ forwarded cfg portid pkts num_rx i)
  | 0, i, fuel, log, hik, hf => by
    obtain ⟨f, rfl⟩ : ∃ f, fuel = f + 1 := ⟨fuel - 1, by omega⟩
    have hi : ¬ i < num_rx := by omega
    have hd : (pkts.take num_rx).drop i = [] := by
      apply List.drop_eq_nil_of_le
      rw [List.length_take]; omega
    simp [poll_kni_forward, hi, forwarded, hd]
  | k + 1, i, fuel, log, hik, hf => by
    obtain ⟨f, rfl⟩ : ∃ f, fuel = f + 1 := ⟨fuel - 1, by omega⟩
    have hi : i < num_rx := by omega
    have hil : i < pkts.length := by omega
    have hpi : pkts[i]? = some pkts[i] := List.getElem?_eq_getElem hil
    have hmod : (i + 1) % 256 = i + 1 := Nat.mod_eq_of_lt (by omega)
    have hitake : i < (pkts.take num_rx).length := by
      rw [List.length_take]; omega
    have hd : (pkts.take num_rx).drop i = pkts[i] :: (pkts.take num_rx).drop (i + 1) := by
      rw [List.drop_eq_getElem_cons hitake]
      congr 1
      rw [List.getElem_take]
    have ih := poll_kni_forward_spec cfg portid num_rx pkts h255 hlen k (i + 1) f
    cases hslot : pkts[i] with
    | none =>
      rw [hslot] at hpi hd
      simp only [poll_kni_forward, if_pos hi, hpi, hmod]
      rw [ih log (by omega) (by omega)]
      simp [forwarded, hd]
    | some m =>
      rw [hslot] at hpi hd
      simp only [poll_kni_forward, if_pos hi, hpi, hmod]
      rw [ih _ (by omega) (by omega)]
      simp [forwarded, hd]

/-- The forwarding loop of `poll_kni` for a count of 256 or more: the 8-bit
index never reaches the count, so no amount of fuel lets the loop end. -/
theorem poll_kni_forward_diverges (cfg : Config) (portid num_rx : Nat) (pkts : MbufArray)
    (h256 : 256 ≤ num_rx) (hlen : num_rx ≤ pkts.length) :
    ∀ (fuel i : Nat) (log : List Call), i < 256 →
      poll_kni_forward cfg portid num_rx pkts fuel i log = Outcome.out_of_fuel
  | 0, _, _, _ => rfl
  | fuel + 1, i, log, hi => by
    have hin : i < num_rx := by omega
    have hil : i < pkts.length := by omega
    have hpi : pkts[i]? = some pkts[i] := List.getElem?_eq_getElem hil
    have hmod : (i + 1) % 256 < 256 := Nat.mod_lt _ (by decide)
    cases hslot : pkts[i] with
    | none =>
      rw [hslot] at hpi
      simp only [poll_kni_forward, if_pos hin, hpi]
      exact poll_kni_forward_diverges cfg portid num_rx pkts h256 hlen fuel _ _ hmod
    | some m =>
      rw [hslot] at hpi
      simp only [poll_kni_forward, if_pos hin, hpi]
      exact poll_kni_forward_diverges cfg portid num_rx pkts h256 hlen fuel _ _ hmod

/-- Function `poll_kni` on a well-formed burst of 256 or more descriptors that
does not exceed `max_pkt_burst`: whatever the fuel, it does not return. -/
theorem poll_kni_diverges (cfg : Config) (lib : CksumLib) (portid : Nat) (r : RxResult)
    (hwf : r.wf) (h256 : 256 ≤ r.nb_rx) (hmax : (r.nb_rx : Int) ≤ cfg.max_pkt_burst)
    (fuel : Nat) : poll_kni cfg lib portid r fuel = Outcome.out_of_fuel := by
  obtain ⟨out1, hrun1, hl1, _⟩ := filter_mbuf_array_spec cfg r.pkts_burst r.nb_rx hwf
  have hle := wf_le_length r.nb_rx r.pkts_burst hwf
  obtain ⟨out2, hrun2, hl2, _⟩ := mod_ip_addr_spec lib (some vnf_send_src_ip)
    (some vnf_send_dst_ip) out1 r.nb_rx (by omega)
  have h0 : r.nb_rx ≠ 0 := by omega
  have hnb : ¬ (r.nb_rx : Int) > cfg.max_pkt_burst := by omega
  simp only [poll_kni, if_neg h0, if_neg hnb, hrun1, hrun2]
  exact poll_kni_forward_diverges cfg portid r.nb_rx out2 h256 (by omega) fuel 0 _ (by decide)

theorem sampleBurst_wf (n : Nat) : (⟨n, sampleBurst n⟩ : RxResult).wf := by
  intro j hj
  have hj2 : j < n := hj
  refine ⟨{ addr := 4096 + 2048 * j, data := frameUdp.data }, ?_⟩
  simp [sampleBurst, hj2]

/-- C29 fails on the code: with `-b 256`, when the bridge returns 256 frames
(an admissible count), the forwarding loop of `poll_kni` never exits: its
8-bit index wraps from 255 to 0 and stays below `num_rx`, so for every amount
of fuel the run is still going. -/
theorem C29_poll_kni_does_not_terminate (lib : CksumLib) (fuel : Nat) :
    (1 : Int) ≤ 256 ∧ (256 : Int) ≤ burst256Config.max_pkt_burst
    ∧ poll_kni burst256Config lib 1 ⟨256, sampleBurst 256⟩ fuel = Outcome.out_of_fuel :=
  ⟨by decide, by decide,
    poll_kni_diverges burst256Config lib 1 ⟨256, sampleBurst 256⟩ (sampleBurst_wf 256)
      (by decide) (by decide) fuel⟩

theorem put_bytes_length (bs : List Nat) : ∀ (data : List Nat) (off : Nat),
    (put_bytes data off bs).length = data.length := by
  induction bs with
  | nil => intro data off; rfl
  | cons b t ih =>
    intro data off
    simp only [put_bytes]
    rw [ih, List.length_set]

/-- Bytes of a frame after `put_bytes`: inside the written range (and inside
the frame) the new bytes, elsewhere the old ones. -/
theorem put_bytes_getElem? (bs : List Nat) : ∀ (data : List Nat) (off j : Nat),
    (put_bytes data off bs)[j]?
      = if off ≤ j ∧ j < off + bs.length ∧ j < data.length then bs[j - off]? else data[j]? := by
  induction bs with
  | nil =>
    intro data off j
    have : ¬ (off ≤ j ∧ j < off + ([] : List Nat).length ∧ j < data.length) := by
      simp only [List.length_nil]; omega
    rw [if_neg this]
    rfl
  | cons b t ih =>
    intro data off j
    simp only [put_bytes]
    rw [ih, List.length_set, List.length_cons]
    by_cases hj : j = off
    · subst hj
      have h1 : ¬ (j + 1 ≤ j ∧ j < j + 1 + t.length ∧ j < data.length) := by omega
      rw [if_neg h1]
      by_cases hl : j < data.length
      · rw [if_pos ⟨le_refl j, by omega, hl⟩]
        simp [hl]
      · rw [if_neg (fun h => hl h.2.2)]
        rw [List.getElem?_eq_none (by rw [List.length_set]; omega),
          List.getElem?_eq_none (by omega)]
    · have hset : (data.set off b)[j]? = data[j]? := by
        rw [List.getElem?_set_ne (Ne.symm hj)]
      rw [hset]
      by_cases hin : off + 1 ≤ j ∧ j < off + 1 + t.length ∧ j < data.length
      · rw [if_pos hin, if_pos ⟨by omega, by omega, hin.2.2⟩]
        obtain ⟨k, hk⟩ : ∃ k, j - off = k + 1 := ⟨j - off - 1, by omega⟩
        rw [hk, List.getElem?_cons_succ]
        congr 1
        omega
      · have hout : ¬ (off ≤ j ∧ j < off + (t.length + 1) ∧ j < data.length) := by omega
        rw [if_neg hin, if_neg hout]

/-- Bytes outside the written range are kept by `put_bytes`. -/
theorem put_bytes_getElem?_out (bs : List Nat) (data : List Nat) (off j : Nat)
    (h : j < off ∨ off + bs.length ≤ j) : (put_bytes data off bs)[j]? = data[j]? := by
  rw [put_bytes_getElem?]
  have : ¬ (off ≤ j ∧ j < off + bs.length ∧ j < data.length) := by omega
  rw [if_neg this]

/-- The address fields of a frame after `mod_ip_addr` with the two addresses
`vnf_send_src_ip` and `vnf_send_dst_ip`: bytes 26 to 33 of a frame that holds
them, whose header length field is at least 5. -/
theorem mod_ip_addr_frame_addrs (lib : CksumLib) (m : rte_mbuf) (hlen : 34 ≤ m.data.length)
    (hihl : 5 ≤ (m.data.getD 14 0 % 256) &&& 0x0F) (j : Nat) (hj : j < 8) :
    (mod_ip_addr_frame lib (some vnf_send_src_ip) (some vnf_send_dst_ip) m).data[26 + j]?
      = (vnf_send_src_ip ++ vnf_send_dst_ip)[j]? := by
  have h14a : (put_bytes m.data 26 vnf_send_src_ip)[14]? = m.data[14]? :=
    put_bytes_getElem?_out _ _ _ _ (Or.inl (by decide))
  have h14 : (put_bytes (put_bytes m.data 26 vnf_send_src_ip) 30 vnf_send_dst_ip).getD 14 0
      = m.data.getD 14 0 := by
    rw [List.getD_eq_getElem?_getD, List.getD_eq_getElem?_getD,
      put_bytes_getElem?_out _ _ _ _ (Or.inl (by decide)), h14a]
  simp only [mod_ip_addr_frame, recalc_cksum_inline, ETHER_HDR_LEN]
  rw [h14]
  generalize hu : ((m.data.getD 14 0 % 256) &&& 0x0F) * 32 / 8 = u
  have hu20 : 20 ≤ u := by
    rw [← hu]
    omega
  have hs4 : vnf_send_src_ip.length = 4 := rfl
  have hd4 : vnf_send_dst_ip.length = 4 := rfl
  rw [put_bytes_getElem?_out _ _ _ _ (Or.inr (by simp only [List.length_cons, List.length_nil]; omega)),
    put_bytes_getElem?_out _ _ _ _ (Or.inl (by omega)),
    put_bytes_getElem?_out _ _ _ _ (Or.inr (by simp only [List.length_cons, List.length_nil]; omega)),
    put_bytes_getElem?_out _ _ _ _ (Or.inl (by omega))]
  rw [put_bytes_getElem?, put_bytes_length]
  by_cases h4 : j < 4
  · have : ¬ (14 + 16 ≤ 26 + j ∧ 26 + j < 14 + 16 + vnf_send_dst_ip.length
        ∧ 26 + j < m.data.length) := by omega
    rw [if_neg this, put_bytes_getElem?]
    rw [if_pos ⟨by omega, by omega, by omega⟩]
    have hsub : 26 + j - (14 + 12) = j := by omega
    rw [hsub, List.getElem?_append_left (by omega)]
  · rw [if_pos ⟨by omega, by omega, by omega⟩]
    have hsub : 26 + j - (14 + 16) = j - 4 := by omega
    rw [hsub, List.getElem?_append_right (by omega)]
    rfl

theorem filterMap_keep_map (cfg : Config) (f : rte_mbuf → rte_mbuf) (l : List rte_mbuf) :
    l.filterMap (fun m => (keep_accepted cfg (some m)).map f)
      = (l.filter (fun m => decide (filter_ether_frame cfg m = 1))).map f := by
  induction l with
  | nil => rfl
  | cons a t ih =>
    by_cases hv : filter_ether_frame cfg a = 1
    · simp [List.filterMap_cons, List.filter_cons, keep_accepted, hv] at ih ⊢
      exact ih
    · simp [List.filterMap_cons, List.filter_cons, keep_accepted, hv] at ih ⊢
      exact ih

theorem put_rxq_calls_append (a b : List Call) :
    put_rxq_calls (a ++ b) = put_rxq_calls a ++ put_rxq_calls b := by
  simp [put_rxq_calls, List.filterMap_append]

theorem put_rxq_calls_map_free (l : List rte_mbuf) :
    put_rxq_calls (l.map Call.rte_pktmbuf_free) = [] := by
  induction l with
  | nil => rfl
  | cons a t ih =>
    simp only [put_rxq_calls, List.map_cons, List.filterMap_cons] at ih ⊢
    exact ih

/-- The calls of the forwarding loop of `poll_kni`, read back: one
`l2fwd_put_rxq` per descriptor, in order, with the port of the call; nothing
is released. -/
theorem calls_forwarded (cfg : Config) (portid : Nat) (l : List rte_mbuf) :
    put_rxq_calls (l.flatMap
        (fun m => Call.l2fwd_put_rxq m portid :: l2fwd_put_rxq cfg m portid))
        = l.map (fun m => (m, portid))
    ∧ free_calls (l.flatMap
        (fun m => Call.l2fwd_put_rxq m portid :: l2fwd_put_rxq cfg m portid)) = [] := by
  induction l with
  | nil => exact ⟨rfl, rfl⟩
  | cons a t ih =>
    obtain ⟨ih1, ih2⟩ := ih
    constructor
    · rw [List.flatMap_cons, put_rxq_calls_append, ih1]
      rfl
    · rw [List.flatMap_cons, free_calls_append, ih2]
      rfl

/-- Function `poll_kni` on a well-formed burst of 1 to 255 descriptors that
does not exceed `max_pkt_burst`: it returns; the descriptors which the frame
filter does not accept are released; the accepted ones, with their addresses
rewritten by `mod_ip_addr`, are passed to `l2fwd_put_rxq` in slot order. -/
theorem poll_kni_spec (cfg : Config) (lib : CksumLib) (portid : Nat) (r : RxResult)
    (fuel : Nat) (hwf : r.wf) (h1 : 1 ≤ r.nb_rx) (h255 : r.nb_rx ≤ 255)
    (hmax : (r.nb_rx : Int) ≤ cfg.max_pkt_burst) (hfuel : r.nb_rx < fuel) :
    ∃ log, poll_kni cfg lib portid r fuel = Outcome.done log
      ∧ put_rxq_calls log
          = ((batch_frames r.pkts_burst r.nb_rx).filter
              (fun m => decide (filter_ether_frame cfg m = 1))).map
              (fun m => (mod_ip_addr_frame lib (some vnf_send_src_ip)
                (some vnf_send_dst_ip) m, portid))
      ∧ free_calls log
          = (batch_frames r.pkts_burst r.nb_rx).filter
              (fun m => decide (filter_ether_frame cfg m ≠ 1)) := by
  obtain ⟨out1, hrun1, hl1, hget1⟩ := filter_mbuf_array_spec cfg r.pkts_burst r.nb_rx hwf
  have hle := wf_le_length r.nb_rx r.pkts_burst hwf
  obtain ⟨out2, hrun2, hl2, hget2⟩ := mod_ip_addr_spec lib (some vnf_send_src_ip)
    (some vnf_send_dst_ip) out1 r.nb_rx (by omega)
  have h0 : r.nb_rx ≠ 0 := by omega
  have hnb : ¬ (r.nb_rx : Int) > cfg.max_pkt_burst := by omega
  have hfwd := poll_kni_forward_spec cfg portid r.nb_rx out2 h255 (by omega) r.nb_rx 0 fuel
    ([Call.rte_kni_rx_burst portid cfg.max_pkt_burst, Call.rte_kni_handle_request portid]
      ++ (rejected cfg r.pkts_burst r.nb_rx).map Call.rte_pktmbuf_free) (by omega) hfuel
  have htake : out2.take r.nb_rx
      = (r.pkts_burst.take r.nb_rx).map (fun slot =>
          (keep_accepted cfg slot).map
            (mod_ip_addr_frame lib (some vnf_send_src_ip) (some vnf_send_dst_ip))) := by
    apply List.ext_getElem?
    intro j
    rw [List.getElem?_take, List.getElem?_map, List.getElem?_take]
    by_cases hj : j < r.nb_rx
    · rw [if_pos hj, if_pos hj, hget2 j, if_pos hj, hget1 j, if_pos hj]
      cases r.pkts_burst[j]? <;> rfl
    · rw [if_neg hj, if_neg hj]
      rfl
  have hframes : (out2.take r.nb_rx).filterMap id
      = ((batch_frames r.pkts_burst r.nb_rx).filter
          (fun m => decide (filter_ether_frame cfg m = 1))).map
          (mod_ip_addr_frame lib (some vnf_send_src_ip) (some vnf_send_dst_ip)) := by
    rw [htake, List.filterMap_map, (wf_batch r.pkts_burst r.nb_rx hwf).1, List.filterMap_map]
    exact filterMap_keep_map cfg _ _
  refine ⟨[Call.rte_kni_rx_burst portid cfg.max_pkt_burst, Call.rte_kni_handle_request portid]
      ++ (rejected cfg r.pkts_burst r.nb_rx).map Call.rte_pktmbuf_free
      ++ forwarded cfg portid out2 r.nb_rx 0, ?_, ?_, ?_⟩
  · simp only [poll_kni, if_neg h0, if_neg hnb, hrun1, hrun2]
    exact hfwd
  · simp only [forwarded, List.drop_zero]
    rw [hframes, put_rxq_calls_append, put_rxq_calls_append, put_rxq_calls_map_free,
      (calls_forwarded cfg portid _).1, List.map_map]
    rfl
  · simp only [forwarded, List.drop_zero]
    rw [free_calls_append, free_calls_append, free_calls_map,
      (calls_forwarded cfg portid _).2]
    simp [free_calls, rejected, batch_frames]

theorem kniPulled_wf : kniPulled.wf := by
  intro j hj
  have hj2 : j < 2 := hj
  interval_cases j <;> exact ⟨_, rfl⟩

/-- C26 as stated fails: in kni mode (filtering off), when the bridge hands
`poll_kni` an IPv4/UDP frame and then an IPv4/TCP frame, the TCP frame is
released by the unconditional `filter_mbuf_array` and only the UDP frame
reaches `l2fwd_put_rxq`. -/
theorem C26_counterexample :
    kniConfig.kni_mode ≠ 0 ∧ kniConfig.filtering = 0
    ∧ ∃ log, poll_kni kniConfig zeroCksum 1 kniPulled 3 = Outcome.done log
      ∧ free_calls log = [frameTcp]
      ∧ (put_rxq_calls log).length = 1
      ∧ ∀ c ∈ put_rxq_calls log, c.1.addr ≠ frameTcp.addr := by
  refine ⟨by decide, by decide, _, rfl, ?_, ?_, ?_⟩
  · decide
  · decide
  · decide

/-- C26 (amended): on a burst of 1 to 255 descriptors pulled from the bridge
(and not above `max_pkt_burst`), `poll_kni(q)` returns; the frames that the
frame filter accepts have their source and destination IP addresses rewritten
to `vnf_send_src_ip` (10.0.0.13) and `vnf_send_dst_ip` (10.0.0.14) by
`mod_ip_addr` and are passed to `l2fwd_put_rxq` with port `q`, in the order
pulled; the frames that the filter does not accept are released and not
forwarded. -/
theorem C26_accepted_frames_rewritten_and_forwarded (cfg : Config) (lib : CksumLib) (q : Nat)
    (r : RxResult) (fuel : Nat) (hwf : r.wf) (h1 : 1 ≤ r.nb_rx) (h255 : r.nb_rx ≤ 255)
    (hmax : (r.nb_rx : Int) ≤ cfg.max_pkt_burst) (hfuel : r.nb_rx < fuel) :
    (∃ log, poll_kni cfg lib q r fuel = Outcome.done log
      ∧ put_rxq_calls log
          = ((batch_frames r.pkts_burst r.nb_rx).filter
              (fun m => decide (filter_ether_frame cfg m = 1))).map
              (fun m => (mod_ip_addr_frame lib (some vnf_send_src_ip)
                (some vnf_send_dst_ip) m, q))
      ∧ free_calls log
          = (batch_frames r.pkts_burst r.nb_rx).filter
              (fun m => decide (filter_ether_frame cfg m ≠ 1)))
    ∧ ∀ m : rte_mbuf, 34 ≤ m.data.length → 5 ≤ (m.data.getD 14 0 % 256) &&& 0x0F →
        ∀ j, j < 8 →
          (mod_ip_addr_frame lib (some vnf_send_src_ip) (some vnf_send_dst_ip) m).data[26 + j]?
            = ([10, 0, 0, 13, 10, 0, 0, 14] : List Nat)[j]? :=
  ⟨poll_kni_spec cfg lib q r fuel hwf h1 h255 hmax hfuel,
    fun m hlen hihl j hj => mod_ip_addr_frame_addrs lib m hlen hihl j hj⟩

theorem C26_accepted_frames_rewritten_and_forwarded_witness :
    kniPulled.wf ∧ 1 ≤ kniPulled.nb_rx ∧ kniPulled.nb_rx ≤ 255
    ∧ (kniPulled.nb_rx : Int) ≤ kniConfig.max_pkt_burst ∧ kniPulled.nb_rx < 3
    ∧ ∃ log, poll_kni kniConfig zeroCksum 1 kniPulled 3 = Outcome.done log
      ∧ put_rxq_calls log
          = [(mod_ip_addr_frame zeroCksum (some vnf_send_src_ip) (some vnf_send_dst_ip)
              frameUdp, 1)]
      ∧ free_calls log = [frameTcp] := by
  obtain ⟨⟨log, h1, h2, h3⟩, _⟩ := C26_accepted_frames_rewritten_and_forwarded kniConfig
    zeroCksum 1 kniPulled 3 kniPulled_wf (by decide) (by decide) (by decide) (by decide)
  refine ⟨kniPulled_wf, by decide, by decide, by decide, by decide, log, h1, ?_, ?_⟩
  · rw [h2]; decide
  · rw [h3]; decide

/-! ### The egress loop and the queue configuration -/

/-- Function `poll_kni` returns on every well-formed burst of at most 255
descriptors, given fuel above the count. -/
theorem poll_kni_done (cfg : Config) (lib : CksumLib) (portid : Nat) (r : RxResult)
    (fuel : Nat) (hwf : r.wf) (h255 : r.nb_rx ≤ 255) (hfuel : r.nb_rx < fuel) :
    ∃ log, poll_kni cfg lib portid r fuel = Outcome.done log := by
  by_cases h0 : r.nb_rx = 0
  · exact ⟨[Call.rte_kni_rx_burst portid cfg.max_pkt_burst], by simp [poll_kni, h0]⟩
  · by_cases hbig : (r.nb_rx : Int) > cfg.max_pkt_burst
    · exact ⟨[Call.rte_kni_rx_burst portid cfg.max_pkt_burst], by simp [poll_kni, h0, hbig]⟩
    · obtain ⟨log, h, _⟩ := poll_kni_spec cfg lib portid r fuel hwf (by omega) h255
        (by omega) hfuel
      exact ⟨log, h⟩

theorem kni_egress_drain_done (cfg : Config) (lib : CksumLib) (qconf : lcore_queue_conf)
    (kni_rx : Nat → RxResult) (fuel : Nat) (hwf : ∀ i, (kni_rx i).wf)
    (h255 : ∀ i, (kni_rx i).nb_rx ≤ 255) (hfuel : ∀ i, (kni_rx i).nb_rx < fuel) :
    ∀ (idxs : List Nat) (log : List Call),
      ∃ log1, kni_egress_drain cfg lib qconf kni_rx fuel idxs log = Outcome.done log1
  | [], log => ⟨log, rfl⟩
  | i :: rest, log => by
    by_cases hk : cfg.kni_mode ≠ 0
    · obtain ⟨polled, hp⟩ := poll_kni_done cfg lib (cfg.l2fwd_dst_ports (qconf.rx_port_list i))
        (kni_rx i) fuel (hwf i) (h255 i) (hfuel i)
      simp only [kni_egress_drain, if_pos hk, hp]
      exact kni_egress_drain_done cfg lib qconf kni_rx fuel hwf h255 hfuel rest _
    · simp only [kni_egress_drain, if_neg hk]
      exact kni_egress_drain_done cfg lib qconf kni_rx fuel hwf h255 hfuel rest _

/-- The drain block of `kni_egress_loop` reads of the queue configuration only
the port list at the queues it visits. -/
theorem kni_egress_drain_congr (cfg : Config) (lib : CksumLib) (q1 q2 : lcore_queue_conf)
    (kni_rx : Nat → RxResult) (fuel : Nat) :
    ∀ (idxs : List Nat) (log : List Call),
      (∀ i ∈ idxs, q2.rx_port_list i = q1.rx_port_list i) →
      kni_egress_drain cfg lib q2 kni_rx fuel idxs log
        = kni_egress_drain cfg lib q1 kni_rx fuel idxs log
  | [], _, _ => rfl
  | i :: rest, log, h => by
    have hi : q2.rx_port_list i = q1.rx_port_list i := h i (by simp)
    have hrest : ∀ j ∈ rest, q2.rx_port_list j = q1.rx_port_list j :=
      fun j hj => h j (by simp [hj])
    simp only [kni_egress_drain, hi]
    by_cases hk : cfg.kni_mode ≠ 0
    · rw [if_pos hk, if_pos hk]
      cases poll_kni cfg lib (cfg.l2fwd_dst_ports (q1.rx_port_list i)) (kni_rx i) fuel with
      | done polled => exact kni_egress_drain_congr cfg lib q1 q2 kni_rx fuel rest _ hrest
      | undefined => rfl
      | out_of_fuel => rfl
    · rw [if_neg hk, if_neg hk]
      exact kni_egress_drain_congr cfg lib q1 q2 kni_rx fuel rest _ hrest

/-- C25 as stated fails: `kni_egress_loop` works on `lcore_queue_conf[0]`, the
queue configuration of the ingress loop.  On entry it clears `rx_burst_try`
(here from 5 to 0), and each drain reads `rx_port_list`: with another port
list the same iteration makes other calls. -/
theorem C25_counterexample :
    busyQconf.rx_burst_try 0 = 5
    ∧ (kni_egress_loop_init busyQconf []).2.qconf.rx_burst_try 0 = 0
    ∧ ∃ s1 s2,
        kni_egress_loop_tick kniConfig zeroCksum 100 ⟨0, busyQconf, []⟩ pullingTick 3
          = Outcome.done s1
        ∧ kni_egress_loop_tick kniConfig zeroCksum 100 ⟨0, otherQconf, []⟩ pullingTick 3
          = Outcome.done s2
        ∧ s1.log ≠ s2.log := by
  refine ⟨rfl, rfl, _, _, rfl, rfl, ?_⟩
  decide

/-- C25 (amended): `kni_egress_loop` uses the queue configuration
`lcore_queue_conf[0]` of the ingress loop.  On entry it sets `start_rx_flag[i]`
and clears `rx_burst_try[i]` for each of its `n_rx_port` queues and changes
nothing else of it.  Each iteration of its `while` returns (on well-formed
bridge bursts of at most 255 frames), leaves the queue configuration as it
was, and reads of it only `n_rx_port` and the port list of the first
`n_rx_port` queues: with any other values of `rx_burst_try`, `start_rx_flag`
and the rest of the port list, the iteration makes the same calls. -/
theorem C25_egress_loop_and_queue_configuration (cfg : Config) (lib : CksumLib)
    (drain_tsc : Nat) (s : KniEgress) (t : EgressTick) (fuel : Nat)
    (hwf : ∀ i, (t.kni_rx i).wf) (h255 : ∀ i, (t.kni_rx i).nb_rx ≤ 255)
    (hfuel : ∀ i, (t.kni_rx i).nb_rx < fuel) :
    (∀ (qconf0 : lcore_queue_conf) (log : List Call),
      (kni_egress_loop_init qconf0 log).2.qconf.n_rx_port = qconf0.n_rx_port
      ∧ (kni_egress_loop_init qconf0 log).2.qconf.rx_port_list = qconf0.rx_port_list
      ∧ (∀ i, i < qconf0.n_rx_port →
          (kni_egress_loop_init qconf0 log).2.qconf.start_rx_flag i = true
          ∧ (kni_egress_loop_init qconf0 log).2.qconf.rx_burst_try i = 0)
      ∧ (∀ i, ¬ i < qconf0.n_rx_port →
          (kni_egress_loop_init qconf0 log).2.qconf.start_rx_flag i = qconf0.start_rx_flag i
          ∧ (kni_egress_loop_init qconf0 log).2.qconf.rx_burst_try i
              = qconf0.rx_burst_try i))
    ∧ ∃ s1, kni_egress_loop_tick cfg lib drain_tsc s t fuel = Outcome.done s1
        ∧ s1.qconf = s.qconf
        ∧ ∀ q : lcore_queue_conf, q.n_rx_port = s.qconf.n_rx_port →
            (∀ i, i < s.qconf.n_rx_port → q.rx_port_list i = s.qconf.rx_port_list i) →
            kni_egress_loop_tick cfg lib drain_tsc { s with qconf := q } t fuel
              = Outcome.done { s1 with qconf := q } := by
  constructor
  · intro qconf0 log
    by_cases hn : qconf0.n_rx_port = 0
    · have hinit : kni_egress_loop_init qconf0 log
          = (Flow.ret, { prev_tsc := 0, qconf := qconf0, log := log }) := by
        simp only [kni_egress_loop_init, if_pos hn]
      rw [hinit]
      exact ⟨rfl, rfl, fun i hi => absurd hi (by omega), fun i _ => ⟨rfl, rfl⟩⟩
    · have hinit : kni_egress_loop_init qconf0 log
          = (Flow.next,
              { prev_tsc := 0
                qconf := { qconf0 with
                  start_rx_flag := fun i =>
                    if i < qconf0.n_rx_port then true else qconf0.start_rx_flag i
                  rx_burst_try := fun i =>
                    if i < qconf0.n_rx_port then 0 else qconf0.rx_burst_try i }
                log := log }) := by
        simp only [kni_egress_loop_init, if_neg hn]
      rw [hinit]
      refine ⟨rfl, rfl, fun i hi => ⟨?_, ?_⟩, fun i hi => ⟨?_, ?_⟩⟩
      · exact if_pos hi
      · exact if_pos hi
      · exact if_neg hi
      · exact if_neg hi
  · by_cases hd : diff_tsc t.cur_tsc s.prev_tsc > drain_tsc
    · obtain ⟨log1, hl⟩ := kni_egress_drain_done cfg lib s.qconf t.kni_rx fuel hwf h255 hfuel
        (List.range s.qconf.n_rx_port)
        (s.log ++ (if t.sleep_flag = 1 then [Call.usleep cfg.poll_long_interval_us] else []))
      refine ⟨{ prev_tsc := t.cur_tsc, qconf := s.qconf, log := log1 }, ?_, rfl, ?_⟩
      · simp only [kni_egress_loop_tick, if_pos hd, hl]
      · intro q hq hlist
        have hc := kni_egress_drain_congr cfg lib s.qconf q t.kni_rx fuel
          (List.range s.qconf.n_rx_port)
          (s.log ++ (if t.sleep_flag = 1 then [Call.usleep cfg.poll_long_interval_us] else []))
          (fun i hi => hlist i (List.mem_range.mp hi))
        simp only [kni_egress_loop_tick, if_pos hd, hq, hc, hl]
    · refine ⟨{ s with log := s.log
          ++ (if t.sleep_flag = 1 then [Call.usleep cfg.poll_long_interval_us] else []) },
        ?_, rfl, ?_⟩
      · simp only [kni_egress_loop_tick, if_neg hd]
      · intro q _ _
        simp only [kni_egress_loop_tick, if_neg hd]

theorem C25_egress_loop_and_queue_configuration_witness :
    (∀ i, (pullingTick.kni_rx i).wf) ∧ (∀ i, (pullingTick.kni_rx i).nb_rx ≤ 255)
    ∧ (∀ i, (pullingTick.kni_rx i).nb_rx < 3)
    ∧ ∃ s1, kni_egress_loop_tick kniConfig zeroCksum 100 ⟨0, busyQconf, []⟩ pullingTick 3
          = Outcome.done s1
        ∧ s1.qconf = busyQconf := by
  obtain ⟨_, s1, h1, h2, _⟩ := C25_egress_loop_and_queue_configuration kniConfig zeroCksum 100
    ⟨0, busyQconf, []⟩ pullingTick 3 (fun _ => kniPulled_wf)
    (fun _ => (by decide : (2 : Nat) ≤ 255)) (fun _ => (by decide : (2 : Nat) < 3))
  exact ⟨fun _ => kniPulled_wf, fun _ => (by decide : (2 : Nat) ≤ 255),
    fun _ => (by decide : (2 : Nat) < 3), s1, h1, h2⟩

/-! ### The idle flag of the ingress loop -/

/-- One poll of `kni_ingress_loop` keeps the invariant; and a poll that gets a
non-empty burst and does not return leaves the idle flag at 0. -/
theorem kni_rx_inv (cfg : Config) (lib : CksumLib) (c n : Nat) (s : KniIngress) (i : Nat)
    (r : KniRx) (flow : Flow) (s1 : KniIngress) (hc1 : 1 ≤ c) (hc2 : c ≤ 65535)
    (hcfg : cfg.max_poll_short_try = (c : Int)) (hi : i < n) (hP : idle_flag_inv c n s)
    (h : kni_ingress_loop_rx cfg lib s i r = some (flow, s1)) :
    idle_flag_inv c n s1
      ∧ (r.rx.nb_rx ≠ 0 → flow = Flow.next → s1.kni_egress_sleep = 0) := by
  obtain ⟨hf, hn, hst, hle, hex⟩ := hP
  have hflag := hst i hi
  simp only [kni_ingress_loop_rx] at h
  rw [if_pos hflag] at h
  by_cases hbig : r.rx.nb_rx > (cfg.max_pkt_burst % 65536).toNat
  · rw [if_pos hbig] at h
    simp only [Option.some.injEq, Prod.mk.injEq] at h
    obtain ⟨rfl, rfl⟩ := h
    exact ⟨⟨hf, hn, hst, hle, hex⟩, fun _ hne => by cases hne⟩
  · rw [if_neg hbig] at h
    by_cases h0 : r.rx.nb_rx = 0
    · rw [if_pos h0] at h
      have hc0 : ¬ cfg.max_poll_short_try = 0 := by rw [hcfg]; omega
      rw [if_neg hc0] at h
      refine ⟨?_, fun hne => absurd h0 hne⟩
      by_cases hlt : (s.st.qconf.rx_burst_try i : Int) < cfg.max_poll_short_try
      · rw [if_pos hlt] at h
        simp only [Option.some.injEq, Prod.mk.injEq] at h
        obtain ⟨_, rfl⟩ := h
        rw [hcfg] at hlt
        have hlt2 : s.st.qconf.rx_burst_try i < c := by omega
        have hmod : (s.st.qconf.rx_burst_try i + 1) % 65536 = s.st.qconf.rx_burst_try i + 1 :=
          Nat.mod_eq_of_lt (by omega)
        refine ⟨hf, hn, hst, ?_, ?_⟩
        · intro k hk
          show setPort s.st.qconf.rx_burst_try i _ k ≤ c
          unfold setPort
          by_cases hki : k = i
          · rw [if_pos hki, hmod]; omega
          · rw [if_neg hki]; exact hle k hk
        · intro h1
          obtain ⟨k, hk, hkc⟩ := hex h1
          refine ⟨k, hk, ?_⟩
          show setPort s.st.qconf.rx_burst_try i _ k = c
          unfold setPort
          have hki : k ≠ i := by
            intro e; subst e; omega
          rw [if_neg hki]; exact hkc
      · rw [if_neg hlt] at h
        rw [hcfg] at hlt
        have hic : s.st.qconf.rx_burst_try i = c := by
          have := hle i hi
          omega
        by_cases hz : s.kni_egress_sleep % 256 = 0
        · rw [if_pos hz] at h
          simp only [Option.some.injEq, Prod.mk.injEq] at h
          obtain ⟨_, rfl⟩ := h
          have hs0 : s.kni_egress_sleep = 0 := by omega
          refine ⟨?_, hn, hst, hle, fun _ => ⟨i, hi, hic⟩⟩
          show (s.kni_egress_sleep + 1) % 65536 ≤ 1
          rw [hs0]
        · rw [if_neg hz] at h
          simp only [Option.some.injEq, Prod.mk.injEq] at h
          obtain ⟨_, rfl⟩ := h
          exact ⟨hf, hn, hst, hle, hex⟩
    · rw [if_neg h0] at h
      split at h
      · cases h
      · split at h
        · cases h
        · simp only [Option.some.injEq, Prod.mk.injEq] at h
          obtain ⟨_, rfl⟩ := h
          refine ⟨⟨Nat.zero_le 1, hn, hst, ?_, ?_⟩, fun _ _ => rfl⟩
          · intro k hk
            show setPort s.st.qconf.rx_burst_try i 0 k ≤ c
            unfold setPort
            by_cases hki : k = i
            · rw [if_pos hki]; omega
            · rw [if_neg hki]; exact hle k hk
          · intro h1
            have h01 : (0 : Nat) = 1 := h1
            omega

/-- A property kept by each step of a loop holds when the loop is left. -/
theorem seq_loop_inv {σ α : Type} (body : σ → α → Option (Flow × σ)) (P : σ → Prop)
    (l : List α)
    (hstep : ∀ s a flow s1, a ∈ l → P s → body s a = some (flow, s1) → P s1) :
    ∀ (l1 : List α) (s : σ) (flow : Flow) (s1 : σ), (∀ a ∈ l1, a ∈ l) → P s →
      seq_loop body l1 s = some (flow, s1) → P s1
  | [], s, flow, s1, _, hP, h => by
    simp only [seq_loop, Option.some.injEq, Prod.mk.injEq] at h
    obtain ⟨_, rfl⟩ := h
    exact hP
  | a :: rest, s, flow, s1, hsub, hP, h => by
    simp only [seq_loop] at h
    cases hb : body s a with
    | none => rw [hb] at h; cases h
    | some p =>
      obtain ⟨fl, s2⟩ := p
      have hP2 := hstep s a fl s2 (hsub a (by simp)) hP hb
      rw [hb] at h
      cases fl with
      | ret =>
        simp only [Option.some.injEq, Prod.mk.injEq] at h
        obtain ⟨_, rfl⟩ := h
        exact hP2
      | next =>
        exact seq_loop_inv body P l hstep rest s2 flow s1
          (fun b hb2 => hsub b (by simp [hb2])) hP2 h

/-- A loop whose every step returns a result returns a result. -/
theorem seq_loop_total {σ α : Type} (body : σ → α → Option (Flow × σ)) (l : List α)
    (hstep : ∀ s a, a ∈ l → ∃ flow s1, body s a = some (flow, s1)) :
    ∀ (l1 : List α) (s : σ), (∀ a ∈ l1, a ∈ l) →
      ∃ flow s1, seq_loop body l1 s = some (flow, s1)
  | [], s, _ => ⟨Flow.next, s, rfl⟩
  | a :: rest, s, hsub => by
    obtain ⟨fl, s2, hb⟩ := hstep s a (hsub a (by simp))
    simp only [seq_loop, hb]
    cases fl with
    | ret => exact ⟨Flow.ret, s2, rfl⟩
    | next => exact seq_loop_total body l hstep rest s2 (fun b hb2 => hsub b (by simp [hb2]))

/-- A loop over `l ++ [a]` that runs to its end ran over `l` to its end and
then made the step at `a`. -/
theorem seq_loop_snoc {σ α : Type} (body : σ → α → Option (Flow × σ)) (a : α) :
    ∀ (l : List α) (s s1 : σ), seq_loop body (l ++ [a]) s = some (Flow.next, s1) →
      ∃ s2, seq_loop body l s = some (Flow.next, s2) ∧ body s2 a = some (Flow.next, s1)
  | [], s, s1, h => by
    refine ⟨s, rfl, ?_⟩
    simp only [List.nil_append, seq_loop] at h
    cases hb : body s a with
    | none => rw [hb] at h; cases h
    | some p =>
      obtain ⟨fl, s2⟩ := p
      rw [hb] at h
      cases fl with
      | ret =>
        simp only [Option.some.injEq, Prod.mk.injEq] at h
        exact absurd h.1 (by decide)
      | next =>
        simp only [seq_loop, Option.some.injEq, Prod.mk.injEq] at h
        obtain ⟨_, rfl⟩ := h
        rfl
  | b :: rest, s, s1, h => by
    simp only [List.cons_append, seq_loop] at h ⊢
    cases hb : body s b with
    | none => rw [hb] at h; cases h
    | some p =>
      obtain ⟨fl, s2⟩ := p
      rw [hb] at h
      cases fl with
      | ret =>
        simp only [Option.some.injEq, Prod.mk.injEq] at h
        exact absurd h.1 (by decide)
      | next => exact seq_loop_snoc body a rest s2 s1 h

/-- One iteration of the `while` of `kni_ingress_loop` keeps the invariant. -/
theorem kni_tick_inv (cfg : Config) (lib : CksumLib) (c n : Nat) (hc1 : 1 ≤ c)
    (hc2 : c ≤ 65535) (hcfg : cfg.max_poll_short_try = (c : Int)) (s : KniIngress)
    (rx : Nat → KniRx) (flow : Flow) (s1 : KniIngress) (hP : idle_flag_inv c n s)
    (h : kni_ingress_loop_tick cfg lib s rx = some (flow, s1)) : idle_flag_inv c n s1 := by
  unfold kni_ingress_loop_tick at h
  rw [hP.2.1] at h
  exact seq_loop_inv (fun s1 i => kni_ingress_loop_rx cfg lib s1 i (rx i)) (idle_flag_inv c n)
    (List.range n)
    (fun s2 a fl s3 ha hP2 hb =>
      (kni_rx_inv cfg lib c n s2 a (rx a) fl s3 hc1 hc2 hcfg (List.mem_range.mp ha) hP2 hb).1)
    (List.range n) s flow s1 (fun _ ha => ha) hP h

/-- An iteration of the `while` of `kni_ingress_loop` that runs to its end and
whose last queue got a non-empty burst leaves the idle flag at 0. -/
theorem kni_tick_last_burst (cfg : Config) (lib : CksumLib) (c n : Nat) (hc1 : 1 ≤ c)
    (hc2 : c ≤ 65535) (hcfg : cfg.max_poll_short_try = (c : Int)) (s : KniIngress)
    (rx : Nat → KniRx) (s1 : KniIngress) (hP : idle_flag_inv c n s) (hn : 0 < n)
    (h : kni_ingress_loop_tick cfg lib s rx = some (Flow.next, s1))
    (hlast : (rx (n - 1)).rx.nb_rx ≠ 0) : s1.kni_egress_sleep = 0 := by
  unfold kni_ingress_loop_tick at h
  rw [hP.2.1] at h
  obtain ⟨m, rfl⟩ : ∃ m, n = m + 1 := ⟨n - 1, by omega⟩
  rw [List.range_succ] at h
  obtain ⟨s2, hpre, hstep⟩ := seq_loop_snoc _ m (List.range m) s s1 h
  have hP2 : idle_flag_inv c (m + 1) s2 :=
    seq_loop_inv (fun s1 i => kni_ingress_loop_rx cfg lib s1 i (rx i))
      (idle_flag_inv c (m + 1)) (List.range m)
      (fun s3 a fl s4 ha hP3 hb =>
        (kni_rx_inv cfg lib c (m + 1) s3 a (rx a) fl s4 hc1 hc2 hcfg
          (by have := List.mem_range.mp ha; omega) hP3 hb).1)
      (List.range m) s Flow.next s2 (fun _ ha => ha) hP hpre
  exact (kni_rx_inv cfg lib c (m + 1) s2 m (rx m) Flow.next s1 hc1 hc2 hcfg (by omega) hP2
    hstep).2 hlast rfl

/-- The state right after the entry of `kni_ingress_loop` satisfies the
invariant. -/
theorem kni_init_inv (c : Nat) (st : LoopState) (hn : st.qconf.n_rx_port ≠ 0) :
    idle_flag_inv c st.qconf.n_rx_port (kni_ingress_loop_init st).2 := by
  have hinit : kni_ingress_loop_init st
      = (Flow.next,
          { kni_egress_sleep := 0
            st := { st with
              qconf := { st.qconf with
                start_rx_flag := fun i =>
                  if i < st.qconf.n_rx_port then true else st.qconf.start_rx_flag i
                rx_burst_try := fun i =>
                  if i < st.qconf.n_rx_port then 0 else st.qconf.rx_burst_try i } } }) := by
    simp only [kni_ingress_loop_init, if_neg hn]
  rw [hinit]
  refine ⟨Nat.zero_le 1, rfl, fun k hk => ?_, fun k hk => ?_, fun h => ?_⟩
  · exact if_pos hk
  · show (if k < st.qconf.n_rx_port then 0 else st.qconf.rx_burst_try k) ≤ c
    rw [if_pos hk]; exact Nat.zero_le c
  · have h01 : (0 : Nat) = 1 := h
    omega

/-- C27: for a ceiling `c` with 1 ≤ c ≤ 65535, from the entry of
`kni_ingress_loop` (idle flag 0, every counter 0): iterations with well-formed
bursts give a result; after any number of iterations the idle flag is 0 or 1,
and when it is 1 some queue of the loop has its counter equal to `c`; and an
iteration that runs to its end and whose last queue got a non-empty burst
leaves the flag at 0. -/
theorem C27_idle_flag_invariant (cfg : Config) (lib : CksumLib) (c : Nat) (st0 : LoopState)
    (ticks : List (Nat → KniRx)) (hc1 : 1 ≤ c) (hc2 : c ≤ 65535)
    (hcfg : cfg.max_poll_short_try = (c : Int)) (hn : st0.qconf.n_rx_port ≠ 0) :
    ((∀ t ∈ ticks, ∀ j, (t j).rx.wf) →
      ∃ flow s, kni_ingress_loop_run cfg lib ticks (kni_ingress_loop_init st0).2
        = some (flow, s))
    ∧ ∀ flow s,
        kni_ingress_loop_run cfg lib ticks (kni_ingress_loop_init st0).2 = some (flow, s) →
        (s.kni_egress_sleep = 0 ∨ s.kni_egress_sleep = 1)
        ∧ (s.kni_egress_sleep = 1 →
            ∃ k, k < st0.qconf.n_rx_port ∧ s.st.qconf.rx_burst_try k = c)
        ∧ ∀ (rx : Nat → KniRx) (s1 : KniIngress),
            kni_ingress_loop_tick cfg lib s rx = some (Flow.next, s1) →
            (rx (st0.qconf.n_rx_port - 1)).rx.nb_rx ≠ 0 → s1.kni_egress_sleep = 0 := by
  constructor
  · intro hwf
    exact seq_loop_total (kni_ingress_loop_tick cfg lib) ticks
      (fun s t ht => by
        unfold kni_ingress_loop_tick
        exact seq_loop_total (fun s1 i => kni_ingress_loop_rx cfg lib s1 i (t i))
          (List.range s.st.qconf.n_rx_port)
          (fun s2 i _ => by
            obtain ⟨fl, s3, h, _⟩ := kni_step_frame cfg lib s2 i (t i) (hwf t ht i)
            exact ⟨fl, s3, h⟩)
          (List.range s.st.qconf.n_rx_port) s (fun _ ha => ha))
      ticks (kni_ingress_loop_init st0).2 (fun _ ha => ha)
  · intro flow s hrun
    have hP : idle_flag_inv c st0.qconf.n_rx_port s :=
      seq_loop_inv (kni_ingress_loop_tick cfg lib) (idle_flag_inv c st0.qconf.n_rx_port) ticks
        (fun s2 t fl s3 _ hP2 hb =>
          kni_tick_inv cfg lib c st0.qconf.n_rx_port hc1 hc2 hcfg s2 t fl s3 hP2 hb)
        ticks (kni_ingress_loop_init st0).2 flow s (fun _ ha => ha) (kni_init_inv c st0 hn) hrun
    refine ⟨?_, hP.2.2.2.2, ?_⟩
    · have := hP.1
      omega
    · intro rx s1 htick hlast
      exact kni_tick_last_burst cfg lib c st0.qconf.n_rx_port hc1 hc2 hcfg s rx s1 hP
        (by omega) htick hlast

theorem C27_idle_flag_invariant_witness :
    (1 : Nat) ≤ 3 ∧ (3 : Nat) ≤ 65535 ∧ kniConfig.max_poll_short_try = ((3 : Nat) : Int)
    ∧ sampleState.qconf.n_rx_port ≠ 0
    ∧ ∃ flow s,
        kni_ingress_loop_run kniConfig zeroCksum (List.replicate 5 idleKniRx)
          (kni_ingress_loop_init sampleState).2 = some (flow, s)
        ∧ s.kni_egress_sleep = 1
        ∧ (∃ k, k < sampleState.qconf.n_rx_port ∧ s.st.qconf.rx_burst_try k = 3)
        ∧ ∀ s1, kni_ingress_loop_tick kniConfig zeroCksum s busyKniRx = some (Flow.next, s1) →
            s1.kni_egress_sleep = 0 := by
  obtain ⟨hA, hB⟩ := C27_idle_flag_invariant kniConfig zeroCksum 3 sampleState
    (List.replicate 5 idleKniRx) (by decide) (by decide) (by decide) (by decide)
  obtain ⟨flow, s, hrun⟩ := hA (fun t ht j k hk => by
    rw [List.eq_of_mem_replicate ht] at hk
    exact absurd hk (Nat.not_lt_zero k))
  obtain ⟨_, h1, h2⟩ := hB flow s hrun
  have hs : (kni_ingress_loop_run kniConfig zeroCksum (List.replicate 5 idleKniRx)
      (kni_ingress_loop_init sampleState).2).map (fun p => p.2.kni_egress_sleep) = some 1 := by
    decide
  rw [hrun] at hs
  have hs1 : s.kni_egress_sleep = 1 := by
    simpa using hs
  exact ⟨by decide, by decide, by decide, by decide, flow, s, hrun, hs1, h1 hs1,
    fun s1 ht => h2 busyKniRx s1 ht (by decide)⟩

/-! ### The consecutive-empty counter of `l2fwd_main_loop` -/

/-- How one poll of `l2fwd_main_loop` changes the counters: the number of
queues stays, each counter stays, is cleared, or (the counter of the polled
queue, on an empty poll, below the ceiling) becomes its successor modulo
2^16. -/
theorem rx_counter_step (cfg : Config) (st : LoopState) (i nb_rx : Nat) (pkts : MbufArray)
    (flow : Flow) (st1 : LoopState)
    (h : l2fwd_main_loop_rx cfg st i nb_rx pkts = some (flow, st1)) :
    st1.qconf.n_rx_port = st.qconf.n_rx_port
    ∧ ∀ k, st1.qconf.rx_burst_try k = st.qconf.rx_burst_try k
        ∨ st1.qconf.rx_burst_try k = 0
        ∨ (st1.qconf.rx_burst_try k = (st.qconf.rx_burst_try k + 1) % 65536
            ∧ k = i ∧ nb_rx = 0 ∧ st.qconf.start_rx_flag i = true
            ∧ (st.qconf.rx_burst_try k : Int) < cfg.max_poll_short_try) := by
  simp only [l2fwd_main_loop_rx] at h
  by_cases hflag : st.qconf.start_rx_flag i = true
  · rw [if_pos hflag] at h
    by_cases hbig : nb_rx > (cfg.max_pkt_burst % 65536).toNat
    · rw [if_pos hbig] at h
      simp only [Option.some.injEq, Prod.mk.injEq] at h
      obtain ⟨_, rfl⟩ := h
      exact ⟨rfl, fun k => Or.inl rfl⟩
    · rw [if_neg hbig] at h
      by_cases h0 : nb_rx = 0
      · rw [if_pos h0] at h
        by_cases hc0 : cfg.max_poll_short_try = 0
        · rw [if_pos hc0] at h
          simp only [Option.some.injEq, Prod.mk.injEq] at h
          obtain ⟨_, rfl⟩ := h
          exact ⟨rfl, fun k => Or.inl rfl⟩
        · rw [if_neg hc0] at h
          by_cases hlt : (st.qconf.rx_burst_try i : Int) < cfg.max_poll_short_try
          · rw [if_pos hlt] at h
            simp only [Option.some.injEq, Prod.mk.injEq] at h
            obtain ⟨_, rfl⟩ := h
            refine ⟨rfl, fun k => ?_⟩
            by_cases hki : k = i
            · subst hki
              refine Or.inr (Or.inr ⟨?_, rfl, h0, hflag, hlt⟩)
              show setPort st.qconf.rx_burst_try k _ k = _
              unfold setPort
              rw [if_pos rfl]
            · refine Or.inl ?_
              show setPort st.qconf.rx_burst_try i _ k = _
              unfold setPort
              rw [if_neg hki]
          · rw [if_neg hlt] at h
            simp only [Option.some.injEq, Prod.mk.injEq] at h
            obtain ⟨_, rfl⟩ := h
            exact ⟨rfl, fun k => Or.inl rfl⟩
      · rw [if_neg h0] at h
        have hset : ∀ k, setPort st.qconf.rx_burst_try i 0 k = st.qconf.rx_burst_try k
            ∨ setPort st.qconf.rx_burst_try i 0 k = 0 := by
          intro k
          unfold setPort
          by_cases hki : k = i
          · rw [if_pos hki]; exact Or.inr rfl
          · rw [if_neg hki]; exact Or.inl rfl
        split at h
        · cases h
        · by_cases hk : cfg.kni_mode ≠ 0
          · rw [if_pos hk] at h
            simp only [Option.some.injEq, Prod.mk.injEq] at h
            obtain ⟨_, rfl⟩ := h
            exact ⟨rfl, fun k => (hset k).elim Or.inl (fun e => Or.inr (Or.inl e))⟩
          · rw [if_neg hk] at h
            split at h
            · cases h
            · simp only [Option.some.injEq, Prod.mk.injEq] at h
              obtain ⟨_, rfl⟩ := h
              exact ⟨rfl, fun k => (hset k).elim Or.inl (fun e => Or.inr (Or.inl e))⟩
  · rw [if_neg hflag] at h
    simp only [Option.some.injEq, Prod.mk.injEq] at h
    obtain ⟨_, rfl⟩ := h
    exact ⟨rfl, fun k => Or.inl rfl⟩

/-- One poll of `l2fwd_main_loop` keeps every counter at or below a
non-negative ceiling. -/
theorem rx_counter_bound (cfg : Config) (c n : Nat) (hcfg : cfg.max_poll_short_try = (c : Int))
    (st : LoopState) (i nb_rx : Nat) (pkts : MbufArray) (flow : Flow) (st1 : LoopState)
    (hP : st.qconf.n_rx_port = n ∧ ∀ k, k < n → st.qconf.rx_burst_try k ≤ c)
    (h : l2fwd_main_loop_rx cfg st i nb_rx pkts = some (flow, st1)) :
    st1.qconf.n_rx_port = n ∧ ∀ k, k < n → st1.qconf.rx_burst_try k ≤ c := by
  obtain ⟨hn, hk⟩ := rx_counter_step cfg st i nb_rx pkts flow st1 h
  refine ⟨hn.trans hP.1, fun k hkn => ?_⟩
  have hb := hP.2 k hkn
  rcases hk k with e | e | ⟨e, _, _, _, hlt⟩
  · omega
  · omega
  · rw [hcfg] at hlt
    have := Nat.mod_le (st.qconf.rx_burst_try k + 1) 65536
    omega

theorem drain_qconf (cfg : Config) (drain_tsc : Nat) (s : MainLoop) (cur_tsc : Nat) :
    (l2fwd_main_loop_drain cfg drain_tsc s cur_tsc).st.qconf = s.st.qconf := by
  unfold l2fwd_main_loop_drain
  by_cases hd : diff_tsc cur_tsc s.prev_tsc > drain_tsc
  · rw [if_pos hd]
  · rw [if_neg hd]

/-- One iteration of the `while` of `l2fwd_main_loop` keeps every counter at
or below a non-negative ceiling. -/
theorem tick_counter_bound (cfg : Config) (c n drain_tsc : Nat)
    (hcfg : cfg.max_poll_short_try = (c : Int)) (s : MainLoop) (t : Tick) (flow : Flow)
    (s1 : MainLoop)
    (hP : s.st.qconf.n_rx_port = n ∧ ∀ k, k < n → s.st.qconf.rx_burst_try k ≤ c)
    (h : l2fwd_main_loop_tick cfg drain_tsc s t = some (flow, s1)) :
    s1.st.qconf.n_rx_port = n ∧ ∀ k, k < n → s1.st.qconf.rx_burst_try k ≤ c := by
  unfold l2fwd_main_loop_tick at h
  have hq := drain_qconf cfg drain_tsc s t.cur_tsc
  cases hseq : seq_loop
      (fun st i => l2fwd_main_loop_rx cfg st i (t.rx i).nb_rx (t.rx i).pkts_burst)
      (List.range (l2fwd_main_loop_drain cfg drain_tsc s t.cur_tsc).st.qconf.n_rx_port)
      (l2fwd_main_loop_drain cfg drain_tsc s t.cur_tsc).st with
  | none => rw [hseq] at h; cases h
  | some p =>
    obtain ⟨fl, st1⟩ := p
    rw [hseq] at h
    simp only [Option.some.injEq, Prod.mk.injEq] at h
    obtain ⟨_, rfl⟩ := h
    exact seq_loop_inv
      (fun st i => l2fwd_main_loop_rx cfg st i (t.rx i).nb_rx (t.rx i).pkts_burst)
      (fun st => st.qconf.n_rx_port = n ∧ ∀ k, k < n → st.qconf.rx_burst_try k ≤ c)
      (List.range (l2fwd_main_loop_drain cfg drain_tsc s t.cur_tsc).st.qconf.n_rx_port)
      (fun st a fl2 st2 _ hP2 hb =>
        rx_counter_bound cfg c n hcfg st a (t.rx a).nb_rx (t.rx a).pkts_burst fl2 st2 hP2 hb)
      _ _ fl st1 (fun _ ha => ha)
      (by
        show (l2fwd_main_loop_drain cfg drain_tsc s t.cur_tsc).st.qconf.n_rx_port = n
          ∧ ∀ k, k < n →
            (l2fwd_main_loop_drain cfg drain_tsc s t.cur_tsc).st.qconf.rx_burst_try k ≤ c
        rw [hq]; exact hP) hseq

/-- One iteration of the `while` of `l2fwd_main_loop` on well-formed bursts
gives a result. -/
theorem tick_total (cfg : Config) (drain_tsc : Nat) (s : MainLoop) (t : Tick)
    (hwf : ∀ i, (t.rx i).wf) :
    ∃ flow s1, l2fwd_main_loop_tick cfg drain_tsc s t = some (flow, s1) := by
  obtain ⟨flow, st1, _, hrun, _⟩ := rx_loop_frame cfg t.rx hwf
    (List.range (l2fwd_main_loop_drain cfg drain_tsc s t.cur_tsc).st.qconf.n_rx_port)
    (l2fwd_main_loop_drain cfg drain_tsc s t.cur_tsc).st
  exact ⟨flow, _, by unfold l2fwd_main_loop_tick; rw [hrun]⟩

/-- The state right after the entry of `l2fwd_main_loop` has every counter of
its queues at 0. -/
theorem main_init_counters (st : LoopState) (hn : st.qconf.n_rx_port ≠ 0) :
    (l2fwd_main_loop_init st).2.st.qconf.n_rx_port = st.qconf.n_rx_port
    ∧ ∀ k, k < st.qconf.n_rx_port → (l2fwd_main_loop_init st).2.st.qconf.rx_burst_try k = 0 := by
  have hinit : l2fwd_main_loop_init st
      = (Flow.next,
          { prev_tsc := 0
            st := { st with
              qconf := { st.qconf with
                start_rx_flag := fun i =>
                  if i < st.qconf.n_rx_port then true else st.qconf.start_rx_flag i
                rx_burst_try := fun i =>
                  if i < st.qconf.n_rx_port then 0 else st.qconf.rx_burst_try i } } }) := by
    simp only [l2fwd_main_loop_init, if_neg hn]
  rw [hinit]
  exact ⟨rfl, fun k hk => if_pos hk⟩

/-- C28: for a ceiling `c ≥ 0`, from the entry of `l2fwd_main_loop`:
iterations on well-formed bursts give a result; after any number of
iterations every counter of a queue of the loop is at most `c`; each poll
keeps the counters at most `c`; a poll that increases a counter increases it
by exactly 1, and it is the counter of the polled queue, on an empty poll,
while the counter is strictly below `c`; and an empty poll of a started queue
whose counter is below `c` (and below 65535, the largest value of the 16-bit
counter) increases it by 1. -/
theorem C28_counter_never_exceeds_ceiling (cfg : Config) (c drain_tsc : Nat) (st0 : LoopState)
    (ticks : List Tick) (hcfg : cfg.max_poll_short_try = (c : Int))
    (hn : st0.qconf.n_rx_port ≠ 0) :
    ((∀ t ∈ ticks, ∀ i, (t.rx i).wf) →
      ∃ flow s, l2fwd_main_loop_run cfg drain_tsc ticks (l2fwd_main_loop_init st0).2
        = some (flow, s))
    ∧ (∀ flow s,
        l2fwd_main_loop_run cfg drain_tsc ticks (l2fwd_main_loop_init st0).2 = some (flow, s) →
        ∀ k, k < st0.qconf.n_rx_port → s.st.qconf.rx_burst_try k ≤ c)
    ∧ ∀ (st : LoopState) (i nb_rx : Nat) (pkts : MbufArray) (flow : Flow) (st1 : LoopState),
        l2fwd_main_loop_rx cfg st i nb_rx pkts = some (flow, st1) →
        ((∀ k, k < st.qconf.n_rx_port → st.qconf.rx_burst_try k ≤ c) →
          ∀ k, k < st.qconf.n_rx_port → st1.qconf.rx_burst_try k ≤ c)
        ∧ (∀ k, st.qconf.rx_burst_try k < st1.qconf.rx_burst_try k →
            st1.qconf.rx_burst_try k = st.qconf.rx_burst_try k + 1
            ∧ k = i ∧ nb_rx = 0 ∧ st.qconf.rx_burst_try k < c)
        ∧ (nb_rx = 0 → st.qconf.start_rx_flag i = true → st.qconf.rx_burst_try i < c →
            st.qconf.rx_burst_try i < 65535 →
            st1.qconf.rx_burst_try i = st.qconf.rx_burst_try i + 1) := by
  refine ⟨?_, ?_, ?_⟩
  · intro hwf
    exact seq_loop_total (l2fwd_main_loop_tick cfg drain_tsc) ticks
      (fun s t ht => tick_total cfg drain_tsc s t (hwf t ht))
      ticks (l2fwd_main_loop_init st0).2 (fun _ ha => ha)
  · intro flow s hrun
    have hi := main_init_counters st0 hn
    exact (seq_loop_inv (l2fwd_main_loop_tick cfg drain_tsc)
      (fun s => s.st.qconf.n_rx_port = st0.qconf.n_rx_port
        ∧ ∀ k, k < st0.qconf.n_rx_port → s.st.qconf.rx_burst_try k ≤ c) ticks
      (fun s2 t fl s3 _ hP2 hb =>
        tick_counter_bound cfg c st0.qconf.n_rx_port drain_tsc hcfg s2 t fl s3 hP2 hb)
      ticks (l2fwd_main_loop_init st0).2 flow s (fun _ ha => ha)
      ⟨hi.1, fun k hk => by rw [hi.2 k hk]; exact Nat.zero_le c⟩ hrun).2
  · intro st i nb_rx pkts flow st1 h
    obtain ⟨_, hk⟩ := rx_counter_step cfg st i nb_rx pkts flow st1 h
    refine ⟨fun hb => (rx_counter_bound cfg c st.qconf.n_rx_port hcfg st i nb_rx pkts flow st1
        ⟨rfl, hb⟩ h).2, fun k hlt => ?_, fun h0 hflag hlt h16 => ?_⟩
    · rcases hk k with e | e | ⟨e, hki, h0, _, hc⟩
      · omega
      · omega
      · rw [hcfg] at hc
        have hne : (st.qconf.rx_burst_try k + 1) % 65536 ≠ 0 := by omega
        have h16 : st.qconf.rx_burst_try k + 1 < 65536 := by
          by_contra hge
          have := Nat.mod_lt (st.qconf.rx_burst_try k + 1) (by decide : 0 < 65536)
          omega
        rw [Nat.mod_eq_of_lt h16] at e
        exact ⟨e, hki, h0, by omega⟩
    · have htry0 : cfg.max_poll_short_try ≠ 0 := by rw [hcfg]; omega
      have hlt2 : (st.qconf.rx_burst_try i : Int) < cfg.max_poll_short_try := by
        rw [hcfg]; omega
      subst h0
      rw [rx_step_idle_short cfg st i pkts hflag htry0 hlt2] at h
      simp only [Option.some.injEq, Prod.mk.injEq] at h
      obtain ⟨_, rfl⟩ := h
      show setPort st.qconf.rx_burst_try i _ i = _
      unfold setPort
      rw [if_pos rfl, Nat.mod_eq_of_lt (by omega)]

theorem C28_counter_never_exceeds_ceiling_witness :
    sampleConfig.max_poll_short_try = ((3 : Nat) : Int) ∧ sampleState.qconf.n_rx_port ≠ 0
    ∧ ∃ flow s,
        l2fwd_main_loop_run sampleConfig 100 (List.replicate 5 (idleTick 10))
          (l2fwd_main_loop_init sampleState).2 = some (flow, s)
        ∧ s.st.qconf.rx_burst_try 0 = 3
        ∧ ∀ k, k < sampleState.qconf.n_rx_port → s.st.qconf.rx_burst_try k ≤ 3 := by
  obtain ⟨hA, hB, _⟩ := C28_counter_never_exceeds_ceiling sampleConfig 3 100 sampleState
    (List.replicate 5 (idleTick 10)) (by decide) (by decide)
  obtain ⟨flow, s, hrun⟩ := hA (fun t ht i k hk => by
    rw [List.eq_of_mem_replicate ht] at hk
    exact absurd hk (Nat.not_lt_zero k))
  have hs : (l2fwd_main_loop_run sampleConfig 100 (List.replicate 5 (idleTick 10))
      (l2fwd_main_loop_init sampleState).2).map (fun p => p.2.st.qconf.rx_burst_try 0)
        = some 3 := by
    decide
  rw [hrun] at hs
  exact ⟨by decide, by decide, flow, s, hrun, by simpa using hs, hB flow s hrun⟩

/-! ### The port mask option -/

/-- Function `l2fwd_parse_portmask` returns -1 on an empty string, when
`strtoul` stops before the end of the string, and when the value is 0; else it
returns the value converted to `int`. -/
theorem l2fwd_parse_portmask_spec (strtoul : List Char → StrtoulResult)
    (portmask : List Char) :
    l2fwd_parse_portmask strtoul portmask
      = if portmask = [] ∨ (strtoul portmask).endp ≠ some [] ∨ (strtoul portmask).value = 0
        then -1 else to_int32 (strtoul portmask).value := by
  unfold l2fwd_parse_portmask
  by_cases h0 : portmask = []
  · simp [h0]
  · cases he : (strtoul portmask).endp with
    | none => simp [h0]
    | some rest =>
      by_cases hr : rest = []
      · by_cases hv : (strtoul portmask).value = 0
        · simp [h0, hr, hv]
        · simp [h0, hr, hv]
      · simp [h0, hr]

/-- When `l2fwd_parse_portmask` returns -1, the `case 'p':` of
`udp_nc_parse_args` stores 0xFFFFFFFF in `l2fwd_enabled_port_mask`, prints
nothing and goes on. -/
theorem parse_args_p_of_invalid (strtoul : List Char → StrtoulResult) (optarg : List Char)
    (h : l2fwd_parse_portmask strtoul optarg = -1) :
    udp_nc_parse_args_p strtoul optarg
      = { l2fwd_enabled_port_mask := 4294967295, invalid_portmask_printed := false,
          ret := none } := by
  unfold udp_nc_parse_args_p
  rw [h]
  decide

/-- C30 fails on the code: `l2fwd_parse_portmask` does return -1 for an empty
argument, for one that `strtoul` does not read to its end and for the value
0, but `udp_nc_parse_args` stores that result in the `uint32_t`
`l2fwd_enabled_port_mask` and tests it against 0: the stored value is
0xFFFFFFFF, "Invalid portmask" is not printed and parsing goes on.  So it is
for the arguments "", "zz" and "0"; the test fires only for a value that is a
non-zero multiple of 2^32, such as "100000000". -/
theorem C30_invalid_portmask_not_reported (strtoul : List Char → StrtoulResult)
    (optarg : List Char) :
    (l2fwd_parse_portmask strtoul optarg = -1 →
      udp_nc_parse_args_p strtoul optarg
        = { l2fwd_enabled_port_mask := 4294967295, invalid_portmask_printed := false,
            ret := none })
    ∧ ((optarg = [] ∨ (strtoul optarg).endp ≠ some [] ∨ (strtoul optarg).value = 0) →
        l2fwd_parse_portmask strtoul optarg = -1)
    ∧ l2fwd_parse_portmask strtoul16 ['0'] = -1
    ∧ udp_nc_parse_args_p strtoul16 ['0']
        = { l2fwd_enabled_port_mask := 4294967295, invalid_portmask_printed := false,
            ret := none }
    ∧ l2fwd_parse_portmask strtoul16 ['z', 'z'] = -1
    ∧ udp_nc_parse_args_p strtoul16 ['z', 'z']
        = { l2fwd_enabled_port_mask := 4294967295, invalid_portmask_printed := false,
            ret := none }
    ∧ l2fwd_parse_portmask strtoul16 [] = -1
    ∧ udp_nc_parse_args_p strtoul16 []
        = { l2fwd_enabled_port_mask := 4294967295, invalid_portmask_printed := false,
            ret := none }
    ∧ udp_nc_parse_args_p strtoul16 ['3']
        = { l2fwd_enabled_port_mask := 3, invalid_portmask_printed := false, ret := none }
    ∧ udp_nc_parse_args_p strtoul16 ['1', '0', '0', '0', '0', '0', '0', '0', '0']
        = { l2fwd_enabled_port_mask := 0, invalid_portmask_printed := true,
            ret := some (-1) } := by
  refine ⟨parse_args_p_of_invalid strtoul optarg, ?_, by decide, by decide, by decide,
    by decide, by decide, by decide, by decide, by decide⟩
  intro h
  rw [l2fwd_parse_portmask_spec, if_pos h]

end L2fwd
